import Mathlib

/-!
Shallow embedding of `utils/ltop.c`, the curses front end of the Lustre
Monitoring Tool, and the properties proved about it.

C strings are lists of characters (one character per byte, no terminator
stored); `time_t` is `Int`; `uint64_t` counters are `Nat` reduced modulo
`2 ^ 64` where the C arithmetic wraps; `double` readings are exact rationals.
Lists of the `list.h` library are Lean lists in insertion order; a pointer
returned by `list_find_first` and then written through is an in-place update
of the first matching element. Where sharing between two registries is at
stake, `_summarize_ost` is embedded a second time on an explicit memory of
records and Samples, in which a registry is a list of addresses.
-/

namespace Ltop

set_option linter.unusedVariables false

/-! ## C library string functions -/

/-- `strcmp`, as far as the C standard fixes it: the sign (`-1`, `0` or `1`) of the
comparison of the first pair of differing bytes, a string that ends first being
the smaller one. -/
def strcmp : List Char → List Char → Int
  | [], [] => 0
  | [], _ :: _ => -1
  | _ :: _, [] => 1
  | a :: s, b :: t => if a = b then strcmp s t else if a.toNat < b.toNat then -1 else 1

/-- `strncmp`: `strcmp` restricted to the first `n` bytes of both strings. -/
def strncmp (s t : List Char) (n : Nat) : Int :=
  strcmp (s.take n) (t.take n)

/-- `strlen`. -/
def strlen (s : List Char) : Nat := s.length

/-- `strchr`: offset of the first occurrence of `c` in `s`, if any. -/
def strchr : List Char → Char → Option Nat
  | [], _ => none
  | a :: s, c => if a = c then some 0 else (strchr s c).map (· + 1)

/-- `strstr`: offset of the first occurrence of `pat` in `s`, if any. -/
def strstr : List Char → List Char → Option Nat
  | [], pat => if pat.isEmpty then some 0 else none
  | a :: s, pat =>
    if pat.isPrefixOf (a :: s) then some 0 else (strstr s pat).map (· + 1)

/-- `isdigit` in the C locale. -/
def isdigit (c : Char) : Bool := decide (48 ≤ c.toNat) && decide (c.toNat ≤ 57)

/-- `isspace` in the C locale: space, `\t`, `\n`, `\v`, `\f`, `\r`. -/
def isspace (c : Char) : Bool :=
  decide (c.toNat = 32) || (decide (9 ≤ c.toNat) && decide (c.toNat ≤ 13))

/-- `ULONG_MAX` of the LP64 platforms the tool is built for. -/
def ULONG_MAX : Nat := 2 ^ 64 - 1

/-- Value of a run of decimal digits, most significant first. -/
def decimal_value (ds : List Char) : Nat :=
  ds.foldl (fun acc c => acc * 10 + (c.toNat - 48)) 0

/-- `strtoul (p, NULL, 10)` on a string that starts with a decimal digit or is
empty: the value of the leading run of digits, clamped to `ULONG_MAX` when it
does not fit an `unsigned long`. -/
def strtoul (s : List Char) : Nat := min (decimal_value (s.takeWhile isdigit)) ULONG_MAX

/-- The decimal digits of `n`, most significant first; `fuel` bounds their number. -/
def decimal_digits : Nat → Nat → List Char
  | 0, _ => []
  | fuel + 1, n =>
    if n < 10 then [Char.ofNat (48 + n)]
    else decimal_digits fuel (n / 10) ++ [Char.ofNat (48 + n % 10)]

/-- Output of `printf` for an unsigned decimal conversion (`%u`, `PRIu64`). -/
def print_decimal (n : Nat) : List Char := decimal_digits (n + 1) n

/-- Output of `printf ("%d")`. -/
def print_int (k : Int) : List Char :=
  if k < 0 then '-' :: print_decimal (-k).toNat else print_decimal k.toNat

/-- Conversion of an `unsigned long` to `int`: the low 32 bits, read as signed. -/
def to_int (n : Nat) : Int :=
  if n % 2 ^ 32 < 2 ^ 31 then ((n % 2 ^ 32 : Nat) : Int) else ((n % 2 ^ 32 : Nat) : Int) - 2 ^ 32

/-- Number of low bits that a `uint64_t` of value `n` loses when it is converted
to `double` (53 significant bits); `fuel` bounds the count, 11 being enough below
`2 ^ 64`. -/
def double_ulp_exp : Nat → Nat → Nat
  | 0, _ => 0
  | fuel + 1, n => if n < 2 ^ 53 then 0 else double_ulp_exp fuel (n / 2) + 1

/-- The conversion `(double) n` of a `uint64_t` (IEEE 754 binary64, rounding to
nearest, ties to even): `n` itself up to `2 ^ 53`, above that the nearest
multiple of `2 ^ e`, where `e` is the number of bits lost. -/
def double_of_uint64 (n : Nat) : ℚ :=
  let e := double_ulp_exp 11 n
  let q := n / 2 ^ e
  let r := n % 2 ^ e
  let m := if 2 * r < 2 ^ e then q else if 2 ^ e < 2 * r then q + 1
    else if q % 2 = 0 then q else q + 1
  ((m * 2 ^ e : Nat) : ℚ)

/-- `snprintf (dst, size, "%s", src)`: `src` cut to `size - 1` bytes. -/
def snprintf_s (size : Nat) (src : List Char) : List Char := src.take (size - 1)

/-- `strncpy (dst, src, n)` into a zeroed buffer: the first `n` bytes of `src`. -/
def strncpy (src : List Char) (n : Nat) : List Char := src.take n

/-! ## Sample (`sample.h`) -/

/-- Modelled from the spec: the `sample_t` cell of `sample.c`, which is not part
of the sources at hand (section 3: last value, last timestamp, previous value,
previous timestamp, staleness window, validity flags). `valid` counts the valid
readings (0, 1 or 2). -/
structure sample_t where
  last : ℚ
  last_time : Int
  prev : ℚ
  prev_time : Int
  window : Int
  valid : Nat
  deriving DecidableEq

/-- Modelled from the spec: `create(window)`, a new, empty sample with staleness
window `window` (`sample_create` of the missing `sample.c`). -/
def sample_create (stale_secs : Int) : sample_t :=
  { last := 0, last_time := 0, prev := 0, prev_time := 0,
    window := stale_secs, valid := 0 }

/-- Modelled from the spec: `update(value, at)` records `(value, at)` as the new
last reading and demotes the former last reading to previous; after an
`invalidate` it is a fresh first reading (`sample_update` of the missing
`sample.c`). -/
def sample_update (s : sample_t) (val : ℚ) (t : Int) : sample_t :=
  if s.valid = 0 then
    { s with last := val, last_time := t, valid := 1 }
  else
    { s with prev := s.last, prev_time := s.last_time,
             last := val, last_time := t, valid := 2 }

/-- Modelled from the spec: `invalidate()` discards the previous reading, so that
the next `update` is a fresh first reading and the following `rate` is unknown;
the last reading stays readable through `value` (`sample_invalidate` of the
missing `sample.c`). -/
def sample_invalidate (s : sample_t) : sample_t :=
  { s with valid := 0 }

/-- Modelled from the spec: `value(now)` is the last reading if
`now - last_timestamp ≤ window`, else unknown (`sample_val` of the missing
`sample.c`; `none` is "unknown"). -/
def sample_val (s : sample_t) (tnow : Int) : Option ℚ :=
  if tnow - s.last_time ≤ s.window then some s.last else none

/-- Modelled from the spec: `rate(now)` is
`(last - previous) / (last_time - previous_time)` if both readings are valid, not
stale, and `previous_time < last_time`; else unknown (`sample_rate` of the
missing `sample.c`; `none` is "unknown"). -/
def sample_rate (s : sample_t) (tnow : Int) : Option ℚ :=
  if s.valid = 2 ∧ tnow - s.last_time ≤ s.window ∧ s.prev_time < s.last_time then
    some ((s.last - s.prev) / ((s.last_time - s.prev_time : Int) : ℚ))
  else none

/-- Modelled from the spec: `copy()`, an independent duplicate (`sample_copy` of
the missing `sample.c`). -/
def sample_copy (s : sample_t) : sample_t := s

/-- Modelled from the spec: `add(other)` accumulates `other` into `self`, both
readings, so that the rate is the sum of the two rates when the reading
timestamps agree (`sample_add` of the missing `sample.c`). -/
def sample_add (s1 s2 : sample_t) : sample_t :=
  { s1 with last := s1.last + s2.last, prev := s1.prev + s2.prev }

/-- Modelled from the spec: `min(other)` keeps the smaller current value
(`sample_min` of the missing `sample.c`). -/
def sample_min (s1 s2 : sample_t) : sample_t :=
  { s1 with last := min s1.last s2.last }

/-- Modelled from the spec: the order `compare` of section 4.1 on two readings
that may be unknown: unknown is lower than any number, numbers compare as usual;
the result is -1, 0 or 1. -/
def cmp_unknown_low (a b : Option ℚ) : Int :=
  match a, b with
  | none, none => 0
  | none, some _ => -1
  | some _, none => 1
  | some x, some y => if x < y then -1 else if y < x then 1 else 0

/-- Modelled from the spec: `sample_val_cmp (s1, s2, tnow)`, the order `compare` of
section 4.1 on the values of two Samples at `tnow`. -/
def sample_val_cmp (s1 s2 : sample_t) (tnow : Int) : Int :=
  cmp_unknown_low (sample_val s1 tnow) (sample_val s2 tnow)

/-- Modelled from the spec: `sample_rate_cmp (s1, s2, tnow)`, the order `compare` of
section 4.1 on the rates of two Samples at `tnow`. -/
def sample_rate_cmp (s1 s2 : sample_t) (tnow : Int) : Int :=
  cmp_unknown_low (sample_rate s1 tnow) (sample_rate s2 tnow)

/-! ## Target records -/

/-- `MAXHOSTNAMELEN`. -/
def MAXHOSTNAMELEN : Nat := 64

/-- The record `oststat_t`. -/
structure oststat_t where
  fsname : List Char
  name : List Char
  oscstate : List Char
  rbytes : sample_t
  wbytes : sample_t
  iops : sample_t
  num_exports : sample_t
  lock_count : sample_t
  grant_rate : sample_t
  cancel_rate : sample_t
  connect : sample_t
  kbytes_free : sample_t
  kbytes_total : sample_t
  recov_status : List Char
  ost_metric_timestamp : Int
  ossname : List Char
  tag : Int
  deriving DecidableEq

/-- `list_find_first (l, f, key)`: the first element of `l` that `f` accepts. -/
def list_find_first {α : Type} (l : List α) (f : α → Bool) : Option α :=
  l.find? f

/-- In-place write through the pointer returned by `list_find_first`: the first
element that `f` accepts is replaced by its image under `g`; `none` when no
element is accepted. -/
def list_update_first {α : Type} (f : α → Bool) (g : α → α) : List α → Option (List α)
  | [] => none
  | a :: l => if f a then some (g a :: l) else (list_update_first f g l).map (a :: ·)

/-- The function `_match_oststat`: compare an entity index with the part of the
target name after `-OST` (the whole name if there is none). -/
def _match_oststat (o : oststat_t) (name : List Char) : Bool :=
  match strstr name "-OST".toList with
  | some p => strcmp o.name (name.drop (p + 4)) == 0
  | none => strcmp o.name name == 0

/-- The function `_match_oststat2`: match by owning-node name. -/
def _match_oststat2 (o : oststat_t) (name : List Char) : Bool :=
  strcmp o.ossname name == 0

/-- The function `_create_oststat`. The index is cut to the 16 bytes of its
field. The filesystem prefix before `-OST` is copied in full: the C field holds
16 bytes and a longer prefix overruns it, which this embedding does not
describe. -/
def _create_oststat (name : List Char) (stale_secs : Int) : oststat_t :=
  let ostx := strstr name "-OST".toList
  { name := strncpy (match ostx with | some p => name.drop (p + 4) | none => name) 16,
    fsname := strncpy name (match ostx with | some p => p | none => 16),
    oscstate := [],
    rbytes := sample_create stale_secs,
    wbytes := sample_create stale_secs,
    iops := sample_create stale_secs,
    num_exports := sample_create stale_secs,
    lock_count := sample_create stale_secs,
    grant_rate := sample_create stale_secs,
    cancel_rate := sample_create stale_secs,
    connect := sample_create stale_secs,
    kbytes_free := sample_create stale_secs,
    kbytes_total := sample_create stale_secs,
    recov_status := [],
    ost_metric_timestamp := 0,
    ossname := [],
    tag := 0 }

/-- The function `_copy_oststat`. -/
def _copy_oststat (o1 : oststat_t) : oststat_t :=
  { o1 with
    rbytes := sample_copy o1.rbytes,
    wbytes := sample_copy o1.wbytes,
    iops := sample_copy o1.iops,
    num_exports := sample_copy o1.num_exports,
    lock_count := sample_copy o1.lock_count,
    grant_rate := sample_copy o1.grant_rate,
    cancel_rate := sample_copy o1.cancel_rate,
    connect := sample_copy o1.connect,
    kbytes_free := sample_copy o1.kbytes_free,
    kbytes_total := sample_copy o1.kbytes_total }

/-- The function `_fsmatch`. -/
def _fsmatch (name fs : List Char) : Bool :=
  let len := match strchr name '-' with
    | some p => p
    | none => strlen name
  decide (strlen fs = len) && (strncmp name fs len == 0)

/-- Body of `_update_osc` once the entity `o` is at hand. -/
def _update_osc_entity (state : List Char) (tnow trcv stale_secs : Int)
    (o : oststat_t) : oststat_t :=
  if tnow - trcv > stale_secs then
    { o with oscstate := strncpy [] 1 }
  else
    { o with oscstate := strncpy state 1 }

/-- The function `_update_osc`. -/
def _update_osc (name state : List Char) (ost_data : List oststat_t)
    (tnow trcv stale_secs : Int) : List oststat_t :=
  match list_update_first (fun o => _match_oststat o name)
      (_update_osc_entity state tnow trcv stale_secs) ost_data with
  | some l => l
  | none =>
    ost_data ++ [_update_osc_entity state tnow trcv stale_secs
      (_create_oststat name stale_secs)]

/-- One decoded OST report (the arguments of `_update_ost`). -/
structure ost_report where
  ostname : List Char
  ossname : List Char
  read_bytes : Nat
  write_bytes : Nat
  iops : Nat
  num_exports : Nat
  lock_count : Nat
  grant_rate : Nat
  cancel_rate : Nat
  connect : Nat
  recov_status : List Char
  kbytes_free : Nat
  kbytes_total : Nat
  deriving DecidableEq

/-- The failover/failback block of `_update_ost`. -/
def _update_ost_failover (r : ost_report) (o : oststat_t) : oststat_t :=
  if strcmp r.ossname o.ossname != 0 then
    { o with
      rbytes := sample_invalidate o.rbytes,
      wbytes := sample_invalidate o.wbytes,
      iops := sample_invalidate o.iops,
      num_exports := sample_invalidate o.num_exports,
      lock_count := sample_invalidate o.lock_count,
      kbytes_free := sample_invalidate o.kbytes_free,
      kbytes_total := sample_invalidate o.kbytes_total,
      ossname := snprintf_s MAXHOSTNAMELEN r.ossname }
  else o

/-- Body of `_update_ost` once the entity `o` is at hand. -/
def _update_ost_entity (r : ost_report) (trcv : Int) (o : oststat_t) : oststat_t :=
  if o.ost_metric_timestamp < trcv then
    let o := _update_ost_failover r o
    { o with
      ost_metric_timestamp := trcv,
      rbytes := sample_update o.rbytes (double_of_uint64 r.read_bytes) trcv,
      wbytes := sample_update o.wbytes (double_of_uint64 r.write_bytes) trcv,
      iops := sample_update o.iops (double_of_uint64 r.iops) trcv,
      num_exports := sample_update o.num_exports (double_of_uint64 r.num_exports) trcv,
      lock_count := sample_update o.lock_count (double_of_uint64 r.lock_count) trcv,
      grant_rate := sample_update o.grant_rate (double_of_uint64 r.grant_rate) trcv,
      cancel_rate := sample_update o.cancel_rate (double_of_uint64 r.cancel_rate) trcv,
      connect := sample_update o.connect (double_of_uint64 r.connect) trcv,
      kbytes_free := sample_update o.kbytes_free (double_of_uint64 r.kbytes_free) trcv,
      kbytes_total := sample_update o.kbytes_total (double_of_uint64 r.kbytes_total) trcv,
      recov_status := snprintf_s 32 r.recov_status }
  else o

/-- The function `_update_ost`. -/
def _update_ost (r : ost_report) (ost_data : List oststat_t)
    (tnow trcv stale_secs : Int) : List oststat_t :=
  match list_update_first (fun o => _match_oststat o r.ostname)
      (_update_ost_entity r trcv) ost_data with
  | some l => l
  | none => ost_data ++ [_update_ost_entity r trcv (_create_oststat r.ostname stale_secs)]

/-- The record `mdtstat_t` (the field `open` is written `open_`). -/
structure mdtstat_t where
  fsname : List Char
  name : List Char
  inodes_free : sample_t
  inodes_total : sample_t
  open_ : sample_t
  close : sample_t
  getattr : sample_t
  setattr : sample_t
  link : sample_t
  unlink : sample_t
  mkdir : sample_t
  rmdir : sample_t
  statfs : sample_t
  rename : sample_t
  getxattr : sample_t
  mdt_metric_timestamp : Int
  mdsname : List Char
  deriving DecidableEq

/-- The function `_match_mdtstat`. -/
def _match_mdtstat (m : mdtstat_t) (name : List Char) : Bool :=
  match strstr name "-MDT".toList with
  | some p => strcmp m.name (name.drop (p + 4)) == 0
  | none => strcmp m.name name == 0

/-- The function `_create_mdtstat`; the two name fields as in `_create_oststat`. -/
def _create_mdtstat (name : List Char) (stale_secs : Int) : mdtstat_t :=
  let mdtx := strstr name "-MDT".toList
  { name := strncpy (match mdtx with | some p => name.drop (p + 4) | none => name) 16,
    fsname := strncpy name (match mdtx with | some p => p | none => 16),
    inodes_free := sample_create stale_secs,
    inodes_total := sample_create stale_secs,
    open_ := sample_create stale_secs,
    close := sample_create stale_secs,
    getattr := sample_create stale_secs,
    setattr := sample_create stale_secs,
    link := sample_create stale_secs,
    unlink := sample_create stale_secs,
    mkdir := sample_create stale_secs,
    rmdir := sample_create stale_secs,
    statfs := sample_create stale_secs,
    rename := sample_create stale_secs,
    getxattr := sample_create stale_secs,
    mdt_metric_timestamp := 0,
    mdsname := [] }

/-! ## Decoding of metric strings (`ost.h`, `mdt.h`, `osc.h`) -/

/-- Fields that `lmt_ost_decode_v2_ostinfo` extracts for one target. -/
structure ostinfo_v2 where
  ostname : List Char
  read_bytes : Nat
  write_bytes : Nat
  kbytes_free : Nat
  kbytes_total : Nat
  inodes_free : Nat
  inodes_total : Nat
  iops : Nat
  num_exports : Nat
  lock_count : Nat
  grant_rate : Nat
  cancel_rate : Nat
  connect : Nat
  reconnect : Nat
  recov_status : List Char

/-- Fields that `lmt_mdt_decode_v1_mdtinfo` extracts for one target. -/
structure mdtinfo_v1 where
  mdtname : List Char
  inodes_free : Nat
  inodes_total : Nat
  kbytes_free : Nat
  kbytes_total : Nat
  mdops : List (List Char)

/-- Fields that `lmt_mdt_decode_v1_mdops` extracts for one operation. -/
structure mdop_v1 where
  opname : List Char
  samples : Nat
  sum : Nat
  sumsquares : Nat

/-- The wire-format decoders of the metric library, which the tool consumes as
an interface; `none` stands for a failed decode. The float `sscanf` of the
leading version number is part of the same boundary: `scan_version` gives the
number read by `sscanf (s, "%f;", &vers)`, if one is read. -/
structure Decoder where
  scan_version : List Char → Option ℚ
  lmt_ost_decode_v2 : List Char → Option (List Char × List (List Char))
  lmt_ost_decode_v2_ostinfo : List Char → Option ostinfo_v2
  lmt_mdt_decode_v1 : List Char → Option (List Char × List (List Char))
  lmt_mdt_decode_v1_mdtinfo : List Char → Option mdtinfo_v1
  lmt_mdt_decode_v1_mdops : List Char → Option mdop_v1
  lmt_osc_decode_v1 : List Char → Option (List Char × List (List Char))
  lmt_osc_decode_v1_oscinfo : List Char → Option (List Char × List Char)

/-- The test `!fs || _fsmatch (name, fs)`. -/
def fs_accepts (fs : Option (List Char)) (name : List Char) : Bool :=
  match fs with
  | none => true
  | some f => _fsmatch name f

/-- Loop body of `_decode_osc_v1` for one element `s` of the decoded list. -/
def _decode_osc_v1_item (D : Decoder) (fs : Option (List Char)) (tnow trcv stale_secs : Int)
    (ost_data : List oststat_t) (s : List Char) : List oststat_t :=
  match D.lmt_osc_decode_v1_oscinfo s with
  | some (oscname, oscstate) =>
    if fs_accepts fs oscname then _update_osc oscname oscstate ost_data tnow trcv stale_secs
    else ost_data
  | none => ost_data

/-- The function `_decode_osc_v1`. -/
def _decode_osc_v1 (D : Decoder) (val : List Char) (fs : Option (List Char))
    (ost_data : List oststat_t) (tnow trcv stale_secs : Int) : List oststat_t :=
  match D.lmt_osc_decode_v1 val with
  | none => ost_data
  | some (_, oscinfo) => oscinfo.foldl (_decode_osc_v1_item D fs tnow trcv stale_secs) ost_data

/-- The call of `_update_ost` made by `_decode_ost_v2` for one decoded target. -/
def ost_report_of (ossname : List Char) (i : ostinfo_v2) : ost_report :=
  { ostname := i.ostname, ossname := ossname, read_bytes := i.read_bytes,
    write_bytes := i.write_bytes, iops := i.iops, num_exports := i.num_exports,
    lock_count := i.lock_count, grant_rate := i.grant_rate, cancel_rate := i.cancel_rate,
    connect := (i.connect + i.reconnect) % 2 ^ 64, recov_status := i.recov_status,
    kbytes_free := i.kbytes_free, kbytes_total := i.kbytes_total }

/-- Loop body of `_decode_ost_v2` for one element `s` of the decoded list. -/
def _decode_ost_v2_item (D : Decoder) (ossname : List Char) (fs : Option (List Char))
    (tnow trcv stale_secs : Int) (ost_data : List oststat_t) (s : List Char) :
    List oststat_t :=
  match D.lmt_ost_decode_v2_ostinfo s with
  | some i =>
    if fs_accepts fs i.ostname then
      _update_ost (ost_report_of ossname i) ost_data tnow trcv stale_secs
    else ost_data
  | none => ost_data

/-- The function `_decode_ost_v2`. -/
def _decode_ost_v2 (D : Decoder) (val : List Char) (fs : Option (List Char))
    (ost_data : List oststat_t) (tnow trcv stale_secs : Int) : List oststat_t :=
  match D.lmt_ost_decode_v2 val with
  | none => ost_data
  | some (ossname, ostinfo) =>
    ostinfo.foldl (_decode_ost_v2_item D ossname fs tnow trcv stale_secs) ost_data

/-- The failover/failback block of `_update_mdt`. -/
def _update_mdt_failover (mdsname : List Char) (m : mdtstat_t) : mdtstat_t :=
  if strcmp mdsname m.mdsname != 0 then
    { m with
      inodes_free := sample_invalidate m.inodes_free,
      inodes_total := sample_invalidate m.inodes_total,
      open_ := sample_invalidate m.open_,
      close := sample_invalidate m.close,
      getattr := sample_invalidate m.getattr,
      setattr := sample_invalidate m.setattr,
      link := sample_invalidate m.link,
      unlink := sample_invalidate m.unlink,
      mkdir := sample_invalidate m.mkdir,
      rmdir := sample_invalidate m.rmdir,
      statfs := sample_invalidate m.statfs,
      rename := sample_invalidate m.rename,
      getxattr := sample_invalidate m.getxattr,
      mdsname := snprintf_s MAXHOSTNAMELEN mdsname }
  else m

/-- Loop body of `_update_mdt` over the operation list `mdops`. -/
def _update_mdt_mdop (D : Decoder) (trcv : Int) (m : mdtstat_t) (s : List Char) : mdtstat_t :=
  match D.lmt_mdt_decode_v1_mdops s with
  | some op =>
    if strcmp op.opname "open".toList == 0 then
      { m with open_ := sample_update m.open_ (double_of_uint64 op.samples) trcv }
    else if strcmp op.opname "close".toList == 0 then
      { m with close := sample_update m.close (double_of_uint64 op.samples) trcv }
    else if strcmp op.opname "getattr".toList == 0 then
      { m with getattr := sample_update m.getattr (double_of_uint64 op.samples) trcv }
    else if strcmp op.opname "setattr".toList == 0 then
      { m with setattr := sample_update m.setattr (double_of_uint64 op.samples) trcv }
    else if strcmp op.opname "link".toList == 0 then
      { m with link := sample_update m.link (double_of_uint64 op.samples) trcv }
    else if strcmp op.opname "unlink".toList == 0 then
      { m with unlink := sample_update m.unlink (double_of_uint64 op.samples) trcv }
    else if strcmp op.opname "mkdir".toList == 0 then
      { m with mkdir := sample_update m.mkdir (double_of_uint64 op.samples) trcv }
    else if strcmp op.opname "rmdir".toList == 0 then
      { m with rmdir := sample_update m.rmdir (double_of_uint64 op.samples) trcv }
    else if strcmp op.opname "statfs".toList == 0 then
      { m with statfs := sample_update m.statfs (double_of_uint64 op.samples) trcv }
    else if strcmp op.opname "rename".toList == 0 then
      { m with rename := sample_update m.rename (double_of_uint64 op.samples) trcv }
    else if strcmp op.opname "getxattr".toList == 0 then
      { m with getxattr := sample_update m.getxattr (double_of_uint64 op.samples) trcv }
    else m
  | none => m

/-- Body of `_update_mdt` once the entity `m` is at hand. -/
def _update_mdt_entity (D : Decoder) (mdsname : List Char) (inodes_free inodes_total : Nat)
    (mdops : List (List Char)) (trcv : Int) (m : mdtstat_t) : mdtstat_t :=
  if m.mdt_metric_timestamp < trcv then
    let m := _update_mdt_failover mdsname m
    let m := { m with
      mdt_metric_timestamp := trcv,
      inodes_free := sample_update m.inodes_free (double_of_uint64 inodes_free) trcv,
      inodes_total := sample_update m.inodes_total (double_of_uint64 inodes_total) trcv }
    mdops.foldl (_update_mdt_mdop D trcv) m
  else m

/-- The function `_update_mdt`. -/
def _update_mdt (D : Decoder) (mdtname mdsname : List Char)
    (inodes_free inodes_total kbytes_free kbytes_total : Nat) (mdops : List (List Char))
    (mdt_data : List mdtstat_t) (tnow trcv stale_secs : Int) : List mdtstat_t :=
  match list_update_first (fun m => _match_mdtstat m mdtname)
      (_update_mdt_entity D mdsname inodes_free inodes_total mdops trcv) mdt_data with
  | some l => l
  | none =>
    mdt_data ++ [_update_mdt_entity D mdsname inodes_free inodes_total mdops trcv
      (_create_mdtstat mdtname stale_secs)]

/-- Loop body of `_decode_mdt_v1` for one element `s` of the decoded list. -/
def _decode_mdt_v1_item (D : Decoder) (mdsname : List Char) (fs : Option (List Char))
    (tnow trcv stale_secs : Int) (mdt_data : List mdtstat_t) (s : List Char) :
    List mdtstat_t :=
  match D.lmt_mdt_decode_v1_mdtinfo s with
  | some i =>
    if fs_accepts fs i.mdtname then
      _update_mdt D i.mdtname mdsname i.inodes_free i.inodes_total i.kbytes_free
        i.kbytes_total i.mdops mdt_data tnow trcv stale_secs
    else mdt_data
  | none => mdt_data

/-- The function `_decode_mdt_v1`. -/
def _decode_mdt_v1 (D : Decoder) (val : List Char) (fs : Option (List Char))
    (mdt_data : List mdtstat_t) (tnow trcv stale_secs : Int) : List mdtstat_t :=
  match D.lmt_mdt_decode_v1 val with
  | none => mdt_data
  | some (mdsname, mdtinfo) =>
    mdtinfo.foldl (_decode_mdt_v1_item D mdsname fs tnow trcv stale_secs) mdt_data

/-! ## Comparators -/

/-- The function `_numerical_suffix`: the offset at which the trailing run of
decimal digits of `s` starts and, when that run is not empty, the number
`strtoul` reads there (the C code leaves `*np` unset otherwise). -/
def _numerical_suffix (s : List Char) : Nat × Option Nat :=
  let p := s.length - (s.reverse.takeWhile isdigit).length
  (p, if p < s.length then some (strtoul (s.drop p)) else none)

/-- The function `_cmp_oststat_byoss`. -/
def _cmp_oststat_byoss (o1 o2 : oststat_t) : Int :=
  match _numerical_suffix o1.ossname, _numerical_suffix o2.ossname with
  | (p1, some n1), (p2, some n2) =>
    if p1 = p2 ∧ strncmp o1.ossname o2.ossname p1 = 0 then
      (if n1 < n2 then -1 else if n1 > n2 then 1 else 0)
    else strcmp o1.ossname o2.ossname
  | _, _ => strcmp o1.ossname o2.ossname

/-- The function `_cmp_oststat_byost`. -/
def _cmp_oststat_byost (o1 o2 : oststat_t) : Int :=
  strcmp o1.name o2.name

/-- The function `_cmp_oststat_byexp`; the global `sort_tnow` is a parameter. -/
def _cmp_oststat_byexp (sort_tnow : Int) (o1 o2 : oststat_t) : Int :=
  sample_val_cmp o1.num_exports o2.num_exports sort_tnow

/-- The function `_cmp_oststat_bylocks`. -/
def _cmp_oststat_bylocks (sort_tnow : Int) (o1 o2 : oststat_t) : Int :=
  -1 * sample_val_cmp o1.lock_count o2.lock_count sort_tnow

/-- The function `_cmp_oststat_bylgr`. -/
def _cmp_oststat_bylgr (sort_tnow : Int) (o1 o2 : oststat_t) : Int :=
  -1 * sample_val_cmp o1.grant_rate o2.grant_rate sort_tnow

/-- The function `_cmp_oststat_bylcr`. -/
def _cmp_oststat_bylcr (sort_tnow : Int) (o1 o2 : oststat_t) : Int :=
  -1 * sample_val_cmp o1.cancel_rate o2.cancel_rate sort_tnow

/-- The function `_cmp_oststat_byconn`. -/
def _cmp_oststat_byconn (sort_tnow : Int) (o1 o2 : oststat_t) : Int :=
  -1 * sample_val_cmp o1.connect o2.connect sort_tnow

/-- The function `_cmp_oststat_byiops`. -/
def _cmp_oststat_byiops (sort_tnow : Int) (o1 o2 : oststat_t) : Int :=
  -1 * sample_rate_cmp o1.iops o2.iops sort_tnow

/-- The function `_cmp_oststat_byrbw`. -/
def _cmp_oststat_byrbw (sort_tnow : Int) (o1 o2 : oststat_t) : Int :=
  -1 * sample_rate_cmp o1.rbytes o2.rbytes sort_tnow

/-- The function `_cmp_oststat_bywbw`. -/
def _cmp_oststat_bywbw (sort_tnow : Int) (o1 o2 : oststat_t) : Int :=
  -1 * sample_rate_cmp o1.wbytes o2.wbytes sort_tnow

/-- The type `sort_t`. -/
inductive sort_t where
  | SORT_OST
  | SORT_OSS
  | SORT_RBW
  | SORT_WBW
  | SORT_IOPS
  | SORT_EXP
  | SORT_LOCKS
  | SORT_LGR
  | SORT_LCR
  | SORT_CONN
  deriving DecidableEq

/-! ## Aggregation by owning node -/

/-- Modelled from the spec: `list_sort` of the list library (`list.c` is not part
of the sources at hand), a stable sort (sections 4.3, 4.4 and 9): every element
is inserted, in list order, before the first element it is strictly smaller
than. -/
def list_sort_insert {α : Type} (cmp : α → α → Int) (x : α) : List α → List α
  | [] => [x]
  | y :: ys => if cmp x y < 0 then x :: y :: ys else y :: list_sort_insert cmp x ys

/-- Modelled from the spec: `list_sort (l, cmp)`, see `list_sort_insert`. -/
def list_sort {α : Type} (cmp : α → α → Int) (l : List α) : List α :=
  l.foldl (fun acc x => list_sort_insert cmp x acc) []

/-- The branch `if (o2)` of `_summarize_ost`: the target `o` is accumulated into
the record `o2` of its node. -/
def _summarize_ost_merge (o2 o : oststat_t) : oststat_t :=
  { o2 with
    rbytes := sample_add o2.rbytes o.rbytes,
    wbytes := sample_add o2.wbytes o.wbytes,
    iops := sample_add o2.iops o.iops,
    kbytes_free := sample_add o2.kbytes_free o.kbytes_free,
    kbytes_total := sample_add o2.kbytes_total o.kbytes_total,
    lock_count := sample_add o2.lock_count o.lock_count,
    grant_rate := sample_add o2.grant_rate o.grant_rate,
    cancel_rate := sample_add o2.cancel_rate o.cancel_rate,
    connect := sample_add o2.connect o.connect,
    ost_metric_timestamp :=
      if o.ost_metric_timestamp > o2.ost_metric_timestamp then o.ost_metric_timestamp
      else o2.ost_metric_timestamp,
    oscstate := if strcmp o.oscstate "F".toList != 0 then o.oscstate else o2.oscstate,
    recov_status :=
      if strncmp o.recov_status "COMPLETE".toList 8 != 0 then o.recov_status
      else o2.recov_status,
    num_exports := sample_min o2.num_exports o.num_exports,
    name := snprintf_s 17
      ('(' :: print_int (to_int (strtoul (o2.name.drop 1)) + 1) ++ [')']),
    tag := if o.tag ≠ 0 then o.tag else o2.tag }

/-- The branch `else` of `_summarize_ost`: the first target of a node is copied
and its index replaced by the count `(1)`. -/
def _summarize_ost_first (o : oststat_t) : oststat_t :=
  { _copy_oststat o with name := snprintf_s 17 ('(' :: print_int 1 ++ [')']) }

/-- Loop body of `_summarize_ost` for the target `o`. -/
def _summarize_ost_step (oss_data : List oststat_t) (o : oststat_t) : List oststat_t :=
  match list_update_first (fun o2 => _match_oststat2 o2 o.ossname)
      (fun o2 => _summarize_ost_merge o2 o) oss_data with
  | some l => l
  | none => oss_data ++ [_summarize_ost_first o]

/-- The first loop of `_summarize_ost`: as long as `list_dequeue` hands out a
record of `oss_data`, that record is taken off the list and destroyed. -/
def _summarize_ost_clear : List oststat_t → List oststat_t
  | [] => []
  | _ :: rest => _summarize_ost_clear rest

/-- The function `_summarize_ost`: the former content of `oss_data` is dropped,
one record per owning node is built from `ost_data`, and the result is sorted
by node name. -/
def _summarize_ost (ost_data oss_data : List oststat_t) (stale_secs : Int) :
    List oststat_t :=
  let oss_data := _summarize_ost_clear oss_data
  list_sort _cmp_oststat_byoss (ost_data.foldl _summarize_ost_step oss_data)

/-- The comparator that the `switch` of `_sort_ostlist` picks for the key `s`,
with `sort_tnow` set to `tnow`. -/
def _sort_ostlist_cmp (s : sort_t) (tnow : Int) : oststat_t → oststat_t → Int :=
  match s with
  | sort_t.SORT_OST => _cmp_oststat_byost
  | sort_t.SORT_OSS => _cmp_oststat_byoss
  | sort_t.SORT_RBW => _cmp_oststat_byrbw tnow
  | sort_t.SORT_WBW => _cmp_oststat_bywbw tnow
  | sort_t.SORT_IOPS => _cmp_oststat_byiops tnow
  | sort_t.SORT_EXP => _cmp_oststat_byexp tnow
  | sort_t.SORT_LOCKS => _cmp_oststat_bylocks tnow
  | sort_t.SORT_LGR => _cmp_oststat_bylgr tnow
  | sort_t.SORT_LCR => _cmp_oststat_bylcr tnow
  | sort_t.SORT_CONN => _cmp_oststat_byconn tnow

/-- The function `_sort_ostlist`. -/
def _sort_ostlist (ost_data : List oststat_t) (s : sort_t) (tnow : Int) : List oststat_t :=
  list_sort (_sort_ostlist_cmp s tnow) ost_data

/-! ## Polling, recording and replay -/

/-- Conversion of a `uint64_t` to `time_t` (64 bits, signed). -/
def to_time (n : Nat) : Int :=
  if n % 2 ^ 64 < 2 ^ 63 then ((n % 2 ^ 64 : Nat) : Int) else ((n % 2 ^ 64 : Nat) : Int) - 2 ^ 64

/-- The cast `(uint64_t) t` of a `time_t`. -/
def of_time (t : Int) : Nat := (t % 2 ^ 64).toNat

/-- The chain of tests on metric class and version that `_poll_cerebro` and
`_play_file` both run on a report before decoding it. -/
def _dispatch_metric (D : Decoder) (fs : Option (List Char)) (stale_secs : Int)
    (name s : List Char) (vers : ℚ) (tnow trcv : Int)
    (data : List mdtstat_t × List oststat_t) : List mdtstat_t × List oststat_t :=
  if strcmp name "lmt_mdt".toList == 0 && vers == 1 then
    (_decode_mdt_v1 D s fs data.1 tnow trcv stale_secs, data.2)
  else if strcmp name "lmt_ost".toList == 0 && vers == 2 then
    (data.1, _decode_ost_v2 D s fs data.2 tnow trcv stale_secs)
  else if strcmp name "lmt_osc".toList == 0 && vers == 1 then
    (data.1, _decode_osc_v1 D s fs data.2 tnow trcv stale_secs)
  else data

/-- The function `_record_file`: the line appended to the log (write errors are
ignored by the code and not described here). -/
def _record_file (f : List Char) (tnow trcv : Int) (node name s : List Char) : List Char :=
  f ++ (print_decimal (of_time tnow) ++ [' '] ++ print_decimal (of_time trcv) ++ [' ']
    ++ node ++ [' '] ++ name ++ [' '] ++ s ++ ['\n'])

/-- A metric as handed over by the transport (`cmetric_t`): the accessors
`lmt_cbr_get_name`, `lmt_cbr_get_nodename` and `lmt_cbr_get_val` may return
`NULL`. -/
structure cmetric where
  name : Option (List Char)
  nodename : Option (List Char)
  val : Option (List Char)
  time : Int

/-- Variables that one poll or replay step works on: the two registries, the
record log (`NULL` when not recording) and the cycle time `*tp` (`NULL` when the
caller passes none). -/
structure poll_state where
  mdt_data : List mdtstat_t
  ost_data : List oststat_t
  recf : Option (List Char)
  tp : Option Int

/-- Loop body of `_poll_cerebro` for the metric `c`. -/
def _poll_cerebro_item (D : Decoder) (fs : Option (List Char)) (stale_secs tnow : Int)
    (st : poll_state) (c : cmetric) : poll_state :=
  match c.name, c.nodename, c.val with
  | some name, some node, some s =>
    match D.scan_version s with
    | none => st
    | some vers =>
      let trcv := c.time
      let recf := st.recf.map (fun f => _record_file f tnow trcv node name s)
      let data := _dispatch_metric D fs stale_secs name s vers tnow trcv
        (st.mdt_data, st.ost_data)
      { st with mdt_data := data.1, ost_data := data.2, recf := recf }
  | _, _, _ => st

/-- The function `_poll_cerebro` (built with cerebro support); `metrics` is the
answer of `lmt_cbr_get_metrics`, `none` when it fails, and `tnow` the value of
`time (NULL)`. -/
def _poll_cerebro (D : Decoder) (metrics : Option (List cmetric)) (tnow : Int)
    (fs : Option (List Char)) (stale_secs : Int) (st : poll_state) : poll_state :=
  match metrics with
  | none => st
  | some l =>
    let st := l.foldl (_poll_cerebro_item D fs stale_secs tnow) st
    { st with tp := st.tp.map (fun _ => tnow) }

/-- A stream open for reading: the bytes from the read position on, the indicator
of end-of-file and the error indicator. A position saved by `fgetpos` is the
list of bytes that were unread at that time. -/
structure FILE where
  unread : List Char
  eof : Bool
  error : Bool
  deriving DecidableEq

/-- A white-space directive of a `scanf` format: input is read up to the first
byte that is not white space; reaching the end of the stream sets the indicator
of end-of-file. -/
def scan_space (f : FILE) : FILE :=
  { f with unread := f.unread.dropWhile isspace,
           eof := f.eof || (f.unread.dropWhile isspace).isEmpty }

/-- `ULLONG_MAX`. -/
def ULLONG_MAX : Nat := 2 ^ 64 - 1

/-- The optional sign in front of a number: whether it is `-`, and the input
after it. -/
def scan_sign : List Char → Bool × List Char
  | '-' :: t => (true, t)
  | '+' :: t => (false, t)
  | l => (false, l)

/-- The conversion `%llu` (`PRIu64`): white space is skipped, then an optional
sign and a run of decimal digits are read as by `strtoull` (a value that does not
fit is read as `ULLONG_MAX`, a value after `-` is negated modulo `2 ^ 64`); `none`
is a failed conversion. -/
def scan_u64 (f : FILE) : Option Nat × FILE :=
  let f1 := scan_space f
  let neg := (scan_sign f1.unread).1
  let body := (scan_sign f1.unread).2
  let ds := body.takeWhile isdigit
  let rest := body.dropWhile isdigit
  let f2 : FILE := { f1 with unread := rest, eof := f1.eof || rest.isEmpty }
  if ds.isEmpty then (none, f2)
  else
    let v := decimal_value ds
    (some (if ULLONG_MAX < v then ULLONG_MAX else if neg then (2 ^ 64 - v) % 2 ^ 64 else v),
      f2)

/-- The conversion `%Ns`: white space is skipped, then up to `width` bytes that
are not white space are read; `none` is a failed conversion. The terminator that
the C code stores after the bytes is not part of the value. -/
def scan_s (width : Nat) (f : FILE) : Option (List Char) × FILE :=
  let f1 := scan_space f
  let w := (f1.unread.takeWhile (fun c => !isspace c)).take width
  let rest := f1.unread.drop w.length
  let f2 : FILE :=
    { f1 with unread := rest, eof := f1.eof || (decide (w.length < width) && rest.isEmpty) }
  if w.isEmpty then (none, f2) else (some w, f2)

/-- The conversion `%N[^\n]`: up to `width` bytes other than the newline are
read, without skipping white space; `none` is a failed conversion. -/
def scan_until_newline (width : Nat) (f : FILE) : Option (List Char) × FILE :=
  let w := (f.unread.takeWhile (fun c => c != '\n')).take width
  let rest := f.unread.drop w.length
  let f2 : FILE :=
    { f with unread := rest, eof := f.eof || (decide (w.length < width) && rest.isEmpty) }
  if w.isEmpty then (none, f2) else (some w, f2)

/-- One line of the replay log as `_play_file` reads it. -/
structure log_record where
  tnow : Nat
  trcv : Nat
  node : List Char
  name : List Char
  s : List Char
  deriving DecidableEq

/-- The call `fscanf (f, "%"PRIu64" %"PRIu64" %64s %16s %65536[^\n]\n", ...)` of
`_play_file`: the record read when all five conversions succeed (the call
returns 5), `none` otherwise, and the stream afterwards. -/
def fscanf_record (f : FILE) : Option log_record × FILE :=
  match scan_u64 f with
  | (none, f1) => (none, f1)
  | (some tnow, f1) =>
    match scan_u64 (scan_space f1) with
    | (none, f2) => (none, f2)
    | (some trcv, f2) =>
      match scan_s 64 (scan_space f2) with
      | (none, f3) => (none, f3)
      | (some node, f3) =>
        match scan_s 16 (scan_space f3) with
        | (none, f4) => (none, f4)
        | (some name, f4) =>
          match scan_until_newline 65536 (scan_space f4) with
          | (none, f5) => (none, f5)
          | (some s, f5) =>
            (some { tnow := tnow, trcv := trcv, node := node, name := name, s := s },
              scan_space f5)

/-- Local variables of `_play_file` across its loop: the registries, the stream,
`tmark`, the saved position `pos` and `tdiff`. -/
structure play_vars where
  mdt_data : List mdtstat_t
  ost_data : List oststat_t
  f : FILE
  tmark : Nat
  pos : List Char
  tdiff : Int

/-- The `while` loop of `_play_file`; `fuel` bounds the number of iterations. An
`error` is a fatal exit of the program with the given message. -/
def _play_file_loop (D : Decoder) (fs : Option (List Char)) (stale_secs : Int) :
    Nat → play_vars → Except String play_vars
  | 0, _ => Except.error "out of fuel"
  | fuel + 1, v =>
    match fscanf_record v.f with
    | (none, f1) => Except.ok { v with f := f1 }
    | (some r, f1) =>
      if v.tmark ≠ 0 ∧ v.tmark ≠ r.tnow then
        Except.ok { v with
          f := { f1 with unread := v.pos, eof := false },
          tdiff := to_int ((r.tnow + 2 ^ 64 - v.tmark) % 2 ^ 64) }
      else
        match D.scan_version r.s with
        | none => Except.error "Parse error reading metric version in playback file"
        | some vers =>
          let data := _dispatch_metric D fs stale_secs r.name r.s vers
            (to_time r.tnow) (to_time r.trcv) (v.mdt_data, v.ost_data)
          _play_file_loop D fs stale_secs fuel
            { v with mdt_data := data.1, ost_data := data.2, f := f1,
                     pos := f1.unread, tmark := r.tnow }

/-- Variables that one call of `_play_file` works on: the registries, the stream,
the cycle time `*tp` and the interval `*tdiffp` (`none` for a `NULL` pointer). -/
structure play_state where
  mdt_data : List mdtstat_t
  ost_data : List oststat_t
  f : FILE
  tp : Option Int
  tdiffp : Option Int

/-- The function `_play_file`. An `error` is a fatal exit of the program. The
saved position `pos` is only read after it was assigned; it starts as the
position at the call. Every iteration of the loop but the last consumes input,
so the length of the unread input bounds their number. -/
def _play_file (D : Decoder) (fs : Option (List Char)) (stale_secs : Int)
    (st : play_state) : Except String play_state :=
  if st.f.eof || st.f.error then Except.ok st
  else
    match _play_file_loop D fs stale_secs (st.f.unread.length + 1)
        { mdt_data := st.mdt_data, ost_data := st.ost_data, f := st.f, tmark := 0,
          pos := st.f.unread, tdiff := 0 } with
    | Except.error e => Except.error e
    | Except.ok v =>
      if v.f.error then Except.error "Error reading playback file"
      else if v.tmark = 0 then Except.error "Error parsing playback file"
      else
        Except.ok
          { mdt_data := v.mdt_data, ost_data := v.ost_data, f := v.f,
            tp := st.tp.map (fun _ => to_time v.tmark),
            tdiffp := if v.f.eof then st.tdiffp else st.tdiffp.map (fun _ => v.tdiff) }

/-- The line that `_record_file` writes for the record `r`. -/
def render_record (r : log_record) : List Char :=
  print_decimal r.tnow ++ [' '] ++ print_decimal r.trcv ++ [' ']
    ++ r.node ++ [' '] ++ r.name ++ [' '] ++ r.s ++ ['\n']

/-- The log made of the lines of the records `rs`, in order. -/
def render_log (rs : List log_record) : List Char :=
  (rs.map render_record).flatten

/-- A record in the format of the log (section 6 of the spec): epochs that fit
64 bits, a node name of 1 to 63 bytes and a metric class of 1 to 15 bytes
without white space, and a raw value of 1 to 65535 bytes without newline that
starts with its version number. -/
def wf_record (D : Decoder) (r : log_record) : Prop :=
  r.tnow < 2 ^ 64 ∧ r.trcv < 2 ^ 64 ∧
  r.node ≠ [] ∧ r.node.length < 64 ∧ (∀ c ∈ r.node, isspace c = false) ∧
  r.name ≠ [] ∧ r.name.length < 16 ∧ (∀ c ∈ r.name, isspace c = false) ∧
  r.s ≠ [] ∧ r.s.length < 65536 ∧ (∀ c ∈ r.s, c ≠ '\n') ∧
  (∀ c, r.s.head? = some c → isspace c = false) ∧
  (D.scan_version r.s).isSome = true

/-- Effect of one log line on the registries: the dispatch of `_play_file` on the
record, with the version read from its raw value. -/
def apply_record (D : Decoder) (fs : Option (List Char)) (stale_secs : Int)
    (data : List mdtstat_t × List oststat_t) (r : log_record) :
    List mdtstat_t × List oststat_t :=
  match D.scan_version r.s with
  | some vers =>
    _dispatch_metric D fs stale_secs r.name r.s vers (to_time r.tnow) (to_time r.trcv) data
  | none => data

/-- Successive calls of `_play_file`: `n` calls, stopping at the first fatal exit. -/
def play_times (D : Decoder) (fs : Option (List Char)) (stale_secs : Int) :
    Nat → play_state → Except String play_state
  | 0, st => Except.ok st
  | n + 1, st =>
    match _play_file D fs stale_secs st with
    | Except.ok st2 => play_times D fs stale_secs n st2
    | Except.error e => Except.error e

/-- A log cut into batches `(t, lines)`: every batch is stamped with one non-zero
arrival time `t`, has at least one line, all its lines are well formed, and the
next batch is stamped otherwise. -/
def wf_batches (D : Decoder) : List (Nat × List log_record) → Prop
  | [] => True
  | b :: bs =>
    b.1 ≠ 0 ∧ b.2 ≠ [] ∧ (∀ r ∈ b.2, wf_record D r ∧ r.tnow = b.1) ∧
    (∀ b2, bs.head? = some b2 → b2.1 ≠ b.1) ∧ wf_batches D bs

/-- The lines of a list of batches, in order. -/
def batch_lines (bs : List (Nat × List log_record)) : List log_record :=
  (bs.map (fun b => b.2)).flatten

/-- Executable test of `wf_record`. -/
def wf_record_check (D : Decoder) (r : log_record) : Bool :=
  decide (r.tnow < 2 ^ 64) && decide (r.trcv < 2 ^ 64) &&
  !r.node.isEmpty && decide (r.node.length < 64) && r.node.all (fun c => !isspace c) &&
  !r.name.isEmpty && decide (r.name.length < 16) && r.name.all (fun c => !isspace c) &&
  !r.s.isEmpty && decide (r.s.length < 65536) && r.s.all (fun c => c != '\n') &&
  (match r.s.head? with
    | some c => !isspace c
    | none => true) &&
  (D.scan_version r.s).isSome

/-- Executable test of `wf_batches`. -/
def wf_batches_check (D : Decoder) : List (Nat × List log_record) → Bool
  | [] => true
  | b :: bs =>
    decide (b.1 ≠ 0) && !b.2.isEmpty &&
    b.2.all (fun r => wf_record_check D r && decide (r.tnow = b.1)) &&
    (match bs.head? with
      | some b2 => decide (b2.1 ≠ b.1)
      | none => true) &&
    wf_batches_check D bs

/-- The log record that `_poll_cerebro` writes for the metric `c` at arrival time
`tnow`, if it gets as far as recording it: name, node and value are present and
the value starts with a version number. -/
def record_of (D : Decoder) (tnow : Int) (c : cmetric) : Option log_record :=
  match c.name, c.nodename, c.val with
  | some name, some node, some s =>
    if (D.scan_version s).isSome then
      some { tnow := of_time tnow, trcv := of_time c.time, node := node, name := name, s := s }
    else none
  | _, _, _ => none

/-- The records written during one poll cycle `(tnow, metrics)`. -/
def cycle_records (D : Decoder) (cyc : Int × List cmetric) : List log_record :=
  cyc.2.filterMap (record_of D cyc.1)

/-- A sequence of live poll cycles `(tnow, metrics)`, each answered by the
transport. -/
def poll_cycles (D : Decoder) (fs : Option (List Char)) (stale_secs : Int)
    (cycles : List (Int × List cmetric)) (st : poll_state) : poll_state :=
  cycles.foldl (fun st cyc => _poll_cerebro D (some cyc.2) cyc.1 fs stale_secs st) st

/-- Whether a call ended in a fatal exit. -/
def is_fatal {α : Type} : Except String α → Bool
  | Except.ok _ => false
  | Except.error _ => true

/-- The batches written by a sequence of poll cycles. -/
def batches_of (D : Decoder) (cycles : List (Int × List cmetric)) :
    List (Nat × List log_record) :=
  cycles.map (fun cyc => (of_time cyc.1, cycle_records D cyc))

/-- Poll cycles whose recorded reports fit the format of the log: arrival times
are non-zero values of `time_t` and strictly increasing, every cycle records at
least one report, and every recorded report has a source time in the range of
`time_t` and fields that make a well-formed line (`wf_record`). -/
def wf_cycles (D : Decoder) (cycles : List (Int × List cmetric)) : Prop :=
  (∀ cyc ∈ cycles, cyc.1 ≠ 0 ∧ -(2 ^ 63 : Int) ≤ cyc.1 ∧ cyc.1 < 2 ^ 63 ∧
    cycle_records D cyc ≠ [] ∧
    ∀ c ∈ cyc.2, ∀ r, record_of D cyc.1 c = some r →
      wf_record D r ∧ -(2 ^ 63 : Int) ≤ c.time ∧ c.time < 2 ^ 63) ∧
  List.Chain' (fun a b => a.1 < b.1) cycles

/-- Executable test of strictly increasing arrival times. -/
def increasing_check : List (Int × List cmetric) → Bool
  | [] => true
  | [_] => true
  | a :: b :: l => decide (a.1 < b.1) && increasing_check (b :: l)

/-- Executable test of `wf_cycles`. -/
def wf_cycles_check (D : Decoder) (cycles : List (Int × List cmetric)) : Bool :=
  cycles.all (fun cyc =>
    decide (cyc.1 ≠ 0) && decide (-(2 ^ 63 : Int) ≤ cyc.1) && decide (cyc.1 < 2 ^ 63) &&
    !(cycle_records D cyc).isEmpty &&
    cyc.2.all (fun c =>
      match record_of D cyc.1 c with
      | none => true
      | some r =>
        wf_record_check D r && decide (-(2 ^ 63 : Int) ≤ c.time) && decide (c.time < 2 ^ 63))) &&
  increasing_check cycles

/-! ## Records and Samples as objects in memory -/

/-- The record `oststat_t` as it lies in memory: its ten `sample_t` fields are
pointers, here addresses into the Samples of `memory`. -/
structure oststat_ref where
  fsname : List Char
  name : List Char
  oscstate : List Char
  rbytes : Nat
  wbytes : Nat
  iops : Nat
  num_exports : Nat
  lock_count : Nat
  grant_rate : Nat
  cancel_rate : Nat
  connect : Nat
  kbytes_free : Nat
  kbytes_total : Nat
  recov_status : List Char
  ost_metric_timestamp : Int
  ossname : List Char
  tag : Int
  deriving DecidableEq

/-- The objects allocated so far: Samples and `oststat_t` records. An address is
an index; an allocation (`xmalloc`, `sample_copy`) adds an object at the end, so
that a new object never overlaps one allocated before. A registry (`List`) is
the list of the addresses of its records. -/
structure memory where
  samples : List sample_t
  records : List oststat_ref

/-- The Sample at address `a`. -/
def sample_at (m : memory) (a : Nat) : sample_t :=
  m.samples.getD a (sample_create 0)

/-- The record at address `p`. -/
def record_at (m : memory) (p : Nat) : oststat_ref :=
  m.records.getD p
    { fsname := [], name := [], oscstate := [], rbytes := 0, wbytes := 0, iops := 0,
      num_exports := 0, lock_count := 0, grant_rate := 0, cancel_rate := 0, connect := 0,
      kbytes_free := 0, kbytes_total := 0, recov_status := [], ost_metric_timestamp := 0,
      ossname := [], tag := 0 }

/-- The record at address `p` with its Samples read through their pointers. -/
def load_oststat (m : memory) (p : Nat) : oststat_t :=
  let o := record_at m p
  { fsname := o.fsname, name := o.name, oscstate := o.oscstate,
    rbytes := sample_at m o.rbytes,
    wbytes := sample_at m o.wbytes,
    iops := sample_at m o.iops,
    num_exports := sample_at m o.num_exports,
    lock_count := sample_at m o.lock_count,
    grant_rate := sample_at m o.grant_rate,
    cancel_rate := sample_at m o.cancel_rate,
    connect := sample_at m o.connect,
    kbytes_free := sample_at m o.kbytes_free,
    kbytes_total := sample_at m o.kbytes_total,
    recov_status := o.recov_status,
    ost_metric_timestamp := o.ost_metric_timestamp,
    ossname := o.ossname,
    tag := o.tag }

/-- The ten Sample pointers of a record. -/
def sample_pointers (o : oststat_ref) : List Nat :=
  [o.rbytes, o.wbytes, o.iops, o.num_exports, o.lock_count, o.grant_rate, o.cancel_rate,
   o.connect, o.kbytes_free, o.kbytes_total]

/-- Modelled from the spec: `sample_copy (s)` on pointers, a new Sample object that
holds the duplicate of the Sample at `a`; the result is its address. -/
def sample_copy_p (m : memory) (a : Nat) : memory × Nat :=
  ({ m with samples := m.samples ++ [sample_copy (sample_at m a)] }, m.samples.length)

/-- Modelled from the spec: `sample_add (s1, s2)` on pointers, the Sample at `a1` is
overwritten with the sum. -/
def sample_add_p (m : memory) (a1 a2 : Nat) : memory :=
  { m with samples := m.samples.set a1 (sample_add (sample_at m a1) (sample_at m a2)) }

/-- Modelled from the spec: `sample_min (s1, s2)` on pointers, the Sample at `a1` is
overwritten with the minimum. -/
def sample_min_p (m : memory) (a1 a2 : Nat) : memory :=
  { m with samples := m.samples.set a1 (sample_min (sample_at m a1) (sample_at m a2)) }

/-- The function `_copy_oststat` on pointers: a new record is allocated, the record
at `p` is copied into it, and each of its ten Sample pointers is replaced by the
address of a new copy of the Sample. The result is the address of the record. -/
def _copy_oststat_p (m : memory) (p : Nat) : memory × Nat :=
  let o1 := record_at m p
  let c1 := sample_copy_p m o1.rbytes
  let c2 := sample_copy_p c1.1 o1.wbytes
  let c3 := sample_copy_p c2.1 o1.iops
  let c4 := sample_copy_p c3.1 o1.num_exports
  let c5 := sample_copy_p c4.1 o1.lock_count
  let c6 := sample_copy_p c5.1 o1.grant_rate
  let c7 := sample_copy_p c6.1 o1.cancel_rate
  let c8 := sample_copy_p c7.1 o1.connect
  let c9 := sample_copy_p c8.1 o1.kbytes_free
  let c10 := sample_copy_p c9.1 o1.kbytes_total
  let o : oststat_ref :=
    { o1 with
      rbytes := c1.2, wbytes := c2.2, iops := c3.2, num_exports := c4.2,
      lock_count := c5.2, grant_rate := c6.2, cancel_rate := c7.2, connect := c8.2,
      kbytes_free := c9.2, kbytes_total := c10.2 }
  ({ c10.1 with records := c10.1.records ++ [o] }, m.records.length)

/-- The branch `if (o2)` of `_summarize_ost` on pointers: `q` is the address of the
node record `o2` and `p` that of the target `o`; the Samples of `o2` are written
through its pointers, in the order of the code, then the other fields of the
record at `q`. -/
def _summarize_ost_merge_p (m : memory) (q p : Nat) : memory :=
  let o2 := record_at m q
  let o := record_at m p
  let m := sample_add_p m o2.rbytes o.rbytes
  let m := sample_add_p m o2.wbytes o.wbytes
  let m := sample_add_p m o2.iops o.iops
  let m := sample_add_p m o2.kbytes_free o.kbytes_free
  let m := sample_add_p m o2.kbytes_total o.kbytes_total
  let m := sample_add_p m o2.lock_count o.lock_count
  let m := sample_add_p m o2.grant_rate o.grant_rate
  let m := sample_add_p m o2.cancel_rate o.cancel_rate
  let m := sample_add_p m o2.connect o.connect
  let m := sample_min_p m o2.num_exports o.num_exports
  let o3 : oststat_ref :=
    { o2 with
      ost_metric_timestamp :=
        if o.ost_metric_timestamp > o2.ost_metric_timestamp then o.ost_metric_timestamp
        else o2.ost_metric_timestamp,
      oscstate := if strcmp o.oscstate "F".toList != 0 then o.oscstate else o2.oscstate,
      recov_status :=
        if strncmp o.recov_status "COMPLETE".toList 8 != 0 then o.recov_status
        else o2.recov_status,
      name := snprintf_s 17
        ('(' :: print_int (to_int (strtoul (o2.name.drop 1)) + 1) ++ [')']),
      tag := if o.tag ≠ 0 then o.tag else o2.tag }
  { m with records := m.records.set q o3 }

/-- The branch `else` of `_summarize_ost` on pointers: the record at `p` is copied
and the index of the copy is set to `(1)`. The result is the address of the
copy. -/
def _summarize_ost_first_p (m : memory) (p : Nat) : memory × Nat :=
  let c := _copy_oststat_p m p
  let o2 : oststat_ref :=
    { record_at c.1 c.2 with name := snprintf_s 17 ('(' :: print_int 1 ++ [')']) }
  ({ c.1 with records := c.1.records.set c.2 o2 }, c.2)

/-- Loop body of `_summarize_ost` on pointers, for the target at address `p`; the
state is the memory and the list `oss_data`. -/
def _summarize_ost_step_p (st : memory × List Nat) (p : Nat) : memory × List Nat :=
  match list_find_first st.2
      (fun q => _match_oststat2 (load_oststat st.1 q) (record_at st.1 p).ossname) with
  | some q => (_summarize_ost_merge_p st.1 q p, st.2)
  | none => ((_summarize_ost_first_p st.1 p).1, st.2 ++ [(_summarize_ost_first_p st.1 p).2])

/-- The first loop of `_summarize_ost` on pointers: the records are taken off
`oss_data`; their memory is released and never read again, which leaves the
other objects as they are. -/
def _summarize_ost_clear_p : List Nat → List Nat
  | [] => []
  | _ :: rest => _summarize_ost_clear_p rest

/-- What `_summarize_ost` works on: the memory and the two registries. -/
structure summarize_state where
  mem : memory
  ost_data : List Nat
  oss_data : List Nat

/-- The function `_summarize_ost` on pointers. -/
def _summarize_ost_p (st : summarize_state) (stale_secs : Int) : summarize_state :=
  let oss_data := _summarize_ost_clear_p st.oss_data
  let r := st.ost_data.foldl _summarize_ost_step_p (st.mem, oss_data)
  { mem := r.1, ost_data := st.ost_data,
    oss_data := list_sort
      (fun q1 q2 => _cmp_oststat_byoss (load_oststat r.1 q1) (load_oststat r.1 q2)) r.2 }

/-! ## Tags -/

/-- The operator `!` of C on an `int`. -/
def lnot (x : Int) : Int := if x = 0 then 1 else 0

/-- The function `_clear_tags`. -/
def _clear_tags (ost_data : List oststat_t) : List oststat_t :=
  ost_data.map (fun o => { o with tag := 0 })

/-- The function `_tag_ost_byoss`. -/
def _tag_ost_byoss (ost_data : List oststat_t) (ossname : List Char) (tagval : Int) :
    List oststat_t :=
  ost_data.map (fun o => if strcmp o.ossname ossname == 0 then { o with tag := tagval } else o)

/-- The loop of `_tag_nth_ost`, entered with the counter `n`: the list after the
loop and the value of `o` after it, the record whose tag was flipped or `NULL`
when the iteration came to its end. -/
def _tag_nth_ost_loop (selost : Int) : Int → List oststat_t → List oststat_t × Option oststat_t
  | _, [] => ([], none)
  | n, o :: rest =>
    if selost = n then
      ({ o with tag := lnot o.tag } :: rest, some { o with tag := lnot o.tag })
    else
      ((o :: (_tag_nth_ost_loop selost (n + 1) rest).1),
        (_tag_nth_ost_loop selost (n + 1) rest).2)

/-- The function `_tag_nth_ost`; `ost_data2` is `none` for a `NULL` argument. The
result is the two lists after the call. -/
def _tag_nth_ost (ost_data : List oststat_t) (selost : Int)
    (ost_data2 : Option (List oststat_t)) : List oststat_t × Option (List oststat_t) :=
  let r := _tag_nth_ost_loop selost 0 ost_data
  match ost_data2, r.2 with
  | some l2, some o => (r.1, some (_tag_ost_byoss l2 o.ossname o.tag))
  | _, _ => (r.1, ost_data2)

/-! ## The main loop -/

/-- `HDRLINES`, the lines above the table rows (`TOPWIN_LINES + OSTWIN_H_LINES`). -/
def HDRLINES : Int := 7 + 1

/-- `list_count (l)`. -/
def list_count {α : Type} (l : List α) : Int := (l.length : Int)

/-- The variables of `main` that live across iterations of its loop; `endwin`
records that the windows were closed, which ends the loop. The integers are
those of C as long as no operation overflows. -/
structure main_vars where
  ost_data : List oststat_t
  mdt_data : List mdtstat_t
  oss_data : List oststat_t
  ostcount : Int
  selost : Int
  minost : Int
  ostview : Int
  resort : Int
  sortby : sort_t
  fs : Option (List Char)
  sample_period : Int
  stale_secs : Int
  tcycle : Int
  last_sample : Int
  recf : Option (List Char)
  playf : Option FILE
  pause : Int
  endwin : Bool

/-- The values of `getch ()` that the `switch` of `main` tells apart; `ERR` stands
for the timeout and for every key without a case. -/
inductive keypress where
  | KEY_DC
  | quit
  | KEY_UP
  | KEY_PPAGE
  | KEY_DOWN
  | KEY_NPAGE
  | toggle_view
  | tag
  | sort (s : sort_t)
  | record
  | pause
  | ERR
  deriving DecidableEq

/-- The case `KEY_PPAGE` of the `switch`; `LINES` is the height of the terminal. -/
def main_page_up (LINES : Int) (v : main_vars) : main_vars :=
  let minost := v.minost - (LINES - HDRLINES)
  { v with minost := if minost < 0 then 0 else minost }

/-- The case `KEY_NPAGE` of the `switch`. -/
def main_page_down (LINES : Int) (v : main_vars) : main_vars :=
  if v.minost + LINES - HDRLINES ≤ v.ostcount then
    { v with minost := v.minost + (LINES - HDRLINES) }
  else v

/-- The `switch (getch ())` of the main loop. `fopen_ok` tells whether the
`fopen` of the record key succeeds. -/
def main_key (LINES : Int) (fopen_ok : Bool) (k : keypress) (v : main_vars) : main_vars :=
  match k with
  | keypress.KEY_DC =>
    { v with selost := -1, ost_data := _clear_tags v.ost_data,
             oss_data := _clear_tags v.oss_data }
  | keypress.quit => { v with endwin := true }
  | keypress.KEY_UP =>
    let v := if v.selost > 0 then { v with selost := v.selost - 1 } else v
    if v.selost ≥ v.minost then v else main_page_up LINES v
  | keypress.KEY_PPAGE => main_page_up LINES v
  | keypress.KEY_DOWN =>
    let v := if v.selost < v.ostcount - 1 then { v with selost := v.selost + 1 } else v
    if v.selost - v.minost < LINES - HDRLINES then v else main_page_down LINES v
  | keypress.KEY_NPAGE => main_page_down LINES v
  | keypress.toggle_view =>
    let ostview := lnot v.ostview
    let oss_data :=
      if lnot ostview ≠ 0 then _summarize_ost v.ost_data v.oss_data v.stale_secs
      else v.oss_data
    { v with
      ostview := ostview,
      oss_data := oss_data,
      resort := 1,
      ostcount := if ostview ≠ 0 then list_count v.ost_data else list_count oss_data,
      minost := 0,
      selost := -1 }
  | keypress.tag =>
    if v.ostview ≠ 0 then
      { v with ost_data := (_tag_nth_ost v.ost_data v.selost none).1 }
    else
      let r := _tag_nth_ost v.oss_data v.selost (some v.ost_data)
      { v with oss_data := r.1, ost_data := r.2.getD v.ost_data }
  | keypress.sort s => { v with sortby := s, resort := 1 }
  | keypress.record =>
    match v.playf with
    | some _ => v
    | none =>
      match v.recf with
      | some _ => { v with recf := none }
      | none => { v with recf := if fopen_ok then some [] else none }
  | keypress.pause => { v with pause := lnot v.pause }
  | keypress.ERR => v

/-- The data step of a refresh cycle: `_play_file` when a log is played, else
`_poll_cerebro`; an `error` is a fatal exit. `metrics` is what the transport
answers and `tpoll` the time at which it is asked. -/
def main_poll (D : Decoder) (metrics : Option (List cmetric)) (tpoll : Int)
    (v : main_vars) : Except String main_vars :=
  match v.playf with
  | some f =>
    match _play_file D v.fs v.stale_secs
        { mdt_data := v.mdt_data, ost_data := v.ost_data, f := f,
          tp := some v.tcycle, tdiffp := some v.sample_period } with
    | Except.error e => Except.error e
    | Except.ok p =>
      Except.ok { v with
        mdt_data := p.mdt_data, ost_data := p.ost_data, playf := some p.f,
        tcycle := p.tp.getD v.tcycle, sample_period := p.tdiffp.getD v.sample_period }
  | none =>
    let p := _poll_cerebro D metrics tpoll v.fs v.stale_secs
      { mdt_data := v.mdt_data, ost_data := v.ost_data, recf := v.recf,
        tp := some v.tcycle }
    Except.ok { v with
      mdt_data := p.mdt_data, ost_data := p.ost_data, recf := p.recf,
      tcycle := p.tp.getD v.tcycle }

/-- The part of the main loop after the `switch`: when the sample period has
elapsed at time `t1`, a refresh cycle (data step unless paused, aggregation in
the aggregated view, row count), which ends at time `t2`; then the resort, if
one is due. -/
def main_refresh (D : Decoder) (metrics : Option (List cmetric)) (t1 tpoll t2 : Int)
    (v : main_vars) : Except String main_vars :=
  let cycle : Except String main_vars :=
    if t1 - v.last_sample ≥ v.sample_period then
      match (if lnot v.pause ≠ 0 then main_poll D metrics tpoll v else Except.ok v) with
      | Except.error e => Except.error e
      | Except.ok v =>
        let oss_data :=
          if lnot v.ostview ≠ 0 then _summarize_ost v.ost_data v.oss_data v.stale_secs
          else v.oss_data
        Except.ok { v with
          oss_data := oss_data,
          ostcount := if v.ostview ≠ 0 then list_count v.ost_data else list_count oss_data,
          last_sample := t2,
          resort := 1 }
    else Except.ok v
  match cycle with
  | Except.error e => Except.error e
  | Except.ok v =>
    if v.resort ≠ 0 then
      Except.ok { v with
        ost_data := _sort_ostlist v.ost_data v.sortby v.tcycle,
        oss_data := _sort_ostlist v.oss_data v.sortby v.tcycle,
        resort := 0 }
    else Except.ok v

/-- One iteration of the main loop after the display was drawn. -/
def main_iteration (D : Decoder) (LINES : Int) (fopen_ok : Bool) (k : keypress)
    (metrics : Option (List cmetric)) (t1 tpoll t2 : Int) (v : main_vars) :
    Except String main_vars :=
  main_refresh D metrics t1 tpoll t2 (main_key LINES fopen_ok k v)

/-! ## Hexadecimal target indices -/

/-- A hexadecimal digit written with lower-case letters: `0`..`9`, `a`..`f`. -/
def is_hex_lower (c : Char) : Bool :=
  isdigit c || (decide (97 ≤ c.toNat) && decide (c.toNat ≤ 102))

/-- A hexadecimal digit written with upper-case letters: `0`..`9`, `A`..`F`. -/
def is_hex_upper (c : Char) : Bool :=
  isdigit c || (decide (65 ≤ c.toNat) && decide (c.toNat ≤ 70))

/-- The value of one hexadecimal digit, in either letter case. -/
def hex_digit_value (c : Char) : Nat :=
  if isdigit c then c.toNat - 48
  else if 97 ≤ c.toNat then c.toNat - 87
  else c.toNat - 55

/-- The number that a string of hexadecimal digits denotes. -/
def hex_value (s : List Char) : Nat :=
  s.foldl (fun acc c => acc * 16 + hex_digit_value c) 0

/-! ## The default filesystem -/

/-- The two loops that end `_find_first_fs`: the filesystem name of the first MDT
entity, else that of the first OST entity, else `NULL`. -/
def _find_first_fs_ret (mdt_data : List mdtstat_t) (ost_data : List oststat_t) :
    Option (List Char) :=
  match mdt_data with
  | m :: _ => some m.fsname
  | [] =>
    match ost_data with
    | o :: _ => some o.fsname
    | [] => none

/-- The function `_find_first_fs`, called by `main` on the stream it has just
opened (or with `NULL` and then polling): the result is the name found and the
stream rewound to its start by `fseek`, which clears the indicator of
end-of-file; a failing `fseek` is not modelled. -/
def _find_first_fs (D : Decoder) (playf : Option FILE) (metrics : Option (List cmetric))
    (tnow : Int) (stale_secs : Int) : Except String (Option (List Char) × Option FILE) :=
  match playf with
  | some f =>
    match _play_file D none stale_secs
        { mdt_data := [], ost_data := [], f := f, tp := none, tdiffp := none } with
    | Except.error e => Except.error e
    | Except.ok st =>
      Except.ok (_find_first_fs_ret st.mdt_data st.ost_data,
        some { unread := f.unread, eof := false, error := st.f.error })
  | none =>
    let st := _poll_cerebro D metrics tnow none stale_secs
      { mdt_data := [], ost_data := [], recf := none, tp := none }
    Except.ok (_find_first_fs_ret st.mdt_data st.ost_data, none)

/-! ## Display of one table row -/

/-- The numbers handed to `mvwprintw` for a row in normal state, in column order:
Exp, CR, rMB/s, wMB/s, IOPS, LOCKS, LGR, LCR (`none` is an unknown reading). -/
structure ost_columns where
  exp : Option ℚ
  cr : Option ℚ
  rmbps : Option ℚ
  wmbps : Option ℚ
  iops : Option ℚ
  locks : Option ℚ
  lgr : Option ℚ
  lcr : Option ℚ
  deriving DecidableEq

/-- What `_update_display_ost` prints for one entity: index and state only when
the information is expired, the recovery status while the target recovers, the
full set of columns otherwise. -/
inductive ost_row where
  | expired (name oscstate : List Char)
  | recovering (name oscstate recov_status : List Char)
  | normal (name oscstate ossname : List Char) (cols : ost_columns)
  deriving DecidableEq

/-- Loop body of `_update_display_ost` for the entity `o`: the format chosen and
the arguments handed to `mvwprintw`; the text printed from them is
`ost_row_text`. -/
def _update_display_ost_row (o : oststat_t) (stale_secs tnow : Int) : ost_row :=
  if tnow - o.ost_metric_timestamp > stale_secs then
    ost_row.expired (o.name.take 4) (o.oscstate.take 1)
  else if strncmp o.recov_status "COMPLETE".toList 8 != 0 then
    ost_row.recovering (o.name.take 4) (o.oscstate.take 1) o.recov_status
  else
    ost_row.normal (o.name.take 4) (o.oscstate.take 1) (o.ossname.take 10)
      { exp := sample_val o.num_exports tnow,
        cr := sample_rate o.connect tnow,
        rmbps := (sample_rate o.rbytes tnow).map (· / (1024 * 1024)),
        wmbps := (sample_rate o.wbytes tnow).map (· / (1024 * 1024)),
        iops := sample_rate o.iops tnow,
        locks := sample_val o.lock_count tnow,
        lgr := sample_val o.grant_rate tnow,
        lcr := sample_val o.cancel_rate tnow }

/-- The CR column of a printed row (`none` when it is unknown or not printed). -/
def ost_row_cr : ost_row → Option ℚ
  | ost_row.normal _ _ _ cols => cols.cr
  | _ => none

/-- Rounding of `|x|` to the nearest integer, ties to the even one (the rounding
of `printf` for a `double` under the default IEEE 754 rounding mode). -/
def round_half_even (x : ℚ) : Nat :=
  let f := ⌊|x|⌋.toNat
  let r := |x| - (f : ℚ)
  if r < 1 / 2 then f else if 1 / 2 < r then f + 1 else if f % 2 = 0 then f else f + 1

/-- A field of minimum width `width`, right-justified: `s` after the blanks that
fill it up. -/
def pad_left (width : Nat) (s : List Char) : List Char :=
  List.replicate (width - s.length) ' ' ++ s

/-- Output of `printf` for the conversion `%W.0f` (`W` is `width`): the number
rounded to an integer, without a decimal point, with a minus sign when it is
negative, right-justified in `width` columns. -/
def printf_f0 (width : Nat) (x : ℚ) : List Char :=
  pad_left width ((if x < 0 then ['-'] else []) ++ print_decimal (round_half_even x))

/-- The fields that `mvwprintw` prints for a row, in order. The strings were cut
to their precision by `_update_display_ost_row` and are padded to their width
here (`%4.4s`, `%1.1s`, `%10.10s`); the numbers are printed with `%5.0f`, `%4.0f`
or `%7.0f`. `unknown` is the `double` that `sample_val` and `sample_rate` return
for an unknown reading (decided by `sample.c`, which is not among the sources). -/
def ost_row_fields (unknown : ℚ) : ost_row → List (List Char)
  | ost_row.expired name oscstate => [pad_left 4 name, pad_left 1 oscstate]
  | ost_row.recovering name oscstate recov_status =>
    [pad_left 4 name, pad_left 1 oscstate, recov_status]
  | ost_row.normal name oscstate ossname cols =>
    [pad_left 4 name, pad_left 1 oscstate, pad_left 10 ossname,
     printf_f0 5 (cols.exp.getD unknown), printf_f0 4 (cols.cr.getD unknown),
     printf_f0 5 (cols.rmbps.getD unknown), printf_f0 5 (cols.wmbps.getD unknown),
     printf_f0 5 (cols.iops.getD unknown), printf_f0 7 (cols.locks.getD unknown),
     printf_f0 4 (cols.lgr.getD unknown), printf_f0 4 (cols.lcr.getD unknown)]

/-- The text that `mvwprintw` writes for a row: the formats `"%4.4s %1.1s"`,
`"%4.4s %1.1s   %s"` and
`"%4.4s %1.1s %10.10s %5.0f %4.0f %5.0f %5.0f %5.0f %7.0f %4.0f %4.0f"`. -/
def ost_row_text (unknown : ℚ) (row : ost_row) : List Char :=
  match row with
  | ost_row.recovering name oscstate recov_status =>
    pad_left 4 name ++ [' '] ++ pad_left 1 oscstate ++ [' ', ' ', ' '] ++ recov_status
  | _ => List.intercalate [' '] (ost_row_fields unknown row)

/-! ## Concrete inputs used to instantiate the theorems -/

/-- A sample with previous reading `(p, t0)` and last reading `(v, t1)`, window 12. -/
def ex_sample (p : ℚ) (t0 : Int) (v : ℚ) (t1 : Int) : sample_t :=
  { last := v, last_time := t1, prev := p, prev_time := t0, window := 12, valid := 2 }

/-- Target `lustre-OST0001`, last reported at time 100 by node `oss1`. -/
def ex_ost : oststat_t :=
  { fsname := "lustre".toList, name := "0001".toList, oscstate := "F".toList,
    rbytes := ex_sample 0 95 1000000 100,
    wbytes := ex_sample 0 95 2000000 100,
    iops := ex_sample 0 95 300 100,
    num_exports := ex_sample 7 95 7 100,
    lock_count := ex_sample 40 95 50 100,
    grant_rate := ex_sample 1 95 2 100,
    cancel_rate := ex_sample 1 95 3 100,
    connect := ex_sample 5 95 10 100,
    kbytes_free := ex_sample 900 95 800 100,
    kbytes_total := ex_sample 1000 95 1000 100,
    recov_status := "COMPLETED 5/5".toList,
    ost_metric_timestamp := 100,
    ossname := "oss1".toList,
    tag := 0 }

/-- A report for `lustre-OST0001` sent by node `oss1`. -/
def ex_report : ost_report :=
  { ostname := "lustre-OST0001".toList, ossname := "oss1".toList,
    read_bytes := 6000000, write_bytes := 2500000, iops := 400, num_exports := 7,
    lock_count := 60, grant_rate := 2, cancel_rate := 3, connect := 50,
    recov_status := "COMPLETED 5/5".toList, kbytes_free := 700, kbytes_total := 1000 }

/-- The same report sent by node `oss2` (the target has failed over). -/
def ex_report_failover : ost_report :=
  { ex_report with ossname := "oss2".toList }

/-- An entity that carries only an owning-node name. -/
def ex_oss (ossname : String) : oststat_t :=
  { _create_oststat [] 12 with ossname := ossname.toList }

/-- The fields of a string, separated by `;`. -/
def ex_fields : List Char → List (List Char)
  | [] => [[]]
  | c :: s =>
    if c = ';' then [] :: ex_fields s
    else match ex_fields s with
      | [] => [[c]]
      | h :: t => (c :: h) :: t

/-- A decoder for hand-written test strings: a metric string is `version;node;t1;t2...`
where every `t` is a target name; counters are fixed. -/
def ex_decoder : Decoder :=
  { scan_version := fun s =>
      if (s.takeWhile isdigit).isEmpty then none
      else some (decimal_value (s.takeWhile isdigit) : ℚ),
    lmt_ost_decode_v2 := fun s =>
      match ex_fields s with
      | _ :: node :: targets => some (node, targets)
      | _ => none,
    lmt_ost_decode_v2_ostinfo := fun s =>
      some { ostname := s, read_bytes := 1000, write_bytes := 2000, kbytes_free := 10,
             kbytes_total := 20, inodes_free := 5, inodes_total := 6, iops := 7,
             num_exports := 8, lock_count := 9, grant_rate := 1, cancel_rate := 2,
             connect := 3, reconnect := 4, recov_status := "COMPLETED".toList },
    lmt_mdt_decode_v1 := fun s =>
      match ex_fields s with
      | _ :: node :: targets => some (node, targets)
      | _ => none,
    lmt_mdt_decode_v1_mdtinfo := fun s =>
      some { mdtname := s, inodes_free := 5, inodes_total := 6, kbytes_free := 10,
             kbytes_total := 20, mdops := ["open".toList] },
    lmt_mdt_decode_v1_mdops := fun s =>
      some { opname := s, samples := 11, sum := 0, sumsquares := 0 },
    lmt_osc_decode_v1 := fun s =>
      match ex_fields s with
      | _ :: node :: targets => some (node, targets)
      | _ => none,
    lmt_osc_decode_v1_oscinfo := fun s => some (s, "F".toList) }

/-- The first report of the rate example of the spec: read counter 1,000,000. -/
def ex_report_first : ost_report :=
  { ex_report with read_bytes := 1000000 }

/-- The record that the loop of `_summarize_ost` holds for node `n`, as a function
of the record `r` it held before and of the targets `l` processed since. -/
def node_record (n : List Char) (r : Option oststat_t) (l : List oststat_t) :
    Option oststat_t :=
  l.foldl (fun r o =>
    if o.ossname = n then
      some (match r with
        | some a => _summarize_ost_merge a o
        | none => _summarize_ost_first o)
    else r) r

/-- Three targets on node `oss1` and one on `oss2`, all read at times 95 and 100. -/
def ex_registry : List oststat_t :=
  [ { ex_ost with
      name := "0001".toList,
      rbytes := ex_sample 0 95 1000 100,
      num_exports := ex_sample 7 95 7 100 },
    { ex_ost with
      name := "0002".toList,
      ossname := "oss2".toList,
      rbytes := ex_sample 0 95 50 100,
      num_exports := ex_sample 9 95 2 100 },
    { ex_ost with
      name := "0003".toList,
      rbytes := ex_sample 500 95 2500 100,
      num_exports := ex_sample 7 95 5 100 },
    { ex_ost with
      name := "0004".toList,
      rbytes := ex_sample 100 95 400 100,
      num_exports := ex_sample 7 95 6 100 } ]

/-- A log line for the example decoder. -/
def ex_line (tnow trcv : Nat) (node name s : String) : log_record :=
  { tnow := tnow, trcv := trcv, node := node.toList, name := name.toList, s := s.toList }

/-- The log of the spec with arrival times 100, 100, 100, 105, 105. -/
def ex_batches : List (Nat × List log_record) :=
  [ (100, [ ex_line 100 99 "h1" "lmt_ost" "2;oss1;lustre-OST0001",
            ex_line 100 99 "h2" "lmt_ost" "2;oss2;lustre-OST0002",
            ex_line 100 98 "m1" "lmt_mdt" "1;mds1;lustre-MDT0000" ]),
    (105, [ ex_line 105 104 "h1" "lmt_ost" "2;oss1;lustre-OST0001",
            ex_line 105 104 "m1" "lmt_osc" "1;mds1;lustre-OST0003" ]) ]

/-- A replay that starts at the beginning of the log `text`, with cycle time and
interval variables holding 0 and 2. -/
def ex_play_start (text : List Char) : play_state :=
  { mdt_data := [], ost_data := [], f := { unread := text, eof := false, error := false },
    tp := some 0, tdiffp := some 2 }

/-- Two lines whose arrival times 1 and 4294967297 are `2 ^ 32` seconds apart. -/
def ex_batches_far : List (Nat × List log_record) :=
  [ (1, [ex_line 1 1 "h1" "lmt_ost" "2;oss1;lustre-OST0001"]),
    (4294967297, [ex_line 4294967297 1 "h1" "lmt_ost" "2;oss1;lustre-OST0001"]) ]

/-- One poll cycle at time 100 with one OST report from a node called `a b`. -/
def ex_cycles_space : List (Int × List cmetric) :=
  [ (100, [ { name := some "lmt_ost".toList, nodename := some "a b".toList,
              val := some "2;oss1;lustre-OST0001".toList, time := 99 } ]) ]

/-- Two poll cycles at times 100 and 105. -/
def ex_cycles : List (Int × List cmetric) :=
  [ (100, [ { name := some "lmt_ost".toList, nodename := some "h1".toList,
              val := some "2;oss1;lustre-OST0001".toList, time := 99 },
            { name := some "lmt_mdt".toList, nodename := some "m1".toList,
              val := some "1;mds1;lustre-MDT0000".toList, time := 98 },
            { name := some "lmt_ost".toList, nodename := none,
              val := some "2;oss1;lustre-OST0007".toList, time := 98 } ]),
    (105, [ { name := some "lmt_ost".toList, nodename := some "h1".toList,
              val := some "2;oss1;lustre-OST0001".toList, time := 104 },
            { name := some "lmt_osc".toList, nodename := some "m1".toList,
              val := some "x;mds1;lustre-OST0003".toList, time := 104 } ]) ]

/-- Start of a live run that records into an empty log. -/
def ex_poll_start : poll_state :=
  { mdt_data := [], ost_data := [], recf := some [], tp := some 0 }

/-- Target `0001`: connect counter 0 at time 95 and 100 at time 100. -/
def ex_conn_fast : oststat_t :=
  { ex_ost with connect := ex_sample 0 95 100 100 }

/-- Target `0002`: connect counter 1000 at time 95 and 1010 at time 100. -/
def ex_conn_slow : oststat_t :=
  { ex_ost with name := "0002".toList, connect := ex_sample 1000 95 1010 100 }

/-- A log line whose node name has 64 bytes and whose metric class has 16. -/
def ex_long_line : List Char :=
  "100 99 ".toList ++ List.replicate 64 'n' ++ [' '] ++ List.replicate 16 'c'
    ++ " 2;x\n".toList

/-- Three targets of node `oss1`: the first is recovering and has connection state
`I`, the second has connection state `D`, the third is nominal. -/
def ex_states : List oststat_t :=
  [ { ex_ost with oscstate := "I".toList, recov_status := "RECOVERING 1/5".toList },
    { ex_ost with name := "0002".toList, oscstate := "D".toList },
    { ex_ost with name := "0003".toList } ]

/-- Two targets of node `oss1` in memory: records 0 and 1, Samples 0 to 19. -/
def ex_memory : memory :=
  { samples := (List.range 20).map (fun i => ex_sample (i : ℚ) 95 (2 * i + 1 : ℚ) 100),
    records :=
      [ { fsname := "lustre".toList, name := "0001".toList, oscstate := "F".toList,
          rbytes := 0, wbytes := 1, iops := 2, num_exports := 3, lock_count := 4,
          grant_rate := 5, cancel_rate := 6, connect := 7, kbytes_free := 8,
          kbytes_total := 9, recov_status := "COMPLETED 5/5".toList,
          ost_metric_timestamp := 100, ossname := "oss1".toList, tag := 0 },
        { fsname := "lustre".toList, name := "0002".toList, oscstate := "F".toList,
          rbytes := 10, wbytes := 11, iops := 12, num_exports := 13, lock_count := 14,
          grant_rate := 15, cancel_rate := 16, connect := 17, kbytes_free := 18,
          kbytes_total := 19, recov_status := "COMPLETED 5/5".toList,
          ost_metric_timestamp := 100, ossname := "oss1".toList, tag := 0 } ] }

/-- The OST registry holds the two records of `ex_memory`, the aggregated registry
is empty. -/
def ex_summarize_state : summarize_state :=
  { mem := ex_memory, ost_data := [0, 1], oss_data := [] }

/-- The variables of `main` when its loop is entered on the registry
`ex_registry`: detail view, four rows, no selection, sorted by index. -/
def ex_main : main_vars :=
  { ost_data := ex_registry, mdt_data := [], oss_data := [], ostcount := 4, selost := -1,
    minost := 0, ostview := 1, resort := 0, sortby := sort_t.SORT_OST,
    fs := some "lustre".toList, sample_period := 2, stale_secs := 12, tcycle := 100,
    last_sample := 100, recf := none, playf := none, pause := 0, endwin := false }

/-- The aggregated view of `ex_registry` with its second row selected, paused
while a log is played. -/
def ex_main_paused : main_vars :=
  { ex_main with
    oss_data := _summarize_ost ex_registry [] 12, ostcount := 2, selost := 1, ostview := 0,
    pause := 1,
    playf := some { unread := "105 104 h1 lmt_ost 2;oss1;lustre-OST0001\n".toList,
                    eof := false, error := false } }

/-- The registry `ex_registry` with the target `0003` of node `oss1` tagged. -/
def ex_tagged : List oststat_t :=
  ex_registry.map (fun o => if o.name = "0003".toList then { o with tag := 1 } else o)

/-- The last batch of the log of the spec: the two lines stamped 105. -/
def ex_last_batch : List log_record :=
  [ ex_line 105 104 "h1" "lmt_ost" "2;oss1;lustre-OST0001",
    ex_line 105 104 "m1" "lmt_osc" "1;mds1;lustre-OST0003" ]

/-- An entity that carries only a target index. -/
def ex_index (name : String) : oststat_t :=
  { _create_oststat [] 12 with name := name.toList }

/-- A log of two batches about the filesystem `my-fs`, one OST and one MDT. -/
def ex_batches_dash : List (Nat × List log_record) :=
  [ (100, [ ex_line 100 99 "h1" "lmt_ost" "2;oss1;my-fs-OST0001",
            ex_line 100 98 "m1" "lmt_mdt" "1;mds1;my-fs-MDT0000" ]),
    (105, [ ex_line 105 104 "h1" "lmt_ost" "2;oss1;my-fs-OST0001" ]) ]

/-- The second report of the rate example, sent while the target recovers. -/
def ex_report_recovering : ost_report :=
  { ex_report with recov_status := "RECOVERING 1/5".toList }

/-- A report whose owning-node name has 64 bytes, with read counter `c`. -/
def ex_report_long (c : Nat) : ost_report :=
  { ex_report with ossname := List.replicate 64 'n', read_bytes := c }

/-- A report with read counter `c`. -/
def ex_report_read (c : Nat) : ost_report :=
  { ex_report with read_bytes := c }

/-! ## Lemmas on find-first and in-place update -/

theorem list_update_first_eq_none {α : Type} (f : α → Bool) (g : α → α) (l : List α) :
    list_update_first f g l = none ↔ list_find_first l f = none := by
  induction l with
  | nil => simp [list_update_first, list_find_first]
  | cons a l ih =>
    by_cases h : f a
    · simp [list_update_first, list_find_first, h]
    · simpa [list_update_first, list_find_first, h] using ih

theorem list_update_first_fix {α : Type} (f : α → Bool) (g : α → α) (l : List α) (o : α)
    (hfind : list_find_first l f = some o) (hfix : g o = o) :
    list_update_first f g l = some l := by
  induction l with
  | nil => simp [list_find_first] at hfind
  | cons a l ih =>
    by_cases h : f a
    · simp [list_find_first, h] at hfind
      subst hfind
      simp [list_update_first, h, hfix]
    · simp [list_find_first, h] at hfind
      simp [list_update_first, h, ih hfind]

theorem list_find_first_update {α : Type} (f : α → Bool) (g : α → α) (l l2 : List α)
    (hkeep : ∀ a, f (g a) = f a) (hupd : list_update_first f g l = some l2) :
    list_find_first l2 f = (list_find_first l f).map g := by
  induction l generalizing l2 with
  | nil => simp [list_update_first] at hupd
  | cons a l ih =>
    by_cases h : f a
    · simp [list_update_first, h] at hupd
      subst hupd
      simp [list_find_first, h, hkeep]
    · simp only [list_update_first, h, Bool.false_eq_true, if_false] at hupd
      cases h3 : list_update_first f g l with
      | none => simp [h3] at hupd
      | some l3 =>
        simp [h3] at hupd
        subst hupd
        have := ih l3 h3
        simpa [list_find_first, h] using this

theorem list_find_first_append_new {α : Type} (f : α → Bool) (l : List α) (a : α)
    (hnone : list_find_first l f = none) (ha : f a = true) :
    list_find_first (l ++ [a]) f = some a := by
  simp only [list_find_first] at *
  simp [List.find?_append, hnone, ha]

theorem match_update_ost_entity (r : ost_report) (trcv : Int) (o : oststat_t)
    (name : List Char) :
    _match_oststat (_update_ost_entity r trcv o) name = _match_oststat o name := by
  unfold _match_oststat _update_ost_entity _update_ost_failover
  split_ifs <;> rfl

theorem update_ost_entity_stale (r : ost_report) (trcv : Int) (o : oststat_t)
    (h : trcv ≤ o.ost_metric_timestamp) : _update_ost_entity r trcv o = o := by
  unfold _update_ost_entity
  rw [if_neg (not_lt.mpr h)]

theorem update_ost_entity_timestamp (r : ost_report) (trcv : Int) (o : oststat_t) :
    trcv ≤ (_update_ost_entity r trcv o).ost_metric_timestamp := by
  unfold _update_ost_entity
  split_ifs with h
  · exact le_refl _
  · exact not_lt.mp h

theorem update_ost_only_newer_aux (r : ost_report) (l : List oststat_t)
    (tnow trcv stale_secs : Int) (o : oststat_t)
    (hfind : list_find_first l (fun e => _match_oststat e r.ostname) = some o) :
    list_find_first (_update_ost r l tnow trcv stale_secs)
      (fun e => _match_oststat e r.ostname) = some (_update_ost_entity r trcv o) := by
  unfold _update_ost
  cases hupd : list_update_first (fun e => _match_oststat e r.ostname)
      (_update_ost_entity r trcv) l with
  | none =>
    rw [list_update_first_eq_none, hfind] at hupd
    cases hupd
  | some l2 =>
    have := list_find_first_update _ _ l l2
      (fun a => match_update_ost_entity r trcv a r.ostname) hupd
    simpa [hfind] using this

/-! ## C1: reports that are not newer are ignored -/

/-- C1: if the entity found for the report's target has last-report timestamp `T`
and the report's source timestamp is `trcv ≤ T`, `_update_ost` leaves the
registry, hence the entity with all its fields and Samples, unchanged; if
`trcv > T` the report is applied and the entity's timestamp becomes `trcv`.
Of two successive reports for one target with equal or decreasing source
timestamps the second changes nothing, also when the first one created the
entity. -/
theorem update_ost_only_newer (r : ost_report) (l : List oststat_t)
    (tnow trcv stale_secs : Int) :
    (∀ o, list_find_first l (fun e => _match_oststat e r.ostname) = some o →
      trcv ≤ o.ost_metric_timestamp → _update_ost r l tnow trcv stale_secs = l) ∧
    (∀ o, list_find_first l (fun e => _match_oststat e r.ostname) = some o →
      o.ost_metric_timestamp < trcv →
      list_find_first (_update_ost r l tnow trcv stale_secs)
          (fun e => _match_oststat e r.ostname) = some (_update_ost_entity r trcv o) ∧
        (_update_ost_entity r trcv o).ost_metric_timestamp = trcv) ∧
    (∀ (r2 : ost_report) (tnow2 trcv2 : Int), r2.ostname = r.ostname → trcv2 ≤ trcv →
      ((list_find_first l (fun e => _match_oststat e r.ostname)).isSome ∨
        _match_oststat (_create_oststat r.ostname stale_secs) r.ostname = true) →
      _update_ost r2 (_update_ost r l tnow trcv stale_secs) tnow2 trcv2 stale_secs
        = _update_ost r l tnow trcv stale_secs) := by
  refine ⟨?_, ?_, ?_⟩
  · intro o hfind hle
    unfold _update_ost
    rw [list_update_first_fix _ _ l o hfind (update_ost_entity_stale r trcv o hle)]
  · intro o hfind hlt
    have hsome : list_update_first (fun e => _match_oststat e r.ostname)
        (_update_ost_entity r trcv) l ≠ none := by
      rw [Ne, list_update_first_eq_none, hfind]; simp
    constructor
    · unfold _update_ost
      cases hupd : list_update_first (fun e => _match_oststat e r.ostname)
          (_update_ost_entity r trcv) l with
      | none => exact absurd hupd hsome
      | some l2 =>
        have := list_find_first_update _ _ l l2
          (fun a => match_update_ost_entity r trcv a r.ostname) hupd
        simpa [hfind] using this
    · unfold _update_ost_entity
      rw [if_pos hlt]
  · intro r2 tnow2 trcv2 hname hle hent
    have key : ∃ o2, list_find_first (_update_ost r l tnow trcv stale_secs)
        (fun e => _match_oststat e r.ostname) = some o2 ∧
        trcv ≤ o2.ost_metric_timestamp := by
      unfold _update_ost
      cases hupd : list_update_first (fun e => _match_oststat e r.ostname)
          (_update_ost_entity r trcv) l with
      | some l2 =>
        have h1 := list_find_first_update _ _ l l2
          (fun a => match_update_ost_entity r trcv a r.ostname) hupd
        cases hf : list_find_first l (fun e => _match_oststat e r.ostname) with
        | none =>
          rw [← list_update_first_eq_none _ (_update_ost_entity r trcv)] at hf
          rw [hf] at hupd; cases hupd
        | some o =>
          refine ⟨_update_ost_entity r trcv o, ?_, update_ost_entity_timestamp r trcv o⟩
          simpa [hf] using h1
      | none =>
        have hnone := (list_update_first_eq_none _ _ l).mp hupd
        have hself : _match_oststat (_create_oststat r.ostname stale_secs) r.ostname = true := by
          rcases hent with h | h
          · rw [hnone] at h; cases h
          · exact h
        refine ⟨_, list_find_first_append_new _ l _ hnone ?_,
          update_ost_entity_timestamp r trcv _⟩
        rw [match_update_ost_entity]; exact hself
    obtain ⟨o2, hfind2, hts⟩ := key
    unfold _update_ost at hfind2 ⊢
    rw [hname]
    rw [list_update_first_fix _ _ _ o2 hfind2
      (update_ost_entity_stale r2 trcv2 o2 (le_trans hle hts))]

/-- C1 at a concrete registry: a report stamped 100 or 99 leaves the entity last
reported at 100 untouched, a report stamped 105 is applied, and a second report
stamped 105 or 104 after it changes nothing. -/
theorem update_ost_only_newer_witness :
    _update_ost ex_report [ex_ost] 100 100 12 = [ex_ost] ∧
    _update_ost ex_report_failover [ex_ost] 100 99 12 = [ex_ost] ∧
    (_update_ost_entity ex_report 105 ex_ost).ost_metric_timestamp = 105 ∧
    _update_ost ex_report_failover (_update_ost ex_report [ex_ost] 105 105 12) 105 105 12
      = _update_ost ex_report [ex_ost] 105 105 12 ∧
    _update_ost ex_report (_update_ost ex_report [] 105 105 12) 106 104 12
      = _update_ost ex_report [] 105 105 12 :=
  ⟨(update_ost_only_newer ex_report [ex_ost] 100 100 12).1 ex_ost (by decide) (by decide),
   (update_ost_only_newer ex_report_failover [ex_ost] 100 99 12).1 ex_ost
      (by decide) (by decide),
   ((update_ost_only_newer ex_report [ex_ost] 105 105 12).2.1 ex_ost
      (by decide) (by decide)).2,
   (update_ost_only_newer ex_report [ex_ost] 105 105 12).2.2 ex_report_failover 105 105
      rfl (by decide) (Or.inl (by decide)),
   (update_ost_only_newer ex_report [] 105 105 12).2.2 ex_report 106 104
      rfl (by decide) (Or.inr (by decide))⟩

/-! ## The conversion of counters to `double` -/

/-- Counters below `2 ^ 53` are converted to `double` without rounding. -/
theorem double_of_uint64_of_lt (n : Nat) (h : n < 2 ^ 53) : double_of_uint64 n = (n : ℚ) := by
  unfold double_of_uint64
  have he : double_ulp_exp 11 n = 0 := by
    unfold double_ulp_exp
    rw [if_pos h]
  simp [he, Nat.mod_one]

/-! ## C2: Samples invalidated on failover -/

theorem sample_rate_invalidate_update (s : sample_t) (v : ℚ) (t tnow : Int) :
    sample_rate (sample_update (sample_invalidate s) v t) tnow = none := by
  simp [sample_rate, sample_update, sample_invalidate]

theorem sample_rate_update_valid (s : sample_t) (v : ℚ) (t tnow : Int)
    (hvalid : s.valid ≠ 0) (hfresh : tnow - t ≤ s.window) (hlt : s.last_time < t) :
    sample_rate (sample_update s v t) tnow
      = some ((v - s.last) / (((t - s.last_time : Int)) : ℚ)) := by
  simp [sample_rate, sample_update, hvalid, hfresh, hlt]

/-- Whether or not the owning node changed, an applied report updates the connect
Sample as it stands: the failover block of `_update_ost` does not invalidate it. -/
theorem update_ost_entity_connect (r : ost_report) (trcv : Int) (o : oststat_t)
    (h : o.ost_metric_timestamp < trcv) :
    (_update_ost_entity r trcv o).connect
      = sample_update o.connect (double_of_uint64 r.connect) trcv := by
  unfold _update_ost_entity _update_ost_failover
  rw [if_pos h]
  split_ifs <;> rfl

/-- On failover an applied report invalidates the read Sample before updating
it. -/
theorem update_ost_entity_failover_rbytes (r : ost_report) (trcv : Int) (o : oststat_t)
    (h : o.ost_metric_timestamp < trcv) (hfail : strcmp r.ossname o.ossname ≠ 0) :
    (_update_ost_entity r trcv o).rbytes
      = sample_update (sample_invalidate o.rbytes) (double_of_uint64 r.read_bytes) trcv := by
  have hf : (strcmp r.ossname o.ossname != 0) = true := by simpa using hfail
  unfold _update_ost_entity _update_ost_failover
  rw [if_pos h, if_pos hf]

/-- C2: at the entity `ex_ost` (owned by `oss1`, connect readings 5 at time 95 and
10 at time 100) the report `ex_report_failover` from `oss2` stamped 105 with
connect counter 50 is applied; afterwards the read, write and IOPS rates at time
105 are unknown, but the connect Sample was not invalidated and its rate, the CR
column of the row, is the difference `(50 - 10) / 5 = 8` taken across the
failover. -/
theorem update_ost_failover_keeps_connect :
    strcmp ex_report_failover.ossname ex_ost.ossname ≠ 0 ∧
    ex_ost.ost_metric_timestamp < 105 ∧
    sample_rate (_update_ost_entity ex_report_failover 105 ex_ost).rbytes 105 = none ∧
    sample_rate (_update_ost_entity ex_report_failover 105 ex_ost).wbytes 105 = none ∧
    sample_rate (_update_ost_entity ex_report_failover 105 ex_ost).iops 105 = none ∧
    sample_rate (_update_ost_entity ex_report_failover 105 ex_ost).connect 105 = some 8 ∧
    _update_display_ost_row (_update_ost_entity ex_report_failover 105 ex_ost) 12 105
      = ost_row.normal "0001".toList "F".toList "oss2".toList
          { exp := sample_val (_update_ost_entity ex_report_failover 105 ex_ost).num_exports 105,
            cr := some 8, rmbps := none, wmbps := none, iops := none,
            locks := sample_val (_update_ost_entity ex_report_failover 105 ex_ost).lock_count 105,
            lgr := sample_val (_update_ost_entity ex_report_failover 105 ex_ost).grant_rate 105,
            lcr := sample_val (_update_ost_entity ex_report_failover 105 ex_ost).cancel_rate 105 } := by
  have hconn : sample_rate (_update_ost_entity ex_report_failover 105 ex_ost).connect 105
      = some 8 := by
    rw [update_ost_entity_connect _ _ _ (by decide),
      sample_rate_update_valid _ _ _ _ (by decide) (by decide) (by decide)]
    simp [ex_ost, ex_sample, ex_report_failover, ex_report,
      double_of_uint64_of_lt 50 (by norm_num)]
    norm_num
  have hr : sample_rate (_update_ost_entity ex_report_failover 105 ex_ost).rbytes 105 = none := by
    rw [update_ost_entity_failover_rbytes _ _ _ (by decide) (by decide)]
    exact sample_rate_invalidate_update _ _ _ _
  have hw : sample_rate (_update_ost_entity ex_report_failover 105 ex_ost).wbytes 105 = none := by
    decide
  have hi : sample_rate (_update_ost_entity ex_report_failover 105 ex_ost).iops 105 = none := by
    decide
  refine ⟨by decide, by decide, hr, hw, hi, hconn, ?_⟩
  have hts : ¬ (105 - (_update_ost_entity ex_report_failover 105 ex_ost).ost_metric_timestamp
      > 12) := by decide
  have hrec : ¬ ((strncmp (_update_ost_entity ex_report_failover 105 ex_ost).recov_status
      "COMPLETE".toList 8 != 0) = true) := by decide
  have hname : (_update_ost_entity ex_report_failover 105 ex_ost).name.take 4
      = "0001".toList := by decide
  have hst : (_update_ost_entity ex_report_failover 105 ex_ost).oscstate.take 1
      = "F".toList := by decide
  have hoss : (_update_ost_entity ex_report_failover 105 ex_ost).ossname.take 10
      = "oss2".toList := by decide
  unfold _update_display_ost_row
  rw [if_neg hts, if_neg hrec, hname, hst, hoss, hconn, hr, hw, hi]
  rfl

/-! ## C7: the node-name comparator -/

theorem strcmp_self (a : List Char) : strcmp a a = 0 := by
  induction a with
  | nil => rfl
  | cons c a ih => simp [strcmp, ih]

theorem strcmp_eq_zero_iff (a b : List Char) : strcmp a b = 0 ↔ a = b := by
  induction a generalizing b with
  | nil => cases b <;> simp [strcmp]
  | cons c a ih =>
    cases b with
    | nil => simp [strcmp]
    | cons d b =>
      by_cases hcd : c = d
      · subst hcd
        simp [strcmp, ih]
      · have hne : strcmp (c :: a) (d :: b) ≠ 0 := by
          rw [strcmp, if_neg hcd]
          split_ifs <;> decide
        constructor
        · intro h; exact absurd h hne
        · intro h; exact absurd (List.cons.inj h).1 hcd

/-- The trailing run of digits of `pre ++ d`, when `d` is made of digits and
`pre` does not end in one, is `d`. -/
theorem takeWhile_digits_reverse_append (pre d : List Char)
    (hd : ∀ c ∈ d, isdigit c = true)
    (hpre : ∀ c, pre.getLast? = some c → isdigit c = false) :
    (pre ++ d).reverse.takeWhile isdigit = d.reverse := by
  have h1 : d.reverse.takeWhile isdigit = d.reverse :=
    List.takeWhile_eq_self_iff.mpr (fun x hx => hd x (List.mem_reverse.mp hx))
  have h2 : pre.reverse.takeWhile isdigit = [] := by
    cases hr : pre.reverse with
    | nil => rfl
    | cons c t =>
      have hlast : pre.getLast? = some c := by
        have : pre = t.reverse ++ [c] := by
          have := congrArg List.reverse hr
          simpa using this
        rw [this]; simp
      simp [List.takeWhile_cons, hpre c hlast]
  rw [List.reverse_append, List.takeWhile_append, h1, h2]
  simp

theorem numerical_suffix_append (pre d : List Char)
    (hd : ∀ c ∈ d, isdigit c = true)
    (hpre : ∀ c, pre.getLast? = some c → isdigit c = false) :
    _numerical_suffix (pre ++ d)
      = (pre.length, if d = [] then none else some (strtoul d)) := by
  unfold _numerical_suffix
  simp only [takeWhile_digits_reverse_append pre d hd hpre, List.length_reverse,
    List.length_append, Nat.add_sub_cancel, List.drop_left]
  by_cases hnil : d = []
  · simp [hnil]
  · have : 0 < d.length := List.length_pos.mpr hnil
    simp [hnil, this]

/-- Every string splits into a part that does not end in a digit and its
trailing run of digits. -/
theorem digit_suffix_split (s : List Char) :
    ∃ pre d, s = pre ++ d ∧ (∀ c ∈ d, isdigit c = true) ∧
      (∀ c, pre.getLast? = some c → isdigit c = false) := by
  refine ⟨(s.reverse.dropWhile isdigit).reverse, (s.reverse.takeWhile isdigit).reverse,
    ?_, ?_, ?_⟩
  · rw [← List.reverse_append, List.takeWhile_append_dropWhile, List.reverse_reverse]
  · intro c hc
    exact (List.mem_takeWhile_imp (List.mem_reverse.mp hc))
  · intro c hc
    rw [List.getLast?_reverse] at hc
    cases hdw : s.reverse.dropWhile isdigit with
    | nil => rw [hdw] at hc; simp at hc
    | cons x t =>
      rw [hdw] at hc
      simp only [List.head?_cons, Option.some.injEq] at hc
      subst hc
      have := List.head_dropWhile_not isdigit s.reverse (by rw [hdw]; simp)
      simpa [hdw] using this

/-- C7 (as amended): when both node names end in a non-empty run of decimal digits
and the parts before the runs are identical, `_cmp_oststat_byoss` is `-1`, `0` or
`1` according to the order of the two numbers as `strtoul` reads them, that is
clamped to `ULONG_MAX`; whenever both numbers fit an `unsigned long` this is the
order of their numeric values. For every other pair of names the result is that
of `strcmp`. -/
theorem cmp_oststat_byoss_spec (o1 o2 : oststat_t) :
    (∀ pre d1 d2, o1.ossname = pre ++ d1 → o2.ossname = pre ++ d2 →
      d1 ≠ [] → d2 ≠ [] →
      (∀ c ∈ d1, isdigit c = true) → (∀ c ∈ d2, isdigit c = true) →
      (∀ c, pre.getLast? = some c → isdigit c = false) →
      (_cmp_oststat_byoss o1 o2 =
        if strtoul d1 < strtoul d2 then -1 else if strtoul d1 > strtoul d2 then 1 else 0) ∧
      strtoul d1 = min (decimal_value d1) ULONG_MAX ∧
      strtoul d2 = min (decimal_value d2) ULONG_MAX ∧
      (decimal_value d1 ≤ ULONG_MAX → decimal_value d2 ≤ ULONG_MAX →
        _cmp_oststat_byoss o1 o2 =
          if decimal_value d1 < decimal_value d2 then -1
          else if decimal_value d1 > decimal_value d2 then 1 else 0)) ∧
    ((¬ ∃ pre d1 d2, o1.ossname = pre ++ d1 ∧ o2.ossname = pre ++ d2 ∧
        d1 ≠ [] ∧ d2 ≠ [] ∧
        (∀ c ∈ d1, isdigit c = true) ∧ (∀ c ∈ d2, isdigit c = true) ∧
        (∀ c, pre.getLast? = some c → isdigit c = false)) →
      _cmp_oststat_byoss o1 o2 = strcmp o1.ossname o2.ossname) := by
  constructor
  · intro pre d1 d2 h1 h2 hn1 hn2 hd1 hd2 hpre
    have key : _cmp_oststat_byoss o1 o2 =
        if strtoul d1 < strtoul d2 then -1 else if strtoul d1 > strtoul d2 then 1 else 0 := by
      unfold _cmp_oststat_byoss
      rw [h1, h2, numerical_suffix_append pre d1 hd1 hpre,
        numerical_suffix_append pre d2 hd2 hpre, if_neg hn1, if_neg hn2]
      have hs : strncmp (pre ++ d1) (pre ++ d2) pre.length = 0 := by
        unfold strncmp
        rw [List.take_left, List.take_left]
        exact strcmp_self pre
      simp [hs]
    refine ⟨key, ?_, ?_, ?_⟩
    · unfold strtoul; rw [List.takeWhile_eq_self_iff.mpr hd1]
    · unfold strtoul; rw [List.takeWhile_eq_self_iff.mpr hd2]
    intro hb1 hb2
    rw [key]
    unfold strtoul
    rw [List.takeWhile_eq_self_iff.mpr hd1, List.takeWhile_eq_self_iff.mpr hd2,
      min_eq_left hb1, min_eq_left hb2]
  · intro hno
    unfold _cmp_oststat_byoss
    obtain ⟨pre1, e1, hs1, he1, hp1⟩ := digit_suffix_split o1.ossname
    obtain ⟨pre2, e2, hs2, he2, hp2⟩ := digit_suffix_split o2.ossname
    rw [hs1, hs2, numerical_suffix_append pre1 e1 he1 hp1,
      numerical_suffix_append pre2 e2 he2 hp2]
    by_cases hn1 : e1 = []
    · simp [hn1]
    by_cases hn2 : e2 = []
    · simp [hn2]
    simp only [if_neg hn1, if_neg hn2]
    by_cases hc : pre1.length = pre2.length ∧
        strncmp (pre1 ++ e1) (pre2 ++ e2) pre1.length = 0
    · exfalso
      apply hno
      obtain ⟨hlen, hcmp⟩ := hc
      unfold strncmp at hcmp
      rw [List.take_left] at hcmp
      nth_rewrite 1 [hlen] at hcmp
      rw [List.take_left, strcmp_eq_zero_iff] at hcmp
      subst hcmp
      exact ⟨pre1, e1, e2, hs1, hs2, hn1, hn2, he1, he2, hp1⟩
    · rw [if_neg hc]

/-- C7 fails as stated: the names `n18446744073709551615` and
`n18446744073709551616` share the part `n` before their digits and the second
number is the larger one, yet the comparator returns `0`. -/
theorem cmp_oststat_byoss_clamped :
    _cmp_oststat_byoss (ex_oss "n18446744073709551615") (ex_oss "n18446744073709551616") = 0 ∧
    decimal_value "18446744073709551615".toList
      < decimal_value "18446744073709551616".toList := by
  decide

/-- C7 at the names of the spec: `n1` before `n2` before `n10`, and `n` against
`n1`, where only one name ends in digits, compares as `strcmp` does. -/
theorem cmp_oststat_byoss_spec_witness :
    _cmp_oststat_byoss (ex_oss "n1") (ex_oss "n2") = -1 ∧
    _cmp_oststat_byoss (ex_oss "n2") (ex_oss "n10") = -1 ∧
    _cmp_oststat_byoss (ex_oss "n10") (ex_oss "n1") = 1 ∧
    _cmp_oststat_byoss (ex_oss "n") (ex_oss "n1")
      = strcmp (ex_oss "n").ossname (ex_oss "n1").ossname := by
  refine ⟨?_, ?_, ?_, ?_⟩
  · have h := ((cmp_oststat_byoss_spec (ex_oss "n1") (ex_oss "n2")).1 "n".toList
      "1".toList "2".toList rfl rfl (by decide) (by decide) (by decide) (by decide)
      (by decide)).2.2.2 (by decide) (by decide)
    rw [h]; decide
  · have h := ((cmp_oststat_byoss_spec (ex_oss "n2") (ex_oss "n10")).1 "n".toList
      "2".toList "10".toList rfl rfl (by decide) (by decide) (by decide) (by decide)
      (by decide)).2.2.2 (by decide) (by decide)
    rw [h]; decide
  · have h := ((cmp_oststat_byoss_spec (ex_oss "n10") (ex_oss "n1")).1 "n".toList
      "10".toList "1".toList rfl rfl (by decide) (by decide) (by decide) (by decide)
      (by decide)).2.2.2 (by decide) (by decide)
    rw [h]; decide
  · refine (cmp_oststat_byoss_spec (ex_oss "n") (ex_oss "n1")).2 ?_
    rintro ⟨pre, d1, d2, h1, h2, hn1, hn2, hd1, hd2, hpre⟩
    have hlast : (ex_oss "n").ossname.getLast? = some 'n' := by decide
    rw [h1] at hlast
    have hd1last : d1.getLast? = some 'n' := by
      rw [List.getLast?_append] at hlast
      cases hd : d1.getLast? with
      | none => rw [List.getLast?_eq_none_iff] at hd; exact absurd hd hn1
      | some c => rw [hd] at hlast; simpa using hlast
    have hmem : 'n' ∈ d1 := List.mem_of_getLast?_eq_some hd1last
    have := hd1 'n' hmem
    revert this
    decide

/-! ## C9: the filesystem filter -/

theorem strchr_eq_takeWhile (s : List Char) (c : Char) :
    (match strchr s c with
      | some p => p
      | none => strlen s) = (s.takeWhile (fun x => x != c)).length := by
  induction s with
  | nil => simp [strchr, strlen]
  | cons a s ih =>
    by_cases h : a = c
    · simp [strchr, h]
    · simp only [strchr, if_neg h, List.takeWhile_cons]
      have hne : (a != c) = true := by simpa using h
      simp only [hne, if_true, List.length_cons]
      cases hs : strchr s c with
      | none => simp [hs, strlen] at ih ⊢; exact ih
      | some p => simp [hs] at ih ⊢; exact ih

theorem take_length_takeWhile (s : List Char) (q : Char → Bool) :
    s.take (s.takeWhile q).length = s.takeWhile q := by
  induction s with
  | nil => simp
  | cons a s ih =>
    by_cases h : q a
    · simp [List.takeWhile_cons, h, ih]
    · simp [List.takeWhile_cons, h]

theorem fsmatch_iff (name fs : List Char) :
    _fsmatch name fs = true ↔ name.takeWhile (fun c => c != '-') = fs := by
  unfold _fsmatch
  simp only [strchr_eq_takeWhile name '-']
  simp only [Bool.and_eq_true, decide_eq_true_eq, beq_iff_eq, strncmp, strlen,
    take_length_takeWhile]
  constructor
  · rintro ⟨hlen, hcmp⟩
    rw [← hlen, List.take_length, strcmp_eq_zero_iff] at hcmp
    exact hcmp
  · intro h
    subst h
    refine ⟨rfl, ?_⟩
    rw [List.take_length]
    exact strcmp_self _

theorem foldl_fixed {α β : Type} (f : α → β → α) (a : α) (l : List β)
    (h : ∀ s ∈ l, f a s = a) : l.foldl f a = a := by
  induction l with
  | nil => rfl
  | cons x l ih =>
    rw [List.foldl_cons, h x (List.mem_cons_self x l)]
    exact ih (fun s hs => h s (List.mem_cons_of_mem x hs))

/-- C9: `_fsmatch` accepts a target name exactly when its text before the first
`-` (the whole name if there is none) equals the selected filesystem name; for a
target that is not accepted the decoders of OST, OSC and MDT reports leave the
registry as it is; and an OST report all of whose targets are rejected changes
nothing. -/
theorem fsmatch_filters_reports (name fs : List Char) :
    (_fsmatch name fs = true ↔ name.takeWhile (fun c => c != '-') = fs) ∧
    (_fsmatch name fs = false →
      (∀ (D : Decoder) (ossname s : List Char) (i : ostinfo_v2) (tnow trcv stale_secs : Int)
          (ost_data : List oststat_t),
        D.lmt_ost_decode_v2_ostinfo s = some i → i.ostname = name →
        _decode_ost_v2_item D ossname (some fs) tnow trcv stale_secs ost_data s = ost_data) ∧
      (∀ (D : Decoder) (s state : List Char) (tnow trcv stale_secs : Int)
          (ost_data : List oststat_t),
        D.lmt_osc_decode_v1_oscinfo s = some (name, state) →
        _decode_osc_v1_item D (some fs) tnow trcv stale_secs ost_data s = ost_data) ∧
      (∀ (D : Decoder) (mdsname s : List Char) (i : mdtinfo_v1) (tnow trcv stale_secs : Int)
          (mdt_data : List mdtstat_t),
        D.lmt_mdt_decode_v1_mdtinfo s = some i → i.mdtname = name →
        _decode_mdt_v1_item D mdsname (some fs) tnow trcv stale_secs mdt_data s = mdt_data)) ∧
    (∀ (D : Decoder) (val : List Char) (tnow trcv stale_secs : Int)
        (ost_data : List oststat_t),
      (∀ ossname items, D.lmt_ost_decode_v2 val = some (ossname, items) →
        ∀ s ∈ items, ∀ i, D.lmt_ost_decode_v2_ostinfo s = some i →
          _fsmatch i.ostname fs = false) →
      _decode_ost_v2 D val (some fs) ost_data tnow trcv stale_secs = ost_data) := by
  refine ⟨fsmatch_iff name fs, fun hrej => ⟨?_, ?_, ?_⟩, ?_⟩
  · intro D ossname s i tnow trcv W l hdec hname
    simp [_decode_ost_v2_item, hdec, fs_accepts, hname, hrej]
  · intro D s state tnow trcv W l hdec
    simp [_decode_osc_v1_item, hdec, fs_accepts, hrej]
  · intro D mdsname s i tnow trcv W l hdec hname
    simp [_decode_mdt_v1_item, hdec, fs_accepts, hname, hrej]
  · intro D val tnow trcv W l hall
    unfold _decode_ost_v2
    cases hdec : D.lmt_ost_decode_v2 val with
    | none => rfl
    | some pr =>
      obtain ⟨ossname, items⟩ := pr
      refine foldl_fixed _ l items (fun s hs => ?_)
      unfold _decode_ost_v2_item
      cases hinfo : D.lmt_ost_decode_v2_ostinfo s with
      | none => rfl
      | some i => simp [fs_accepts, hall ossname items hdec s hs i hinfo]

/-- C9 at concrete names: with filesystem `lustre` selected, `lustre-OST0001` is
accepted, `lustre2-OST0001` and `lustr` are not, and a report for
`lustre2-OST0001` leaves a registry untouched. -/
theorem fsmatch_filters_reports_witness :
    _fsmatch "lustre-OST0001".toList "lustre".toList = true ∧
    _fsmatch "lustre2-OST0001".toList "lustre".toList = false ∧
    _fsmatch "lustr".toList "lustre".toList = false ∧
    _decode_ost_v2_item ex_decoder "oss1".toList (some "lustre".toList) 100 100 12 [ex_ost]
      "lustre2-OST0001".toList = [ex_ost] ∧
    _decode_ost_v2 ex_decoder "2;oss1;lustre2-OST0001;lustre2-OST0002".toList
      (some "lustre".toList) [ex_ost] 100 100 12 = [ex_ost] :=
  ⟨(fsmatch_filters_reports "lustre-OST0001".toList "lustre".toList).1.mpr (by decide),
   by decide, by decide,
   ((fsmatch_filters_reports "lustre2-OST0001".toList "lustre".toList).2.1 (by decide)).1
     ex_decoder "oss1".toList "lustre2-OST0001".toList _ 100 100 12 [ex_ost] rfl rfl,
   by decide⟩

/-! ## C10: connection-state reports -/

theorem list_update_first_split {α : Type} (f : α → Bool) (g : α → α) (l : List α) (o : α)
    (hfind : list_find_first l f = some o) :
    ∃ pre post, l = pre ++ o :: post ∧ (∀ e ∈ pre, f e = false) ∧
      list_update_first f g l = some (pre ++ g o :: post) := by
  induction l with
  | nil => simp [list_find_first] at hfind
  | cons a l ih =>
    by_cases h : f a
    · simp [list_find_first, h] at hfind
      subst hfind
      exact ⟨[], l, rfl, by simp, by simp [list_update_first, h]⟩
    · simp [list_find_first, h] at hfind
      obtain ⟨pre, post, hl, hpre, hupd⟩ := ih hfind
      refine ⟨a :: pre, post, by rw [hl]; rfl, ?_, ?_⟩
      · intro e he
        rcases List.mem_cons.mp he with rfl | he
        · simpa using h
        · exact hpre e he
      · simp [list_update_first, h, hupd]

/-- C10: after `_update_osc` the entity of the target, the first one whose index
matches, or a new one appended to the registry when there is none, holds as
connection state the empty string if `tnow - trcv > stale_secs` and otherwise the
first character of the reported state (nothing for an empty report); all other
entities and all other fields are as before. -/
theorem update_osc_state (name state : List Char) (ost_data : List oststat_t)
    (tnow trcv stale_secs : Int) :
    (∀ o, list_find_first ost_data (fun e => _match_oststat e name) = some o →
      ∃ pre post, ost_data = pre ++ o :: post ∧
        (∀ e ∈ pre, _match_oststat e name = false) ∧
        _update_osc name state ost_data tnow trcv stale_secs
          = pre ++ { o with oscstate :=
              if tnow - trcv > stale_secs then [] else state.take 1 } :: post) ∧
    (list_find_first ost_data (fun e => _match_oststat e name) = none →
      _update_osc name state ost_data tnow trcv stale_secs
        = ost_data ++ [{ _create_oststat name stale_secs with oscstate :=
              if tnow - trcv > stale_secs then [] else state.take 1 }]) := by
  have hent : ∀ o : oststat_t, _update_osc_entity state tnow trcv stale_secs o
      = { o with oscstate := if tnow - trcv > stale_secs then [] else state.take 1 } := by
    intro o
    unfold _update_osc_entity strncpy
    split_ifs <;> simp
  constructor
  · intro o hfind
    obtain ⟨pre, post, hl, hpre, hupd⟩ := list_update_first_split _
      (_update_osc_entity state tnow trcv stale_secs) ost_data o hfind
    refine ⟨pre, post, hl, hpre, ?_⟩
    unfold _update_osc
    rw [hupd, hent]
  · intro hnone
    unfold _update_osc
    rw [(list_update_first_eq_none _ _ ost_data).mpr hnone, hent]

/-- C10 at concrete reports: a fresh report `FULL` sets the state of the existing
entity to `F`, a report that is 13 seconds old with a window of 12 clears it, and
a report for an unknown target appends a new entity holding the state. -/
theorem update_osc_state_witness :
    _update_osc "lustre-OST0001".toList "FULL".toList [{ ex_ost with oscstate := [] }] 100 100 12
      = [ex_ost] ∧
    _update_osc "lustre-OST0001".toList "FULL".toList [ex_ost] 113 100 12
      = [{ ex_ost with oscstate := [] }] ∧
    _update_osc "lustre-OST0002".toList "D".toList [ex_ost] 100 100 12
      = [ex_ost, { _create_oststat "lustre-OST0002".toList 12 with oscstate := "D".toList }] := by
  refine ⟨?_, ?_, ?_⟩
  · obtain ⟨pre, post, hl, -, h⟩ := (update_osc_state "lustre-OST0001".toList "FULL".toList
      [{ ex_ost with oscstate := [] }] 100 100 12).1 { ex_ost with oscstate := [] } (by decide)
    cases pre with
    | nil =>
      simp only [List.nil_append, List.cons.injEq, true_and] at hl
      rw [h, ← hl]
      decide
    | cons a pre => simp at hl
  · obtain ⟨pre, post, hl, -, h⟩ := (update_osc_state "lustre-OST0001".toList "FULL".toList
      [ex_ost] 113 100 12).1 ex_ost (by decide)
    cases pre with
    | nil =>
      simp only [List.nil_append, List.cons.injEq, true_and] at hl
      rw [h, ← hl]
      decide
    | cons a pre => simp at hl
  · have h := (update_osc_state "lustre-OST0002".toList "D".toList [ex_ost] 100 100 12).2
      (by decide)
    rw [h]
    decide

/-! ## C8: two applied reports -/

theorem sample_update_facts (s : sample_t) (v : ℚ) (t : Int) :
    (sample_update s v t).valid ≠ 0 ∧ (sample_update s v t).last = v ∧
    (sample_update s v t).last_time = t ∧ (sample_update s v t).window = s.window := by
  unfold sample_update
  split_ifs <;> simp

theorem update_ost_entity_applied_rbytes (r : ost_report) (t : Int) (o : oststat_t)
    (h : o.ost_metric_timestamp < t) :
    (_update_ost_entity r t o).ost_metric_timestamp = t ∧
    (_update_ost_entity r t o).recov_status = snprintf_s 32 r.recov_status ∧
    (_update_ost_entity r t o).ossname
      = (if strcmp r.ossname o.ossname != 0 then snprintf_s MAXHOSTNAMELEN r.ossname
         else o.ossname) ∧
    (_update_ost_entity r t o).rbytes
      = sample_update (if strcmp r.ossname o.ossname != 0 then sample_invalidate o.rbytes
          else o.rbytes) (double_of_uint64 r.read_bytes) t := by
  unfold _update_ost_entity _update_ost_failover
  rw [if_pos h]
  split_ifs <;> simp

/-! ## C3: aggregation of rates and export counts -/

theorem match_oststat2_iff (o : oststat_t) (n : List Char) :
    _match_oststat2 o n = true ↔ o.ossname = n := by
  simp [_match_oststat2, strcmp_eq_zero_iff]

theorem list_find_first_update_other {α : Type} (f p : α → Bool) (g : α → α)
    (l l2 : List α) (hother : ∀ a, f a = true → p a = false ∧ p (g a) = false)
    (hupd : list_update_first f g l = some l2) :
    list_find_first l2 p = list_find_first l p := by
  induction l generalizing l2 with
  | nil => simp [list_update_first] at hupd
  | cons a l ih =>
    by_cases h : f a
    · simp [list_update_first, h] at hupd
      subst hupd
      simp [list_find_first, (hother a h).1, (hother a h).2]
    · simp only [list_update_first, h, Bool.false_eq_true, if_false] at hupd
      cases h3 : list_update_first f g l with
      | none => simp [h3] at hupd
      | some l3 =>
        simp [h3] at hupd
        subst hupd
        have := ih l3 h3
        simp only [list_find_first] at this ⊢
        simp [List.find?_cons, this]

theorem list_find_first_append_other {α : Type} (p : α → Bool) (l : List α) (a : α)
    (ha : p a = false) : list_find_first (l ++ [a]) p = list_find_first l p := by
  simp only [list_find_first]
  simp [List.find?_append, ha]

theorem summarize_ost_merge_ossname (o2 o : oststat_t) :
    (_summarize_ost_merge o2 o).ossname = o2.ossname := rfl

theorem summarize_ost_first_ossname (o : oststat_t) :
    (_summarize_ost_first o).ossname = o.ossname := rfl

/-- The record of node `n` after one step of the loop of `_summarize_ost`. -/
theorem summarize_ost_step_find (n : List Char) (acc : List oststat_t) (o : oststat_t) :
    list_find_first (_summarize_ost_step acc o) (fun a => _match_oststat2 a n)
      = node_record n (list_find_first acc (fun a => _match_oststat2 a n)) [o] := by
  unfold _summarize_ost_step node_record
  simp only [List.foldl_cons, List.foldl_nil]
  by_cases hn : o.ossname = n
  · subst hn
    rw [if_pos rfl]
    cases hupd : list_update_first (fun o2 => _match_oststat2 o2 o.ossname)
        (fun o2 => _summarize_ost_merge o2 o) acc with
    | none =>
      have hnone := (list_update_first_eq_none _ _ acc).mp hupd
      rw [hnone]
      exact list_find_first_append_new _ acc _ hnone
        ((match_oststat2_iff _ _).mpr (summarize_ost_first_ossname o))
    | some l2 =>
      have h := list_find_first_update _ _ acc l2 (fun a => by
        simp only [_match_oststat2, summarize_ost_merge_ossname]) hupd
      rw [h]
      cases hf : list_find_first acc (fun o2 => _match_oststat2 o2 o.ossname) with
      | none =>
        rw [← list_update_first_eq_none _ (fun o2 => _summarize_ost_merge o2 o)] at hf
        rw [hf] at hupd; cases hupd
      | some a => rfl
  · rw [if_neg hn]
    cases hupd : list_update_first (fun o2 => _match_oststat2 o2 o.ossname)
        (fun o2 => _summarize_ost_merge o2 o) acc with
    | none =>
      refine list_find_first_append_other _ acc _ ?_
      rw [Bool.eq_false_iff, Ne, match_oststat2_iff, summarize_ost_first_ossname]
      exact hn
    | some l2 =>
      refine list_find_first_update_other _ _ _ acc l2 (fun a ha => ?_) hupd
      have ha2 : a.ossname = o.ossname := (match_oststat2_iff a o.ossname).mp ha
      constructor
      · rw [Bool.eq_false_iff, Ne, match_oststat2_iff, ha2]; exact hn
      · rw [Bool.eq_false_iff, Ne, match_oststat2_iff, summarize_ost_merge_ossname, ha2]
        exact hn

theorem summarize_ost_fold_find (n : List Char) (l acc : List oststat_t) :
    list_find_first (l.foldl _summarize_ost_step acc) (fun a => _match_oststat2 a n)
      = node_record n (list_find_first acc (fun a => _match_oststat2 a n)) l := by
  induction l generalizing acc with
  | nil => rfl
  | cons o l ih =>
    rw [List.foldl_cons, ih, summarize_ost_step_find]
    rfl

/-- Accumulation into an existing node record: validity, timestamps and window
of the read and export Samples stay those of the record, the read readings add
up and the export reading is the running minimum. -/
theorem node_record_some (n : List Char) (l : List oststat_t) (a : oststat_t) :
    ∃ agg, node_record n (some a) l = some agg ∧
      agg.rbytes.valid = a.rbytes.valid ∧ agg.rbytes.prev_time = a.rbytes.prev_time ∧
      agg.rbytes.last_time = a.rbytes.last_time ∧ agg.rbytes.window = a.rbytes.window ∧
      agg.rbytes.last - agg.rbytes.prev = (a.rbytes.last - a.rbytes.prev)
        + ((l.filter (fun o => decide (o.ossname = n))).map
            (fun o => o.rbytes.last - o.rbytes.prev)).sum ∧
      agg.num_exports.last_time = a.num_exports.last_time ∧
      agg.num_exports.window = a.num_exports.window ∧
      agg.num_exports.last = (l.filter (fun o => decide (o.ossname = n))).foldl
        (fun m o => min m o.num_exports.last) a.num_exports.last := by
  induction l generalizing a with
  | nil => exact ⟨a, rfl, rfl, rfl, rfl, rfl, by simp, rfl, rfl, rfl⟩
  | cons o l ih =>
    by_cases hn : o.ossname = n
    · obtain ⟨agg, h0, h1, h2, h3, h4, h5, h6, h7, h8⟩ := ih (_summarize_ost_merge a o)
      refine ⟨agg, ?_, h1, h2, h3, h4, ?_, h6, h7, ?_⟩
      · simpa [node_record, hn] using h0
      · rw [h5]
        simp only [List.filter_cons, hn, decide_True, if_true, List.map_cons, List.sum_cons,
          _summarize_ost_merge, sample_add]
        ring
      · rw [h8]
        simp [List.filter_cons, hn, _summarize_ost_merge, sample_min]
    · obtain ⟨agg, h0, h1, h2, h3, h4, h5, h6, h7, h8⟩ := ih a
      refine ⟨agg, ?_, h1, h2, h3, h4, ?_, h6, h7, ?_⟩
      · simpa [node_record, hn] using h0
      · rw [h5]; simp [List.filter_cons, hn]
      · rw [h8]; simp [List.filter_cons, hn]

/-- Without a record yet, the loop starts one at the first target of the node. -/
theorem node_record_none (n : List Char) (l : List oststat_t) (o : oststat_t)
    (rest : List oststat_t)
    (hfil : l.filter (fun o => decide (o.ossname = n)) = o :: rest) :
    ∃ post, node_record n none l = node_record n (some (_summarize_ost_first o)) post ∧
      post.filter (fun o => decide (o.ossname = n)) = rest := by
  induction l with
  | nil => simp at hfil
  | cons x l ih =>
    by_cases hn : x.ossname = n
    · simp only [List.filter_cons, hn, decide_True, if_true, List.cons.injEq] at hfil
      obtain ⟨rfl, hrest⟩ := hfil
      exact ⟨l, by simp [node_record, hn], hrest⟩
    · simp only [List.filter_cons, hn, decide_False] at hfil
      obtain ⟨post, h1, h2⟩ := ih hfil
      refine ⟨post, ?_, h2⟩
      rw [← h1]
      simp [node_record, hn]

theorem foldl_min_le (xs : List oststat_t) (m : ℚ) :
    xs.foldl (fun m o => min m o.num_exports.last) m ≤ m ∧
    (∀ o ∈ xs, xs.foldl (fun m o => min m o.num_exports.last) m ≤ o.num_exports.last) ∧
    (xs.foldl (fun m o => min m o.num_exports.last) m = m ∨
      ∃ o ∈ xs, xs.foldl (fun m o => min m o.num_exports.last) m = o.num_exports.last) := by
  induction xs generalizing m with
  | nil => simp
  | cons x xs ih =>
    obtain ⟨h1, h2, h3⟩ := ih (min m x.num_exports.last)
    simp only [List.foldl_cons]
    refine ⟨le_trans h1 (min_le_left _ _), ?_, ?_⟩
    · intro o ho
      rcases List.mem_cons.mp ho with rfl | ho
      · exact le_trans h1 (min_le_right _ _)
      · exact h2 o ho
    · rcases h3 with h3 | ⟨o, ho, h3⟩
      · rcases min_choice m x.num_exports.last with hc | hc
        · left; rw [h3, hc]
        · right; exact ⟨x, List.mem_cons_self _ _, by rw [h3, hc]⟩
      · right; exact ⟨o, List.mem_cons_of_mem _ ho, h3⟩

theorem sample_rate_some_iff (s : sample_t) (tnow : Int) :
    (sample_rate s tnow).isSome = true ↔
      (s.valid = 2 ∧ tnow - s.last_time ≤ s.window ∧ s.prev_time < s.last_time) := by
  unfold sample_rate
  split_ifs with h
  · simp only [Option.isSome_some, true_iff]; exact h
  · simp only [Option.isSome_none, Bool.false_eq_true, false_iff]; exact h

theorem sample_rate_of_known (s : sample_t) (tnow : Int)
    (h : (sample_rate s tnow).isSome = true) :
    sample_rate s tnow
      = some ((s.last - s.prev) / (((s.last_time - s.prev_time : Int)) : ℚ)) := by
  have h2 := (sample_rate_some_iff s tnow).mp h
  unfold sample_rate
  rw [if_pos h2]

theorem sum_rates_eq (xs : List oststat_t) (now t0 t1 : Int)
    (htimes : ∀ o ∈ xs, o.rbytes.prev_time = t0 ∧ o.rbytes.last_time = t1)
    (hrate : ∀ o ∈ xs, (sample_rate o.rbytes now).isSome = true) :
    (xs.map (fun o => (sample_rate o.rbytes now).getD 0)).sum
      = (xs.map (fun o => o.rbytes.last - o.rbytes.prev)).sum / (((t1 - t0 : Int)) : ℚ) := by
  induction xs with
  | nil => simp
  | cons x xs ih =>
    have hx := sample_rate_of_known x.rbytes now (hrate x (List.mem_cons_self _ _))
    rw [(htimes x (List.mem_cons_self _ _)).1, (htimes x (List.mem_cons_self _ _)).2] at hx
    simp only [List.map_cons, List.sum_cons, hx, Option.getD_some]
    rw [ih (fun o ho => htimes o (List.mem_cons_of_mem _ ho))
      (fun o ho => hrate o (List.mem_cons_of_mem _ ho))]
    ring

theorem list_sort_insert_perm {α : Type} (cmp : α → α → Int) (x : α) (l : List α) :
    List.Perm (list_sort_insert cmp x l) (x :: l) := by
  induction l with
  | nil => exact List.Perm.refl _
  | cons y ys ih =>
    unfold list_sort_insert
    split_ifs
    · exact List.Perm.refl _
    · exact ((List.Perm.cons y ih).trans (List.Perm.swap x y ys))

theorem list_sort_perm {α : Type} (cmp : α → α → Int) (l : List α) :
    List.Perm (list_sort cmp l) l := by
  have gen : ∀ (l acc : List α),
      List.Perm (l.foldl (fun acc x => list_sort_insert cmp x acc) acc) (l ++ acc) := by
    intro l
    induction l with
    | nil => intro acc; exact List.Perm.refl _
    | cons x l ih =>
      intro acc
      rw [List.foldl_cons]
      refine (ih _).trans ?_
      refine (List.Perm.append_left l (list_sort_insert_perm cmp x acc)).trans ?_
      exact (List.perm_middle)
  simpa [list_sort] using gen l []

theorem list_update_first_map {α β : Type} (f : α → Bool) (g : α → α) (k : α → β)
    (l l2 : List α) (hk : ∀ a, k (g a) = k a) (hupd : list_update_first f g l = some l2) :
    l2.map k = l.map k := by
  induction l generalizing l2 with
  | nil => simp [list_update_first] at hupd
  | cons a l ih =>
    by_cases h : f a
    · simp [list_update_first, h] at hupd
      subst hupd
      simp [hk]
    · simp only [list_update_first, h, Bool.false_eq_true, if_false] at hupd
      cases h3 : list_update_first f g l with
      | none => simp [h3] at hupd
      | some l3 =>
        simp [h3] at hupd
        subst hupd
        simp [ih l3 h3]

/-- The loop of `_summarize_ost` keeps one record per owning-node name. -/
theorem summarize_ost_fold_nodup (l acc : List oststat_t)
    (hacc : (acc.map (fun a => a.ossname)).Nodup) :
    ((l.foldl _summarize_ost_step acc).map (fun a => a.ossname)).Nodup := by
  induction l generalizing acc with
  | nil => exact hacc
  | cons o l ih =>
    rw [List.foldl_cons]
    apply ih
    unfold _summarize_ost_step
    cases hupd : list_update_first (fun o2 => _match_oststat2 o2 o.ossname)
        (fun o2 => _summarize_ost_merge o2 o) acc with
    | some l2 =>
      simp only []
      rw [list_update_first_map _ _ (fun a => a.ossname) acc l2
        (fun a => summarize_ost_merge_ossname a o) hupd]
      exact hacc
    | none =>
      simp only []
      have hnone := (list_update_first_eq_none _ _ acc).mp hupd
      rw [List.map_append, List.map_singleton]
      refine List.Nodup.append hacc (List.nodup_singleton _) ?_
      intro x hx1 hx2
      rw [List.mem_singleton] at hx2
      obtain ⟨a, ha, hax⟩ := List.mem_map.mp hx1
      have hfa : _match_oststat2 a o.ossname = true := by
        rw [match_oststat2_iff, hax, hx2]; rfl
      simp only [list_find_first] at hnone
      have := List.find?_eq_none.mp hnone a ha
      exact this hfa

/-- The first loop of `_summarize_ost` leaves `oss_data` empty. -/
theorem summarize_ost_clear_eq (oss_data : List oststat_t) :
    _summarize_ost_clear oss_data = [] := by
  induction oss_data with
  | nil => rfl
  | cons o rest ih => exact ih

/-- The aggregated registry is the sorted result of the loop over `ost_data`
started on the empty list. -/
theorem summarize_ost_eq (ost_data oss_data : List oststat_t) (stale_secs : Int) :
    _summarize_ost ost_data oss_data stale_secs
      = list_sort _cmp_oststat_byoss (ost_data.foldl _summarize_ost_step []) := by
  unfold _summarize_ost
  rw [summarize_ost_clear_eq]

theorem sample_val_some_iff (s : sample_t) (tnow : Int) :
    (sample_val s tnow).isSome = true ↔ tnow - s.last_time ≤ s.window := by
  unfold sample_val
  split_ifs with h
  · simp only [Option.isSome_some, true_iff]; exact h
  · simp only [Option.isSome_none, Bool.false_eq_true, false_iff]; exact h

/-- C3: let `n` be the owning node of at least one target of the OST registry,
let the read Samples of the targets of `n` carry the same pair of reading
timestamps, and let their read rates and export counts at `now` be known. Then
`_summarize_ost` yields exactly one record for `n`; its read rate at `now` is
the sum of the read rates of the targets of `n`, and its export count at `now`
is the least of their export counts. -/
theorem summarize_ost_node_totals (ost_data oss_data : List oststat_t)
    (stale_secs now t0 t1 : Int) (n : List Char)
    (hne : ∃ o ∈ ost_data, o.ossname = n)
    (htimes : ∀ o ∈ ost_data, o.ossname = n →
      o.rbytes.prev_time = t0 ∧ o.rbytes.last_time = t1)
    (hrate : ∀ o ∈ ost_data, o.ossname = n → (sample_rate o.rbytes now).isSome = true)
    (hexp : ∀ o ∈ ost_data, o.ossname = n → (sample_val o.num_exports now).isSome = true) :
    ∃ agg, agg ∈ _summarize_ost ost_data oss_data stale_secs ∧ agg.ossname = n ∧
      (∀ b ∈ _summarize_ost ost_data oss_data stale_secs, b.ossname = n → b = agg) ∧
      sample_rate agg.rbytes now
        = some (((ost_data.filter (fun o => decide (o.ossname = n))).map
            (fun o => (sample_rate o.rbytes now).getD 0)).sum) ∧
      ∃ m, sample_val agg.num_exports now = some m ∧
        (∀ o ∈ ost_data, o.ossname = n →
          ∀ v, sample_val o.num_exports now = some v → m ≤ v) ∧
        (∃ o ∈ ost_data, o.ossname = n ∧ sample_val o.num_exports now = some m) := by
  rw [summarize_ost_eq]
  -- the targets of the node, in registry order
  have hmemfil : ∀ x, x ∈ ost_data.filter (fun o => decide (o.ossname = n)) ↔
      x ∈ ost_data ∧ x.ossname = n := by
    intro x; simp [List.mem_filter]
  cases hfil : ost_data.filter (fun o => decide (o.ossname = n)) with
  | nil =>
    obtain ⟨o, ho, hon⟩ := hne
    have : o ∈ ost_data.filter (fun o => decide (o.ossname = n)) := (hmemfil o).mpr ⟨ho, hon⟩
    rw [hfil] at this
    cases this
  | cons o rest =>
    have ho : o ∈ ost_data ∧ o.ossname = n :=
      (hmemfil o).mp (by rw [hfil]; exact List.mem_cons_self _ _)
    have hrest : ∀ x ∈ rest, x ∈ ost_data ∧ x.ossname = n := fun x hx =>
      (hmemfil x).mp (by rw [hfil]; exact List.mem_cons_of_mem _ hx)
    -- the record the loop ends with
    obtain ⟨post, hpost, hpostfil⟩ := node_record_none n ost_data o rest hfil
    obtain ⟨agg, hagg, hv, hpt, hlt, hw, hD, helt, hew, hel⟩ :=
      node_record_some n post (_summarize_ost_first o)
    rw [hpostfil] at hD hel
    have hfind : list_find_first (ost_data.foldl _summarize_ost_step [])
        (fun a => _match_oststat2 a n) = some agg := by
      rw [summarize_ost_fold_find, ← hagg, ← hpost]
      rfl
    have hmem_acc : agg ∈ ost_data.foldl _summarize_ost_step [] :=
      List.mem_of_find?_eq_some hfind
    have hname : agg.ossname = n := by
      have hp := @List.find?_some _ (fun a => _match_oststat2 a n) agg _ hfind
      exact (match_oststat2_iff agg n).mp hp
    have hperm := list_sort_perm _cmp_oststat_byoss (ost_data.foldl _summarize_ost_step [])
    have hnodup := summarize_ost_fold_nodup ost_data [] (by simp)
    refine ⟨agg, hperm.mem_iff.mpr hmem_acc, hname, ?_, ?_, ?_⟩
    · intro b hb hbn
      have hb2 : b ∈ ost_data.foldl _summarize_ost_step [] := hperm.mem_iff.mp hb
      exact List.inj_on_of_nodup_map hnodup hb2 hmem_acc (by rw [hbn, hname])
    · -- the read rate
      have hknown := (sample_rate_some_iff o.rbytes now).mp (hrate o ho.1 ho.2)
      obtain ⟨hot0, hot1⟩ := htimes o ho.1 ho.2
      have hfirst : (_summarize_ost_first o).rbytes = o.rbytes := rfl
      rw [hfirst] at hv hpt hlt hw hD
      have hsum := sum_rates_eq (o :: rest) now t0 t1
        (fun x hx => by
          rcases List.mem_cons.mp hx with rfl | hx
          · exact htimes _ ho.1 ho.2
          · exact htimes x (hrest x hx).1 (hrest x hx).2)
        (fun x hx => by
          rcases List.mem_cons.mp hx with rfl | hx
          · exact hrate _ ho.1 ho.2
          · exact hrate x (hrest x hx).1 (hrest x hx).2)
      rw [hsum]
      have hk : agg.rbytes.valid = 2 ∧ now - agg.rbytes.last_time ≤ agg.rbytes.window ∧
          agg.rbytes.prev_time < agg.rbytes.last_time := by
        rw [hv, hpt, hlt, hw]; exact hknown
      unfold sample_rate
      rw [if_pos hk, hD, hlt, hpt, hot0, hot1]
      simp only [List.map_cons, List.sum_cons]
    · -- the export count
      have hfirst : (_summarize_ost_first o).num_exports = o.num_exports := rfl
      rw [hfirst] at helt hew hel
      have hfresh := (sample_val_some_iff o.num_exports now).mp (hexp o ho.1 ho.2)
      have hval : ∀ x, x ∈ ost_data → x.ossname = n →
          sample_val x.num_exports now = some x.num_exports.last := by
        intro x hx hxn
        have := (sample_val_some_iff x.num_exports now).mp (hexp x hx hxn)
        unfold sample_val
        rw [if_pos this]
      obtain ⟨hle, hall, hatt⟩ := foldl_min_le rest o.num_exports.last
      refine ⟨agg.num_exports.last, ?_, ?_, ?_⟩
      · unfold sample_val
        rw [if_pos (by rw [helt, hew]; exact hfresh)]
      · intro x hx hxn v hv2
        rw [hval x hx hxn] at hv2
        cases hv2
        have hxin : x ∈ o :: rest := by rw [← hfil]; exact (hmemfil x).mpr ⟨hx, hxn⟩
        rw [hel]
        rcases List.mem_cons.mp hxin with rfl | hxr
        · exact hle
        · exact hall x hxr
      · rcases hatt with h | ⟨x, hx, h⟩
        · exact ⟨o, ho.1, ho.2, by rw [hval o ho.1 ho.2, hel, h]⟩
        · exact ⟨x, (hrest x hx).1, (hrest x hx).2, by
            rw [hval x (hrest x hx).1 (hrest x hx).2, hel, h]⟩

/-- C3 at the registry `ex_registry`: node `oss1` has three targets, read at times
95 and 100; its record exists, is unique, carries the sum of their read rates and
the least of their export counts. -/
theorem summarize_ost_node_totals_witness :
    ∃ agg, agg ∈ _summarize_ost ex_registry [] 12 ∧ agg.ossname = "oss1".toList ∧
      (∀ b ∈ _summarize_ost ex_registry [] 12, b.ossname = "oss1".toList → b = agg) ∧
      sample_rate agg.rbytes 100
        = some (((ex_registry.filter (fun o => decide (o.ossname = "oss1".toList))).map
            (fun o => (sample_rate o.rbytes 100).getD 0)).sum) ∧
      ∃ m, sample_val agg.num_exports 100 = some m ∧
        (∀ o ∈ ex_registry, o.ossname = "oss1".toList →
          ∀ v, sample_val o.num_exports 100 = some v → m ≤ v) ∧
        (∃ o ∈ ex_registry, o.ossname = "oss1".toList ∧
          sample_val o.num_exports 100 = some m) :=
  summarize_ost_node_totals ex_registry [] 12 100 95 100 "oss1".toList
    (by decide) (by decide) (by decide) (by decide)

/-! ## Printing and scanning decimal numbers -/

theorem digit_char_toNat (d : Nat) (h : d < 10) : (Char.ofNat (48 + d)).toNat = 48 + d := by
  interval_cases d <;> rfl

theorem digit_char_isdigit (d : Nat) (h : d < 10) : isdigit (Char.ofNat (48 + d)) = true := by
  interval_cases d <;> rfl

theorem decimal_value_append (ds : List Char) (c : Char) :
    decimal_value (ds ++ [c]) = decimal_value ds * 10 + (c.toNat - 48) := by
  simp [decimal_value, List.foldl_append]

theorem decimal_digits_spec (fuel n : Nat) (h : n < fuel) :
    decimal_value (decimal_digits fuel n) = n ∧
    (∀ c ∈ decimal_digits fuel n, isdigit c = true) ∧ decimal_digits fuel n ≠ [] := by
  induction fuel generalizing n with
  | zero => omega
  | succ fuel ih =>
    unfold decimal_digits
    by_cases hn : n < 10
    · rw [if_pos hn]
      refine ⟨?_, ?_, by simp⟩
      · simp [decimal_value, digit_char_toNat n hn]
      · intro c hc
        rw [List.mem_singleton] at hc
        rw [hc]; exact digit_char_isdigit n hn
    · rw [if_neg hn]
      have hlt : n / 10 < fuel := by omega
      obtain ⟨h1, h2, _⟩ := ih (n / 10) hlt
      have hmod : n % 10 < 10 := Nat.mod_lt _ (by decide)
      refine ⟨?_, ?_, by simp⟩
      · rw [decimal_value_append, h1, digit_char_toNat _ hmod]
        omega
      · intro c hc
        rcases List.mem_append.mp hc with hc | hc
        · exact h2 c hc
        · rw [List.mem_singleton] at hc
          rw [hc]; exact digit_char_isdigit _ hmod

theorem print_decimal_spec (n : Nat) :
    decimal_value (print_decimal n) = n ∧
    (∀ c ∈ print_decimal n, isdigit c = true) ∧ print_decimal n ≠ [] :=
  decimal_digits_spec (n + 1) n (Nat.lt_succ_self n)

theorem isdigit_not_isspace (c : Char) (h : isdigit c = true) : isspace c = false := by
  unfold isdigit at h
  unfold isspace
  simp only [Bool.and_eq_true, decide_eq_true_eq] at h
  simp only [Bool.or_eq_false_iff, decide_eq_false_iff_not, Bool.and_eq_false_imp,
    decide_eq_true_eq]
  omega

/-- Taking while `q` holds stops exactly at the end of a run on which `q` holds
when the run is followed by nothing or by an element on which `q` fails. -/
theorem takeWhile_run {α : Type} (q : α → Bool) (a b : List α) (ha : ∀ c ∈ a, q c = true)
    (hb : ∀ c, b.head? = some c → q c = false) :
    (a ++ b).takeWhile q = a ∧ (a ++ b).dropWhile q = b := by
  induction a with
  | nil =>
    cases b with
    | nil => simp
    | cons x b => simp [List.takeWhile_cons, List.dropWhile_cons, hb x rfl]
  | cons x a ih =>
    have hx := ha x (List.mem_cons_self _ _)
    obtain ⟨h1, h2⟩ := ih (fun c hc => ha c (List.mem_cons_of_mem _ hc))
    simp [List.takeWhile_cons, List.dropWhile_cons, hx, h1, h2]

theorem dropWhile_of_head {α : Type} (q : α → Bool) (b : List α)
    (hb : ∀ c, b.head? = some c → q c = false) : b.dropWhile q = b := by
  have := (takeWhile_run q [] b (by simp) hb).2
  simpa using this

/-! ## Scanning one rendered line -/

theorem scan_space_skip (c : Char) (tail : List Char) (e er : Bool)
    (hc : isspace c = true) (ht : ∀ x, tail.head? = some x → isspace x = false) :
    scan_space { unread := c :: tail, eof := e, error := er }
      = { unread := tail, eof := e || tail.isEmpty, error := er } := by
  unfold scan_space
  simp only [List.dropWhile_cons, hc, if_true, dropWhile_of_head isspace tail ht]

theorem scan_space_none (l : List Char) (e er : Bool) (hne : l ≠ [])
    (ht : ∀ x, l.head? = some x → isspace x = false) :
    scan_space { unread := l, eof := e, error := er }
      = { unread := l, eof := e, error := er } := by
  unfold scan_space
  simp only [dropWhile_of_head isspace l ht]
  cases l with
  | nil => exact absurd rfl hne
  | cons x l => simp

theorem scan_u64_digits (ds tail : List Char) (e er : Bool) (hne : ds ≠ [])
    (hd : ∀ c ∈ ds, isdigit c = true) (ht : ∀ c, tail.head? = some c → isdigit c = false)
    (htne : tail ≠ []) (hv : decimal_value ds < 2 ^ 64) :
    scan_u64 { unread := ds ++ tail, eof := e, error := er }
      = (some (decimal_value ds), { unread := tail, eof := e, error := er }) := by
  cases ds with
  | nil => exact absurd rfl hne
  | cons d ds =>
    have hdd : isdigit d = true := hd d (List.mem_cons_self _ _)
    have hsp : scan_space { unread := (d :: ds) ++ tail, eof := e, error := er }
        = { unread := (d :: ds) ++ tail, eof := e, error := er } :=
      scan_space_none _ e er (by simp) (fun x hx => by
        simp only [List.cons_append, List.head?_cons, Option.some.injEq] at hx
        subst hx; exact isdigit_not_isspace _ hdd)
    have hminus : d ≠ '-' := by
      intro h; rw [h] at hdd; revert hdd; decide
    have hplus : d ≠ '+' := by
      intro h; rw [h] at hdd; revert hdd; decide
    obtain ⟨htw, hdw⟩ := takeWhile_run isdigit (d :: ds) tail hd ht
    have hvle : ¬ (ULLONG_MAX < decimal_value (d :: ds)) := by
      unfold ULLONG_MAX
      omega
    unfold scan_u64
    rw [hsp]
    have hmatch : scan_sign ((d :: ds) ++ tail) = (false, (d :: ds) ++ tail) := by
      simp only [List.cons_append]
      unfold scan_sign
      split
      · rename_i heq; exact absurd (List.cons.inj heq).1 hminus
      · rename_i heq; exact absurd (List.cons.inj heq).1 hplus
      · rfl
    simp only [hmatch, htw, hdw, hvle]
    cases tail with
    | nil => exact absurd rfl htne
    | cons y tail => simp

theorem scan_s_word (width : Nat) (w tail : List Char) (e er : Bool) (hne : w ≠ [])
    (hw : ∀ c ∈ w, isspace c = false) (hlen : w.length < width)
    (ht : ∀ c, tail.head? = some c → isspace c = true) (htne : tail ≠ []) :
    scan_s width { unread := w ++ tail, eof := e, error := er }
      = (some w, { unread := tail, eof := e, error := er }) := by
  have hsp : scan_space { unread := w ++ tail, eof := e, error := er }
      = { unread := w ++ tail, eof := e, error := er } :=
    scan_space_none _ e er (by simp [hne]) (fun x hx => by
      cases w with
      | nil => exact absurd rfl hne
      | cons y w =>
        simp only [List.cons_append, List.head?_cons, Option.some.injEq] at hx
        subst hx; exact hw _ (List.mem_cons_self _ _))
  obtain ⟨htw, -⟩ := takeWhile_run (fun c => !isspace c) w tail
    (fun c hc => by simp [hw c hc]) (fun c hc => by simp [ht c hc])
  unfold scan_s
  rw [hsp]
  simp only [htw, List.take_of_length_le (le_of_lt hlen), List.drop_left]
  cases tail with
  | nil => exact absurd rfl htne
  | cons y tail =>
    cases w with
    | nil => exact absurd rfl hne
    | cons x w => simp

theorem scan_until_newline_line (width : Nat) (s tail : List Char) (e er : Bool)
    (hne : s ≠ []) (hs : ∀ c ∈ s, c ≠ '\n') (hlen : s.length < width) :
    scan_until_newline width { unread := s ++ '\n' :: tail, eof := e, error := er }
      = (some s, { unread := '\n' :: tail, eof := e, error := er }) := by
  obtain ⟨htw, -⟩ := takeWhile_run (fun c => c != '\n') s ('\n' :: tail)
    (fun c hc => by simpa using hs c hc) (fun c hc => by
      simp only [List.head?_cons, Option.some.injEq] at hc
      subst hc; rfl)
  unfold scan_until_newline
  simp only [htw, List.take_of_length_le (le_of_lt hlen), List.drop_left]
  cases s with
  | nil => exact absurd rfl hne
  | cons x s => simp

/-- A log, when not empty, starts with a decimal digit. -/
theorem render_log_head (rs : List log_record) :
    ∀ c, (render_log rs).head? = some c → isdigit c = true := by
  intro c hc
  cases rs with
  | nil => simp [render_log] at hc
  | cons r rs =>
    obtain ⟨-, hdig, hne⟩ := print_decimal_spec r.tnow
    cases hp : print_decimal r.tnow with
    | nil => exact absurd hp hne
    | cons d ds =>
      simp only [render_log, List.map_cons, List.flatten_cons, render_record, hp,
        List.cons_append, List.head?_cons, Option.some.injEq] at hc
      subst hc
      exact hdig d (by rw [hp]; exact List.mem_cons_self _ _)

/-- The first four conversions of the `fscanf` of `_play_file` on a line that
starts with two numbers, a node name and a metric class as `_record_file` writes
them: what is left is the conversion of the raw value from the bytes `body`
after the fourth blank. -/
theorem fscanf_fields (tnow trcv : Nat) (node name body : List Char) (e er : Bool)
    (h1 : tnow < 2 ^ 64) (h2 : trcv < 2 ^ 64)
    (hn1 : node ≠ []) (hn2 : node.length < 64) (hn3 : ∀ c ∈ node, isspace c = false)
    (hm1 : name ≠ []) (hm2 : name.length < 16) (hm3 : ∀ c ∈ name, isspace c = false)
    (hb1 : body ≠ []) (hb2 : ∀ c, body.head? = some c → isspace c = false) :
    fscanf_record
        { unread := print_decimal tnow ++ (' ' :: (print_decimal trcv ++ (' ' :: (node ++
            (' ' :: (name ++ (' ' :: body))))))), eof := e, error := er }
      = ((scan_until_newline 65536 { unread := body, eof := e, error := er }).1.map
          (fun s => { tnow := tnow, trcv := trcv, node := node, name := name, s := s }),
         if (scan_until_newline 65536 { unread := body, eof := e, error := er }).1.isSome
         then scan_space (scan_until_newline 65536 { unread := body, eof := e, error := er }).2
         else (scan_until_newline 65536 { unread := body, eof := e, error := er }).2) := by
  obtain ⟨ha1, ha2, ha3⟩ := print_decimal_spec tnow
  obtain ⟨hb1', hb2', hb3'⟩ := print_decimal_spec trcv
  have hsp : isspace ' ' = true := by decide
  have hspd : isdigit ' ' = false := by decide
  unfold fscanf_record
  rw [scan_u64_digits _ _ e er ha3 ha2 (fun c hc => by
    simp only [List.head?_cons, Option.some.injEq] at hc; subst hc; exact hspd)
    (by simp) (by rw [ha1]; exact h1), ha1]
  simp only []
  -- second number
  rw [scan_space_skip ' ' _ e er hsp (fun x hx => by
    cases hp : print_decimal trcv with
    | nil => exact absurd hp hb3'
    | cons d ds =>
      rw [hp] at hx
      simp only [List.cons_append, List.head?_cons, Option.some.injEq] at hx
      subst hx
      exact isdigit_not_isspace _ (hb2' _ (by rw [hp]; exact List.mem_cons_self _ _)))]
  rw [scan_u64_digits _ _ _ er hb3' hb2' (fun c hc => by
    simp only [List.head?_cons, Option.some.injEq] at hc; subst hc; exact hspd)
    (by simp) (by rw [hb1']; exact h2), hb1']
  simp only []
  -- node name
  rw [scan_space_skip ' ' _ _ er hsp (fun x hx => by
    cases hp : node with
    | nil => exact absurd hp hn1
    | cons d ds =>
      rw [hp] at hx
      simp only [List.cons_append, List.head?_cons, Option.some.injEq] at hx
      subst hx
      exact hn3 _ (by rw [hp]; exact List.mem_cons_self _ _))]
  rw [scan_s_word 64 node _ _ er hn1 hn3 hn2 (fun c hc => by
    simp only [List.head?_cons, Option.some.injEq] at hc; subst hc; exact hsp) (by simp)]
  simp only []
  -- metric class
  rw [scan_space_skip ' ' _ _ er hsp (fun x hx => by
    cases hp : name with
    | nil => exact absurd hp hm1
    | cons d ds =>
      rw [hp] at hx
      simp only [List.cons_append, List.head?_cons, Option.some.injEq] at hx
      subst hx
      exact hm3 _ (by rw [hp]; exact List.mem_cons_self _ _))]
  rw [scan_s_word 16 name _ _ er hm1 hm3 hm2 (fun c hc => by
    simp only [List.head?_cons, Option.some.injEq] at hc; subst hc; exact hsp) (by simp)]
  simp only []
  -- raw value
  rw [scan_space_skip ' ' _ _ er hsp hb2]
  have hz : ∀ (a b : List Char), b ≠ [] → (a ++ b).isEmpty = false := by
    intro a b hb
    cases a with
    | nil => cases b with
      | nil => exact absurd rfl hb
      | cons y b => rfl
    | cons x a => rfl
  have hz2 : body.isEmpty = false := by
    cases body with
    | nil => exact absurd rfl hb1
    | cons y b => rfl
  rw [hz _ _ (by simp), hz _ _ (by simp), hz _ _ (by simp), hz2]
  simp only [Bool.or_false]
  cases hscan : scan_until_newline 65536 { unread := body, eof := e, error := er } with
  | mk a f5 =>
    cases a with
    | none => simp
    | some sv => simp

/-- Round trip of one line: `fscanf` reads back the five fields of a well-formed
record from its rendered line and stops at the first byte after it, when that
byte is not white space. -/
theorem fscanf_render_tail (D : Decoder) (r : log_record) (tail : List Char) (e er : Bool)
    (hwf : wf_record D r) (hrest : ∀ x, tail.head? = some x → isspace x = false) :
    fscanf_record { unread := render_record r ++ tail, eof := e, error := er }
      = (some r, { unread := tail, eof := e || tail.isEmpty, error := er }) := by
  obtain ⟨h1, h2, hn1, hn2, hn3, hm1, hm2, hm3, hs1, hs2, hs3, hs4, -⟩ := hwf
  have hnl : isspace '\n' = true := by decide
  have e1 : render_record r ++ tail
      = print_decimal r.tnow ++ (' ' :: (print_decimal r.trcv ++ (' ' :: (r.node ++ (' ' ::
          (r.name ++ (' ' :: (r.s ++ ('\n' :: tail))))))))) := by
    simp [render_record]
  rw [e1, fscanf_fields r.tnow r.trcv r.node r.name _ e er h1 h2 hn1 hn2 hn3 hm1 hm2 hm3
    (by simp) (fun x hx => by
      cases hp : r.s with
      | nil => exact absurd hp hs1
      | cons d ds =>
        rw [hp] at hx
        simp only [List.cons_append, List.head?_cons, Option.some.injEq] at hx
        subst hx
        exact hs4 d (by rw [hp]; rfl))]
  rw [scan_until_newline_line 65536 r.s _ _ er hs1 hs3 hs2]
  simp only [Option.map_some', Option.isSome_some, if_true]
  rw [scan_space_skip '\n' _ _ er hnl hrest]

/-- Round trip of one line that is followed by the lines of further records. -/
theorem fscanf_render (D : Decoder) (r : log_record) (rest : List log_record) (e er : Bool)
    (hwf : wf_record D r) :
    fscanf_record { unread := render_record r ++ render_log rest, eof := e, error := er }
      = (some r, { unread := render_log rest, eof := e || (render_log rest).isEmpty,
                   error := er }) :=
  fscanf_render_tail D r (render_log rest) e er hwf (fun x hx =>
    isdigit_not_isspace x (render_log_head rest x hx))

/-! ## One batch of the replay log -/

theorem fscanf_record_empty (e er : Bool) :
    fscanf_record { unread := [], eof := e, error := er }
      = (none, { unread := [], eof := true, error := er }) := by
  cases e <;> rfl

theorem FILE_eta (f : FILE) (l : List Char) (h : f.unread = l) :
    f = { unread := l, eof := f.eof, error := f.error } := by
  cases f
  simp only [FILE.mk.injEq, and_true] at *
  exact h

theorem render_log_cons (r : log_record) (rs : List log_record) :
    render_log (r :: rs) = render_record r ++ render_log rs := by
  simp [render_log]

/-- The loop of `_play_file` on a stream that holds the lines of `batch`, all
stamped `t`, followed by the lines of `rest`, the first of which is stamped
otherwise: the lines of `batch` are applied in order; at the end of the stream
the loop stops with the indicator of end-of-file set, and before a line of `rest`
it stops with the stream rewound to that line and the difference of the two
stamps in `tdiff`. -/
theorem play_file_loop_batch (D : Decoder) (fs : Option (List Char)) (stale_secs : Int)
    (t : Nat) (ht : t ≠ 0) (rest : List log_record)
    (hrest : ∀ r, rest.head? = some r → wf_record D r ∧ r.tnow ≠ t)
    (batch : List log_record) :
    ∀ (fuel : Nat) (v : play_vars), batch.length < fuel →
      (∀ r ∈ batch, wf_record D r ∧ r.tnow = t) →
      v.f.unread = render_log (batch ++ rest) →
      (v.tmark = t ∨ (v.tmark = 0 ∧ batch ≠ [])) →
      (batch = [] → v.pos = render_log rest) →
      _play_file_loop D fs stale_secs fuel v = Except.ok
        { mdt_data := (batch.foldl (apply_record D fs stale_secs) (v.mdt_data, v.ost_data)).1,
          ost_data := (batch.foldl (apply_record D fs stale_secs) (v.mdt_data, v.ost_data)).2,
          f := { unread := render_log rest, eof := rest.isEmpty, error := v.f.error },
          tmark := t,
          pos := render_log rest,
          tdiff := match rest.head? with
            | none => v.tdiff
            | some r2 => to_int ((r2.tnow + 2 ^ 64 - t) % 2 ^ 64) } := by
  induction batch with
  | nil =>
    intro fuel v hfuel _ hunread htmark hpos
    have htm : v.tmark = t := by
      rcases htmark with h | ⟨_, h⟩
      · exact h
      · exact absurd rfl h
    have hp := hpos rfl
    cases fuel with
    | zero => omega
    | succ fuel =>
      cases rest with
      | nil =>
        simp only [List.append_nil, render_log, List.map_nil, List.flatten_nil] at hunread hp
        unfold _play_file_loop
        rw [FILE_eta v.f [] hunread, fscanf_record_empty]
        simp only [List.foldl_nil, List.head?_nil, render_log, List.map_nil,
          List.flatten_nil, List.isEmpty_nil]
        cases v
        simp only [play_vars.mk.injEq] at *
        simp [htm, hp]
      | cons r2 rest2 =>
        obtain ⟨hwf2, hne2⟩ := hrest r2 rfl
        simp only [List.nil_append] at hunread
        unfold _play_file_loop
        rw [FILE_eta v.f _ hunread, render_log_cons, fscanf_render D r2 rest2 _ _ hwf2]
        have hcond : v.tmark ≠ 0 ∧ v.tmark ≠ r2.tnow := by
          rw [htm]; exact ⟨ht, fun h => hne2 h.symm⟩
        simp only [if_pos hcond, List.foldl_nil, List.head?_cons, List.isEmpty_cons]
        rw [← render_log_cons]
        cases v
        simp only [play_vars.mk.injEq] at *
        simp [htm, hp]
  | cons r batch ih =>
    intro fuel v hfuel hall hunread htmark _
    obtain ⟨hwf, hrt⟩ := hall r (List.mem_cons_self _ _)
    cases fuel with
    | zero => omega
    | succ fuel =>
      have hfuel2 : batch.length < fuel := by
        simp only [List.length_cons] at hfuel; omega
      rw [List.cons_append, render_log_cons] at hunread
      unfold _play_file_loop
      rw [FILE_eta v.f _ hunread, fscanf_render D r (batch ++ rest) _ _ hwf]
      have hcond : ¬ (v.tmark ≠ 0 ∧ v.tmark ≠ r.tnow) := by
        rintro ⟨h0, h1⟩
        rcases htmark with h | ⟨h, _⟩
        · exact h1 (by rw [h, hrt])
        · exact h0 h
      simp only [if_neg hcond]
      obtain ⟨vers, hvers⟩ := Option.isSome_iff_exists.mp hwf.2.2.2.2.2.2.2.2.2.2.2.2
      simp only [hvers]
      rw [ih fuel _ hfuel2 (fun x hx => hall x (List.mem_cons_of_mem _ hx)) rfl
        (Or.inl hrt) (fun hnil => by rw [hnil]; rfl)]
      simp only [List.foldl_cons, apply_record, hvers]

theorem render_record_length (r : log_record) : 1 ≤ (render_record r).length := by
  simp only [render_record, List.length_append, List.length_singleton]
  omega

theorem render_log_length (rs : List log_record) : rs.length ≤ (render_log rs).length := by
  induction rs with
  | nil => simp
  | cons r rs ih =>
    rw [render_log_cons, List.length_append, List.length_cons]
    have := render_record_length r
    omega

/-- One call of `_play_file` at the start of a batch, see `play_file_loop_batch`. -/
theorem play_file_batch (D : Decoder) (fs : Option (List Char)) (stale_secs : Int)
    (st : play_state) (t : Nat) (ht : t ≠ 0) (batch rest : List log_record)
    (hne : batch ≠ []) (hall : ∀ r ∈ batch, wf_record D r ∧ r.tnow = t)
    (hrest : ∀ r, rest.head? = some r → wf_record D r ∧ r.tnow ≠ t)
    (hf : st.f = { unread := render_log (batch ++ rest), eof := false, error := false }) :
    _play_file D fs stale_secs st = Except.ok
      { mdt_data := (batch.foldl (apply_record D fs stale_secs)
          (st.mdt_data, st.ost_data)).1,
        ost_data := (batch.foldl (apply_record D fs stale_secs)
          (st.mdt_data, st.ost_data)).2,
        f := { unread := render_log rest, eof := rest.isEmpty, error := false },
        tp := st.tp.map (fun _ => to_time t),
        tdiffp := match rest.head? with
          | none => st.tdiffp
          | some r2 => st.tdiffp.map (fun _ => to_int ((r2.tnow + 2 ^ 64 - t) % 2 ^ 64)) } := by
  have hfuel : batch.length < st.f.unread.length + 1 := by
    rw [hf]
    have := render_log_length (batch ++ rest)
    simp only [List.length_append] at this ⊢
    omega
  have hloop := play_file_loop_batch D fs stale_secs t ht rest hrest batch
    (st.f.unread.length + 1)
    { mdt_data := st.mdt_data, ost_data := st.ost_data, f := st.f, tmark := 0,
      pos := st.f.unread, tdiff := 0 }
    hfuel hall (by rw [hf]) (Or.inr ⟨rfl, hne⟩) (fun h => absurd h hne)
  unfold _play_file
  have h1 : (st.f.eof || st.f.error) = false := by rw [hf]; rfl
  rw [h1]
  simp only [Bool.false_eq_true, if_false, hloop]
  have h2 : st.f.error = false := by rw [hf]
  simp only [h2, Bool.false_eq_true, if_false, if_neg ht]
  cases rest with
  | nil => simp
  | cons r2 rest2 => simp

theorem batch_lines_cons (b : Nat × List log_record) (bs : List (Nat × List log_record)) :
    batch_lines (b :: bs) = b.2 ++ batch_lines bs := by
  simp [batch_lines]

theorem batch_lines_head (D : Decoder) (bs : List (Nat × List log_record))
    (hwf : wf_batches D bs) (r : log_record) (hr : (batch_lines bs).head? = some r) :
    ∃ b, bs.head? = some b ∧ wf_record D r ∧ r.tnow = b.1 := by
  cases bs with
  | nil => simp [batch_lines] at hr
  | cons b bs =>
    obtain ⟨-, hne, hall, -, -⟩ := hwf
    refine ⟨b, rfl, ?_⟩
    rw [batch_lines_cons] at hr
    cases hb : b.2 with
    | nil => exact absurd hb hne
    | cons x xs =>
      rw [hb] at hr
      simp only [List.cons_append, List.head?_cons, Option.some.injEq] at hr
      subst hr
      exact hall x (by rw [hb]; exact List.mem_cons_self _ _)

/-- Successive calls of `_play_file` on a log cut into batches: the `k`-th call
applies the lines of the `k`-th batch, so that after `k` calls the registries
hold the lines of the first `k` batches, applied in order, the cycle time is the
arrival time of the `k`-th batch, and the stream stands at the next batch. -/
theorem play_times_batches (D : Decoder) (fs : Option (List Char)) (stale_secs : Int)
    (bs : List (Nat × List log_record)) :
    ∀ (st : play_state) (k : Nat), wf_batches D bs → k ≤ bs.length →
      st.f = { unread := render_log (batch_lines bs), eof := false, error := false } →
      ∃ st2, play_times D fs stale_secs k st = Except.ok st2 ∧
        (st2.mdt_data, st2.ost_data)
          = (batch_lines (bs.take k)).foldl (apply_record D fs stale_secs)
              (st.mdt_data, st.ost_data) ∧
        (∀ b, (bs.take k).getLast? = some b → st2.tp = st.tp.map (fun _ => to_time b.1)) ∧
        st2.f.unread = render_log (batch_lines (bs.drop k)) := by
  induction bs with
  | nil =>
    intro st k _ hk hf
    have : k = 0 := by simpa using hk
    subst this
    exact ⟨st, rfl, by simp [batch_lines], by simp, by rw [hf]; rfl⟩
  | cons b bs ih =>
    intro st k hwf hk hf
    cases k with
    | zero => exact ⟨st, rfl, by simp [batch_lines], by simp, by rw [hf]; rfl⟩
    | succ k =>
      have hk2 : k ≤ bs.length := by simpa using hk
      obtain ⟨ht, hne, hall, hnext, hwf2⟩ := hwf
      have hrest : ∀ r, (batch_lines bs).head? = some r → wf_record D r ∧ r.tnow ≠ b.1 := by
        intro r hr
        obtain ⟨b2, hb2, hw, hrt⟩ := batch_lines_head D bs hwf2 r hr
        exact ⟨hw, by rw [hrt]; exact hnext b2 hb2⟩
      have hcall := play_file_batch D fs stale_secs st b.1 ht b.2 (batch_lines bs) hne hall
        hrest (by rw [hf, batch_lines_cons])
      cases k with
      | zero =>
        refine ⟨_, by rw [play_times, hcall]; rfl, ?_, ?_, ?_⟩
        · simp [batch_lines]
        · intro b2 hb2
          simp only [List.take_succ_cons, List.take_zero, List.getLast?_singleton,
            Option.some.injEq] at hb2
          subst hb2
          rfl
        · simp
      | succ k =>
        have hbsne : batch_lines bs ≠ [] := by
          cases bs with
          | nil => simp at hk2
          | cons b2 bs2 =>
            rw [batch_lines_cons]
            have := hwf2.2.1
            intro h
            exact this (List.append_eq_nil.mp h).1
        have hemp : (batch_lines bs).isEmpty = false := by
          cases hbl : batch_lines bs with
          | nil => exact absurd hbl hbsne
          | cons x xs => rfl
        obtain ⟨st2, hplay, hdata, htp, hun⟩ := ih _ (k + 1) hwf2 hk2
          (show ({ mdt_data := _, ost_data := _,
                   f := { unread := render_log (batch_lines bs),
                          eof := (batch_lines bs).isEmpty, error := false },
                   tp := _, tdiffp := _ } : play_state).f = _ by rw [hemp])
        refine ⟨st2, ?_, ?_, ?_, ?_⟩
        · rw [play_times, hcall]
          exact hplay
        · rw [hdata]
          simp only [List.take_succ_cons, batch_lines_cons, List.foldl_append]
        · intro b2 hb2
          have hb3 : (bs.take (k + 1)).getLast? = some b2 := by
            cases bs with
            | nil => simp at hk2
            | cons b3 bs3 =>
              simpa [List.take_succ_cons, List.getLast?_cons_cons] using hb2
          rw [htp b2 hb3]
          cases st.tp <;> rfl
        · rw [hun]
          simp

theorem wf_record_of_check (D : Decoder) (r : log_record)
    (h : wf_record_check D r = true) : wf_record D r := by
  unfold wf_record_check at h
  simp only [Bool.and_eq_true, decide_eq_true_eq, Bool.not_eq_true', List.isEmpty_eq_false,
    List.all_eq_true, bne_iff_ne, ne_eq] at h
  obtain ⟨⟨⟨⟨⟨⟨⟨⟨⟨⟨⟨⟨h1, h2⟩, h3⟩, h4⟩, h5⟩, h6⟩, h7⟩, h8⟩, h9⟩, h10⟩, h11⟩, h12⟩, h13⟩ := h
  refine ⟨h1, h2, h3, h4, h5, h6, h7, h8, h9, h10, h11, ?_, h13⟩
  intro c hc
  rw [hc] at h12
  simpa using h12

theorem wf_batches_of_check (D : Decoder) (bs : List (Nat × List log_record))
    (h : wf_batches_check D bs = true) : wf_batches D bs := by
  induction bs with
  | nil => trivial
  | cons b bs ih =>
    unfold wf_batches_check at h
    simp only [Bool.and_eq_true, decide_eq_true_eq, Bool.not_eq_true', List.isEmpty_eq_false,
      List.all_eq_true, ne_eq] at h
    obtain ⟨⟨⟨⟨h1, h2⟩, h3⟩, h4⟩, h5⟩ := h
    refine ⟨h1, h2, fun r hr => ⟨wf_record_of_check D r (h3 r hr).1, (h3 r hr).2⟩, ?_, ih h5⟩
    intro b2 hb2
    rw [hb2] at h4
    simpa using h4

/-! ## The loop of `_play_file` ends on every stream -/

theorem scan_space_length (f : FILE) : (scan_space f).unread.length ≤ f.unread.length := by
  unfold scan_space
  exact (List.dropWhile_sublist _).length_le

theorem scan_sign_length (l : List Char) : (scan_sign l).2.length ≤ l.length := by
  unfold scan_sign
  split <;> simp

theorem scan_u64_length (f f2 : FILE) (n : Nat) (h : scan_u64 f = (some n, f2)) :
    f2.unread.length < f.unread.length := by
  unfold scan_u64 at h
  dsimp only at h
  have hsp := scan_space_length f
  have hb := scan_sign_length (scan_space f).unread
  generalize scan_sign (scan_space f).unread = nb at h hb
  obtain ⟨neg, body⟩ := nb
  simp only at h hb
  by_cases hds : (body.takeWhile isdigit).isEmpty = true
  · rw [if_pos hds] at h
    cases h
  · rw [if_neg hds] at h
    simp only [Prod.mk.injEq] at h
    obtain ⟨-, hf2⟩ := h
    rw [← hf2]
    simp only
    have hsplit := List.takeWhile_append_dropWhile isdigit body
    have hlen : (body.takeWhile isdigit).length + (body.dropWhile isdigit).length
        = body.length := by
      rw [← List.length_append, hsplit]
    have hpos : 0 < (body.takeWhile isdigit).length := by
      cases htw : body.takeWhile isdigit with
      | nil => rw [htw] at hds; exact absurd rfl hds
      | cons x xs => simp
    omega

theorem scan_s_length (width : Nat) (f f2 : FILE) (w : Option (List Char))
    (h : scan_s width f = (w, f2)) : f2.unread.length ≤ f.unread.length := by
  unfold scan_s at h
  dsimp only at h
  have hsp := scan_space_length f
  have hf2 : f2.unread = (scan_space f).unread.drop
      (((scan_space f).unread.takeWhile (fun c => !isspace c)).take width).length := by
    split_ifs at h <;> (simp only [Prod.mk.injEq] at h; rw [← h.2])
  rw [hf2, List.length_drop]
  omega

theorem scan_until_newline_length (width : Nat) (f f2 : FILE) (w : Option (List Char))
    (h : scan_until_newline width f = (w, f2)) : f2.unread.length ≤ f.unread.length := by
  unfold scan_until_newline at h
  dsimp only at h
  have hf2 : f2.unread = f.unread.drop
      ((f.unread.takeWhile (fun c => c != '\n')).take width).length := by
    split_ifs at h <;> (simp only [Prod.mk.injEq] at h; rw [← h.2])
  rw [hf2, List.length_drop]
  omega

/-- A successful `fscanf` of a log line consumes input. -/
theorem fscanf_record_length (f f2 : FILE) (r : log_record)
    (h : fscanf_record f = (some r, f2)) : f2.unread.length < f.unread.length := by
  unfold fscanf_record at h
  cases h1 : scan_u64 f with
  | mk a f1 =>
    cases a with
    | none => rw [h1] at h; simp at h
    | some tnow =>
      have l1 := scan_u64_length f f1 tnow h1
      rw [h1] at h
      simp only at h
      cases h2 : scan_u64 (scan_space f1) with
      | mk b f3 =>
        cases b with
        | none => rw [h2] at h; simp at h
        | some trcv =>
          have l2 := scan_u64_length _ f3 trcv h2
          have l2s := scan_space_length f1
          rw [h2] at h
          simp only at h
          cases h3 : scan_s 64 (scan_space f3) with
          | mk c f4 =>
            cases c with
            | none => rw [h3] at h; simp at h
            | some node =>
              have l3 := scan_s_length 64 _ f4 _ h3
              have l3s := scan_space_length f3
              rw [h3] at h
              simp only at h
              cases h4 : scan_s 16 (scan_space f4) with
              | mk d f5 =>
                cases d with
                | none => rw [h4] at h; simp at h
                | some name =>
                  have l4 := scan_s_length 16 _ f5 _ h4
                  have l4s := scan_space_length f4
                  rw [h4] at h
                  simp only at h
                  cases h5 : scan_until_newline 65536 (scan_space f5) with
                  | mk e f6 =>
                    cases e with
                    | none => rw [h5] at h; simp at h
                    | some sv =>
                      have l5 := scan_until_newline_length 65536 _ f6 _ h5
                      have l5s := scan_space_length f5
                      have l6s := scan_space_length f6
                      rw [h5] at h
                      simp only [Prod.mk.injEq] at h
                      rw [← h.2]
                      omega

/-- The loop of `_play_file` never runs out of fuel when the fuel exceeds the
length of the unread input. -/
theorem play_file_loop_fuel (D : Decoder) (fs : Option (List Char)) (stale_secs : Int)
    (fuel : Nat) : ∀ (v : play_vars), v.f.unread.length < fuel →
      _play_file_loop D fs stale_secs fuel v ≠ Except.error "out of fuel" := by
  induction fuel with
  | zero => intro v h; omega
  | succ fuel ih =>
    intro v hlen
    unfold _play_file_loop
    cases hscan : fscanf_record v.f with
    | mk a f1 =>
      cases a with
      | none => simp
      | some r =>
        have hl := fscanf_record_length v.f f1 r hscan
        simp only
        split_ifs with hc
        · simp
        · cases hv : D.scan_version r.s with
          | none => simp
          | some vers =>
            simp only
            exact ih _ (by simp only; omega)

/-- The function `_play_file` never runs out of fuel: on every stream it either
returns or ends in one of the fatal exits of the code. -/
theorem play_file_total (D : Decoder) (fs : Option (List Char)) (stale_secs : Int)
    (st : play_state) : _play_file D fs stale_secs st ≠ Except.error "out of fuel" := by
  unfold _play_file
  split_ifs
  · simp
  · have := play_file_loop_fuel D fs stale_secs (st.f.unread.length + 1)
      { mdt_data := st.mdt_data, ost_data := st.ost_data, f := st.f, tmark := 0,
        pos := st.f.unread, tdiff := 0 } (Nat.lt_succ_self _)
    cases hl : _play_file_loop D fs stale_secs (st.f.unread.length + 1)
      { mdt_data := st.mdt_data, ost_data := st.ost_data, f := st.f, tmark := 0,
        pos := st.f.unread, tdiff := 0 } with
    | error e =>
      rw [hl] at this
      simpa using this
    | ok v =>
      simp only
      split_ifs
      · simp
      · simp
      · simp
      · simp

set_option maxRecDepth 20000

/-! ## C4: one batch per call -/

/-- C4: on a well-formed log whose lines fall into batches of equal, non-zero
arrival time, a call of `_play_file` at the start of a batch returns, applies the
lines of that batch in file order and no other, sets the cycle time to the
batch's arrival time (as a `time_t`) and leaves the stream at the first line of
the next batch; and `k` successive calls from the start of the log apply the
lines of the first `k` batches, each once, in order. -/
theorem play_file_applies_batch (D : Decoder) (fs : Option (List Char)) (stale_secs : Int)
    (bs : List (Nat × List log_record)) (st : play_state) (hwf : wf_batches D bs)
    (hf : st.f = { unread := render_log (batch_lines bs), eof := false, error := false }) :
    (∀ b rest, bs = b :: rest →
      ∃ st2, _play_file D fs stale_secs st = Except.ok st2 ∧
        (st2.mdt_data, st2.ost_data)
          = b.2.foldl (apply_record D fs stale_secs) (st.mdt_data, st.ost_data) ∧
        st2.tp = st.tp.map (fun _ => to_time b.1) ∧
        st2.f.unread = render_log (batch_lines rest)) ∧
    (∀ k, k ≤ bs.length →
      ∃ st2, play_times D fs stale_secs k st = Except.ok st2 ∧
        (st2.mdt_data, st2.ost_data)
          = (batch_lines (bs.take k)).foldl (apply_record D fs stale_secs)
              (st.mdt_data, st.ost_data) ∧
        (∀ b, (bs.take k).getLast? = some b → st2.tp = st.tp.map (fun _ => to_time b.1)) ∧
        st2.f.unread = render_log (batch_lines (bs.drop k))) := by
  constructor
  · intro b rest hbs
    subst hbs
    obtain ⟨ht, hne, hall, hnext, hwf2⟩ := hwf
    have hrest : ∀ r, (batch_lines rest).head? = some r → wf_record D r ∧ r.tnow ≠ b.1 := by
      intro r hr
      obtain ⟨b2, hb2, hw, hrt⟩ := batch_lines_head D rest hwf2 r hr
      exact ⟨hw, by rw [hrt]; exact hnext b2 hb2⟩
    have hcall := play_file_batch D fs stale_secs st b.1 ht b.2 (batch_lines rest) hne hall
      hrest (by rw [hf, batch_lines_cons])
    exact ⟨_, hcall, rfl, rfl, rfl⟩
  · intro k hk
    exact play_times_batches D fs stale_secs bs st k hwf hk hf

/-- C4 at the log of the spec, arrival times 100, 100, 100, 105, 105: the first
call applies the three lines stamped 100, reports 100 and stops before the
fourth line; two calls apply all five lines and report 105. -/
theorem play_file_applies_batch_witness :
    render_log (batch_lines ex_batches)
      = ("100 99 h1 lmt_ost 2;oss1;lustre-OST0001\n100 99 h2 lmt_ost 2;oss2;lustre-OST0002\n"
        ++ "100 98 m1 lmt_mdt 1;mds1;lustre-MDT0000\n105 104 h1 lmt_ost 2;oss1;lustre-OST0001\n"
        ++ "105 104 m1 lmt_osc 1;mds1;lustre-OST0003\n").toList ∧
    (∃ st2, _play_file ex_decoder (some "lustre".toList) 12
        (ex_play_start (render_log (batch_lines ex_batches))) = Except.ok st2 ∧
      (st2.mdt_data, st2.ost_data)
        = (ex_batches.head!).2.foldl (apply_record ex_decoder (some "lustre".toList) 12)
            ([], []) ∧
      st2.tp = some 100 ∧
      st2.f.unread = ("105 104 h1 lmt_ost 2;oss1;lustre-OST0001\n"
        ++ "105 104 m1 lmt_osc 1;mds1;lustre-OST0003\n").toList) ∧
    (∃ st2, play_times ex_decoder (some "lustre".toList) 12 2
        (ex_play_start (render_log (batch_lines ex_batches))) = Except.ok st2 ∧
      (st2.mdt_data, st2.ost_data)
        = (batch_lines ex_batches).foldl (apply_record ex_decoder (some "lustre".toList) 12)
            ([], []) ∧
      st2.tp = some 105 ∧ st2.f.unread = []) := by
  have hwf : wf_batches ex_decoder ex_batches := wf_batches_of_check _ _ (by decide)
  have h := play_file_applies_batch ex_decoder (some "lustre".toList) 12 ex_batches
    (ex_play_start (render_log (batch_lines ex_batches))) hwf rfl
  refine ⟨by decide, ?_, ?_⟩
  · obtain ⟨st2, h1, h2, h3, h4⟩ := h.1 _ _ rfl
    refine ⟨st2, h1, h2, ?_, ?_⟩
    · rw [h3]; decide
    · rw [h4]; decide
  · obtain ⟨st2, h1, h2, h3, h4⟩ := h.2 2 (by decide)
    refine ⟨st2, h1, h2, ?_, ?_⟩
    · rw [h3 _ rfl]; decide
    · rw [h4]; decide

/-! ## C5: the interval between two batches -/

theorem to_int_diff (a b : Nat) (ha : a < 2 ^ 64) (hb : b < 2 ^ 64)
    (hlo : -(2 ^ 31 : Int) ≤ (a : Int) - (b : Int)) (hhi : (a : Int) - (b : Int) < 2 ^ 31) :
    to_int ((a + 2 ^ 64 - b) % 2 ^ 64) = (a : Int) - (b : Int) := by
  unfold to_int
  split_ifs <;> omega

/-- C5 (as amended): when a call of `_play_file` applies a batch stamped `t` and
stops before a line stamped `t2`, the interval it stores through `tdiffp` is the
difference `t2 - t` computed on 64 bits and converted to `int`; this is `t2 - t`
itself whenever that difference fits an `int`, i.e. lies in
`[-2 ^ 31, 2 ^ 31)`. -/
theorem play_file_interval (D : Decoder) (fs : Option (List Char)) (stale_secs : Int)
    (st : play_state) (t : Nat) (batch : List log_record) (r2 : log_record)
    (rest : List log_record) (ht : t ≠ 0) (hne : batch ≠ [])
    (hall : ∀ r ∈ batch, wf_record D r ∧ r.tnow = t) (hwf2 : wf_record D r2)
    (hdiff : r2.tnow ≠ t)
    (hf : st.f = { unread := render_log (batch ++ r2 :: rest), eof := false, error := false }) :
    ∃ st2, _play_file D fs stale_secs st = Except.ok st2 ∧
      st2.tdiffp = st.tdiffp.map (fun _ => to_int ((r2.tnow + 2 ^ 64 - t) % 2 ^ 64)) ∧
      (-(2 ^ 31 : Int) ≤ (r2.tnow : Int) - (t : Int) → (r2.tnow : Int) - (t : Int) < 2 ^ 31 →
        st2.tdiffp = st.tdiffp.map (fun _ => (r2.tnow : Int) - (t : Int))) := by
  have hcall := play_file_batch D fs stale_secs st t ht batch (r2 :: rest) hne hall
    (fun r hr => by
      simp only [List.head?_cons, Option.some.injEq] at hr
      subst hr; exact ⟨hwf2, hdiff⟩) hf
  refine ⟨_, hcall, rfl, ?_⟩
  intro hlo hhi
  have htlt : t < 2 ^ 64 := by
    cases batch with
    | nil => exact absurd rfl hne
    | cons x xs =>
      obtain ⟨hw, hx⟩ := hall x (List.mem_cons_self _ _)
      rw [← hx]; exact hw.1
  simp only [List.head?_cons]
  rw [to_int_diff r2.tnow t hwf2.1 htlt hlo hhi]

/-- C5 fails as stated: on a log with arrival times 1 and 4294967297 the call
that applies the first line stores the interval 0, not 4294967296. -/
theorem play_file_interval_wraps :
    ∃ st2, _play_file ex_decoder (some "lustre".toList) 12
        (ex_play_start (render_log (batch_lines ex_batches_far))) = Except.ok st2 ∧
      st2.tdiffp = some 0 ∧ ((4294967297 : Int) - 1 ≠ 0) := by
  have hwf : wf_batches ex_decoder ex_batches_far := wf_batches_of_check _ _ (by decide)
  obtain ⟨ht, hne, hall, hnext, hwf2⟩ := hwf
  have hcall := play_file_batch ex_decoder (some "lustre".toList) 12
    (ex_play_start (render_log (batch_lines ex_batches_far))) 1 (by decide)
    [ex_line 1 1 "h1" "lmt_ost" "2;oss1;lustre-OST0001"]
    [ex_line 4294967297 1 "h1" "lmt_ost" "2;oss1;lustre-OST0001"] (by decide) hall
    (fun r hr => by
      simp only [List.head?_cons, Option.some.injEq] at hr
      subst hr
      exact ⟨(hwf2.2.2.1 _ (List.mem_cons_self _ _)).1, by decide⟩) rfl
  exact ⟨_, hcall, by decide, by decide⟩

/-- C5 at the log of the spec: the call that applies the batch stamped 100 and
stops before the line stamped 105 stores the interval 5. -/
theorem play_file_interval_witness :
    ∃ st2, _play_file ex_decoder (some "lustre".toList) 12
        (ex_play_start (render_log (batch_lines ex_batches))) = Except.ok st2 ∧
      st2.tdiffp = some 5 := by
  have hwf : wf_batches ex_decoder ex_batches := wf_batches_of_check _ _ (by decide)
  obtain ⟨ht, hne, hall, hnext, hwf2⟩ := hwf
  obtain ⟨st2, h1, h2, h3⟩ := play_file_interval ex_decoder (some "lustre".toList) 12
    (ex_play_start (render_log (batch_lines ex_batches))) 100
    (ex_batches.head!).2 (ex_line 105 104 "h1" "lmt_ost" "2;oss1;lustre-OST0001")
    [ex_line 105 104 "m1" "lmt_osc" "1;mds1;lustre-OST0003"] (by decide) (by decide) hall
    (hwf2.2.2.1 _ (List.mem_cons_self _ _)).1 (by decide) rfl
  exact ⟨st2, h1, h3 (by decide) (by decide)⟩

/-! ## C6: record, then replay -/

theorem to_time_of_time (t : Int) (hlo : -(2 ^ 63 : Int) ≤ t) (hhi : t < 2 ^ 63) :
    to_time (of_time t) = t := by
  unfold to_time of_time
  have h1 : 0 ≤ t % 2 ^ 64 := Int.emod_nonneg _ (by norm_num)
  have h2 : t % 2 ^ 64 < 2 ^ 64 := Int.emod_lt_of_pos _ (by norm_num)
  have h3 : ((t % 2 ^ 64).toNat : Int) = t % 2 ^ 64 := Int.toNat_of_nonneg h1
  have h4 : (t % 2 ^ 64).toNat < 2 ^ 64 := by omega
  rw [Nat.mod_eq_of_lt h4]
  split_ifs with h <;> omega

/-- One metric in a live poll: if it is recorded, its line is appended to the log
and the registries change as by replaying that line. -/
theorem poll_cerebro_item_eq (D : Decoder) (fs : Option (List Char)) (stale_secs tnow : Int)
    (st : poll_state) (c : cmetric) (htlo : -(2 ^ 63 : Int) ≤ tnow) (hthi : tnow < 2 ^ 63)
    (hc : ∀ r, record_of D tnow c = some r → -(2 ^ 63 : Int) ≤ c.time ∧ c.time < 2 ^ 63) :
    _poll_cerebro_item D fs stale_secs tnow st c =
      match record_of D tnow c with
      | none => st
      | some r =>
        { st with
          mdt_data := (apply_record D fs stale_secs (st.mdt_data, st.ost_data) r).1,
          ost_data := (apply_record D fs stale_secs (st.mdt_data, st.ost_data) r).2,
          recf := st.recf.map (fun f => f ++ render_record r) } := by
  unfold _poll_cerebro_item record_of
  cases hn : c.name with
  | none => rfl
  | some name =>
    cases hd : c.nodename with
    | none => rfl
    | some node =>
      cases hv : c.val with
      | none => rfl
      | some s =>
        cases hvers : D.scan_version s with
        | none => simp [hvers]
        | some vers =>
          have hr := hc
            { tnow := of_time tnow, trcv := of_time c.time, node := node, name := name, s := s }
            (by simp [record_of, hn, hd, hv, hvers])
          simp only [Option.isSome_some, if_true, apply_record, hvers,
            to_time_of_time tnow htlo hthi, to_time_of_time c.time hr.1 hr.2]
          rfl

theorem poll_cerebro_fold_eq (D : Decoder) (fs : Option (List Char)) (stale_secs tnow : Int)
    (htlo : -(2 ^ 63 : Int) ≤ tnow) (hthi : tnow < 2 ^ 63) (ms : List cmetric) :
    ∀ (st : poll_state),
      (∀ c ∈ ms, ∀ r, record_of D tnow c = some r →
        -(2 ^ 63 : Int) ≤ c.time ∧ c.time < 2 ^ 63) →
      ms.foldl (_poll_cerebro_item D fs stale_secs tnow) st =
        { st with
          mdt_data := ((ms.filterMap (record_of D tnow)).foldl (apply_record D fs stale_secs)
            (st.mdt_data, st.ost_data)).1,
          ost_data := ((ms.filterMap (record_of D tnow)).foldl (apply_record D fs stale_secs)
            (st.mdt_data, st.ost_data)).2,
          recf := st.recf.map (fun f => f ++ render_log (ms.filterMap (record_of D tnow))) } := by
  induction ms with
  | nil =>
    intro st _
    cases st with
    | mk m o rf tp => cases rf <;> simp [render_log]
  | cons c ms ih =>
    intro st hall
    rw [List.foldl_cons, poll_cerebro_item_eq D fs stale_secs tnow st c htlo hthi
      (hall c (List.mem_cons_self _ _)),
      ih _ (fun x hx => hall x (List.mem_cons_of_mem _ hx))]
    cases hrec : record_of D tnow c with
    | none => simp [List.filterMap_cons, hrec]
    | some r =>
      cases st with
      | mk m o rf tp =>
        cases rf <;> simp [List.filterMap_cons, hrec, render_log_cons]

theorem poll_cerebro_eq (D : Decoder) (fs : Option (List Char)) (stale_secs : Int)
    (cyc : Int × List cmetric) (st : poll_state)
    (htlo : -(2 ^ 63 : Int) ≤ cyc.1) (hthi : cyc.1 < 2 ^ 63)
    (hall : ∀ c ∈ cyc.2, ∀ r, record_of D cyc.1 c = some r →
      -(2 ^ 63 : Int) ≤ c.time ∧ c.time < 2 ^ 63) :
    _poll_cerebro D (some cyc.2) cyc.1 fs stale_secs st =
      { mdt_data := ((cycle_records D cyc).foldl (apply_record D fs stale_secs)
          (st.mdt_data, st.ost_data)).1,
        ost_data := ((cycle_records D cyc).foldl (apply_record D fs stale_secs)
          (st.mdt_data, st.ost_data)).2,
        recf := st.recf.map (fun f => f ++ render_log (cycle_records D cyc)),
        tp := st.tp.map (fun _ => cyc.1) } := by
  unfold _poll_cerebro
  simp only [poll_cerebro_fold_eq D fs stale_secs cyc.1 htlo hthi cyc.2 st hall]
  rfl

theorem render_log_append (a b : List log_record) :
    render_log (a ++ b) = render_log a ++ render_log b := by
  simp [render_log]

/-- A recorded live run: the registries hold the recorded lines, applied in
order, the log holds their text, and the cycle time is the last arrival time. -/
theorem poll_cycles_eq (D : Decoder) (fs : Option (List Char)) (stale_secs : Int)
    (cycles : List (Int × List cmetric)) :
    ∀ (st : poll_state),
      (∀ cyc ∈ cycles, -(2 ^ 63 : Int) ≤ cyc.1 ∧ cyc.1 < 2 ^ 63 ∧
        ∀ c ∈ cyc.2, ∀ r, record_of D cyc.1 c = some r →
          -(2 ^ 63 : Int) ≤ c.time ∧ c.time < 2 ^ 63) →
      poll_cycles D fs stale_secs cycles st =
        { mdt_data := ((batch_lines (batches_of D cycles)).foldl
            (apply_record D fs stale_secs) (st.mdt_data, st.ost_data)).1,
          ost_data := ((batch_lines (batches_of D cycles)).foldl
            (apply_record D fs stale_secs) (st.mdt_data, st.ost_data)).2,
          recf := st.recf.map (fun f => f ++ render_log (batch_lines (batches_of D cycles))),
          tp := match cycles.getLast? with
            | none => st.tp
            | some cyc => st.tp.map (fun _ => cyc.1) } := by
  induction cycles with
  | nil =>
    intro st _
    cases st with
    | mk m o rf tp => cases rf <;> simp [poll_cycles, batches_of, batch_lines, render_log]
  | cons cyc cycles ih =>
    intro st hall
    obtain ⟨hlo, hhi, hc⟩ := hall cyc (List.mem_cons_self _ _)
    have hrest := ih (_poll_cerebro D (some cyc.2) cyc.1 fs stale_secs st)
      (fun x hx => hall x (List.mem_cons_of_mem _ hx))
    unfold poll_cycles at hrest ⊢
    rw [List.foldl_cons, hrest, poll_cerebro_eq D fs stale_secs cyc st hlo hhi hc]
    have hb : batches_of D (cyc :: cycles)
        = (of_time cyc.1, cycle_records D cyc) :: batches_of D cycles := rfl
    rw [hb, batch_lines_cons]
    simp only [List.foldl_append, render_log_append]
    cases st with
    | mk m o rf tp =>
      cases hl : cycles.getLast? with
      | none =>
        have : cycles = [] := List.getLast?_eq_none_iff.mp hl
        subst this
        cases rf <;> simp
      | some last =>
        have hl2 : (cyc :: cycles).getLast? = some last := by
          cases cycles with
          | nil => simp at hl
          | cons c2 cs => simpa [List.getLast?_cons_cons] using hl
        rw [hl2]
        cases rf <;> cases tp <;> simp

theorem of_time_ne_zero (t : Int) (hlo : -(2 ^ 63 : Int) ≤ t) (hhi : t < 2 ^ 63)
    (h0 : t ≠ 0) : of_time t ≠ 0 := by
  intro h
  have := to_time_of_time t hlo hhi
  rw [h] at this
  exact h0 (by rw [← this]; rfl)

theorem of_time_injective (a b : Int) (halo : -(2 ^ 63 : Int) ≤ a) (hahi : a < 2 ^ 63)
    (hblo : -(2 ^ 63 : Int) ≤ b) (hbhi : b < 2 ^ 63) (h : of_time a = of_time b) : a = b := by
  rw [← to_time_of_time a halo hahi, ← to_time_of_time b hblo hbhi, h]

theorem record_of_tnow (D : Decoder) (tnow : Int) (c : cmetric) (r : log_record)
    (h : record_of D tnow c = some r) : r.tnow = of_time tnow := by
  unfold record_of at h
  split at h
  · split_ifs at h
    simp only [Option.some.injEq] at h
    rw [← h]
  · cases h

theorem wf_batches_of_cycles (D : Decoder) (cycles : List (Int × List cmetric))
    (hwf : wf_cycles D cycles) : wf_batches D (batches_of D cycles) := by
  obtain ⟨hall, hchain⟩ := hwf
  induction cycles with
  | nil => trivial
  | cons cyc cycles ih =>
    obtain ⟨h0, hlo, hhi, hne, hrec⟩ := hall cyc (List.mem_cons_self _ _)
    refine ⟨of_time_ne_zero _ hlo hhi h0, hne, ?_, ?_, ?_⟩
    · intro r hr
      obtain ⟨c, hc, hcr⟩ := List.mem_filterMap.mp hr
      exact ⟨(hrec c hc r hcr).1, record_of_tnow D cyc.1 c r hcr⟩
    · intro b2 hb2
      cases cycles with
      | nil => simp [batches_of] at hb2
      | cons cyc2 cycles2 =>
        simp only [batches_of, List.map_cons, List.head?_cons, Option.some.injEq] at hb2
        subst hb2
        obtain ⟨-, hlo2, hhi2, -, -⟩ := hall cyc2 (List.mem_cons_of_mem _ (List.mem_cons_self _ _))
        have hlt : cyc.1 < cyc2.1 := (List.chain'_cons.mp hchain).1
        intro heq
        have := of_time_injective _ _ hlo2 hhi2 hlo hhi heq
        omega
    · exact ih (fun x hx => hall x (List.mem_cons_of_mem _ hx)) (List.Chain'.tail hchain)

/-- C6 (as amended): let live poll cycles have non-zero, strictly increasing
arrival times, each recording at least one report, and let every recorded report
fit the format of the log (node name and metric class without white space, of at
most 63 and 15 bytes, a raw value of at most 65535 bytes without newline or
leading white space, times in the range of `time_t`). Then for every `k` the
`k`-th `_play_file` call on the log recorded by `_poll_cerebro` returns, and the
MDT registry, the OST registry and the cycle time after it are those of the
live run after its `k`-th poll, for the same filesystem, staleness window and
initial registries. -/
theorem record_replay_refines (D : Decoder) (fs : Option (List Char)) (stale_secs : Int)
    (cycles : List (Int × List cmetric)) (m0 : List mdtstat_t) (o0 : List oststat_t)
    (tp0 d0 : Option Int) (hwf : wf_cycles D cycles) (k : Nat) (hk : k ≤ cycles.length) :
    ∃ text st2,
      (poll_cycles D fs stale_secs cycles
        { mdt_data := m0, ost_data := o0, recf := some [], tp := tp0 }).recf = some text ∧
      play_times D fs stale_secs k
        { mdt_data := m0, ost_data := o0,
          f := { unread := text, eof := false, error := false },
          tp := tp0, tdiffp := d0 } = Except.ok st2 ∧
      st2.mdt_data = (poll_cycles D fs stale_secs (cycles.take k)
        { mdt_data := m0, ost_data := o0, recf := some [], tp := tp0 }).mdt_data ∧
      st2.ost_data = (poll_cycles D fs stale_secs (cycles.take k)
        { mdt_data := m0, ost_data := o0, recf := some [], tp := tp0 }).ost_data ∧
      st2.tp = (poll_cycles D fs stale_secs (cycles.take k)
        { mdt_data := m0, ost_data := o0, recf := some [], tp := tp0 }).tp := by
  have hrange : ∀ cyc ∈ cycles, -(2 ^ 63 : Int) ≤ cyc.1 ∧ cyc.1 < 2 ^ 63 ∧
      ∀ c ∈ cyc.2, ∀ r, record_of D cyc.1 c = some r →
        -(2 ^ 63 : Int) ≤ c.time ∧ c.time < 2 ^ 63 := by
    intro cyc hcyc
    obtain ⟨-, hlo, hhi, -, hrec⟩ := hwf.1 cyc hcyc
    exact ⟨hlo, hhi, fun c hc r hr => (hrec c hc r hr).2⟩
  have hrange_k : ∀ cyc ∈ cycles.take k, -(2 ^ 63 : Int) ≤ cyc.1 ∧ cyc.1 < 2 ^ 63 ∧
      ∀ c ∈ cyc.2, ∀ r, record_of D cyc.1 c = some r →
        -(2 ^ 63 : Int) ≤ c.time ∧ c.time < 2 ^ 63 :=
    fun cyc hcyc => hrange cyc (List.mem_of_mem_take hcyc)
  have hbs := wf_batches_of_cycles D cycles hwf
  have hklen : k ≤ (batches_of D cycles).length := by
    simpa [batches_of] using hk
  obtain ⟨st2, hplay, hdata, htp, -⟩ := play_times_batches D fs stale_secs
    (batches_of D cycles)
    { mdt_data := m0, ost_data := o0,
      f := { unread := render_log (batch_lines (batches_of D cycles)), eof := false,
             error := false },
      tp := tp0, tdiffp := d0 } k hbs hklen rfl
  have htake : (batches_of D cycles).take k = batches_of D (cycles.take k) := by
    simp [batches_of, List.map_take]
  rw [htake] at hdata htp
  refine ⟨render_log (batch_lines (batches_of D cycles)), st2, ?_, hplay, ?_, ?_, ?_⟩
  · rw [poll_cycles_eq D fs stale_secs cycles _ hrange]
    simp
  · rw [poll_cycles_eq D fs stale_secs (cycles.take k) _ hrange_k]
    exact congrArg Prod.fst hdata
  · rw [poll_cycles_eq D fs stale_secs (cycles.take k) _ hrange_k]
    exact congrArg Prod.snd hdata
  · rw [poll_cycles_eq D fs stale_secs (cycles.take k) _ hrange_k]
    simp only []
    cases hl : (cycles.take k).getLast? with
    | none =>
      have hnil : cycles.take k = [] := List.getLast?_eq_none_iff.mp hl
      have hk0 : k = 0 := by
        rcases List.take_eq_nil_iff.mp hnil with h | h
        · exact h
        · subst h; simpa using hk
      subst hk0
      simp only [play_times, Except.ok.injEq] at hplay
      rw [← hplay]
    | some cyc =>
      have hmem : cyc ∈ cycles.take k := List.mem_of_getLast?_eq_some hl
      obtain ⟨hlo, hhi, -⟩ := hrange_k cyc hmem
      have hl2 : (batches_of D (cycles.take k)).getLast?
          = some (of_time cyc.1, cycle_records D cyc) := by
        unfold batches_of
        rw [List.getLast?_map, hl]
        rfl
      rw [htp _ hl2]
      simp only [to_time_of_time cyc.1 hlo hhi]

theorem chain_of_increasing_check (cycles : List (Int × List cmetric))
    (h : increasing_check cycles = true) : List.Chain' (fun a b => a.1 < b.1) cycles := by
  induction cycles with
  | nil => exact List.chain'_nil
  | cons a l ih =>
    cases l with
    | nil => exact List.chain'_singleton a
    | cons b l =>
      simp only [increasing_check, Bool.and_eq_true, decide_eq_true_eq] at h
      exact List.chain'_cons.mpr ⟨h.1, ih h.2⟩

theorem wf_cycles_of_check (D : Decoder) (cycles : List (Int × List cmetric))
    (h : wf_cycles_check D cycles = true) : wf_cycles D cycles := by
  unfold wf_cycles_check at h
  simp only [Bool.and_eq_true, List.all_eq_true, decide_eq_true_eq, Bool.not_eq_true',
    List.isEmpty_eq_false, ne_eq] at h
  obtain ⟨hall, hchain⟩ := h
  refine ⟨fun cyc hcyc => ?_, chain_of_increasing_check cycles hchain⟩
  obtain ⟨⟨⟨⟨h0, hlo⟩, hhi⟩, hne⟩, hrec⟩ := hall cyc hcyc
  refine ⟨h0, hlo, hhi, hne, fun c hc r hr => ?_⟩
  have := hrec c hc
  rw [hr] at this
  simp only [Bool.and_eq_true, decide_eq_true_eq] at this
  exact ⟨wf_record_of_check D r this.1.1, this.1.2, this.2⟩

/-- C6 fails as stated: a live cycle at time 100 receives one OST report, version
2, from a node called `a b`; the poll creates an entity and records the line
`100 99 a b lmt_ost 2;oss1;lustre-OST0001`, and the first `_play_file` call on
that log ends in a fatal exit. -/
theorem record_replay_breaks_on_space :
    (ex_decoder.scan_version "2;oss1;lustre-OST0001".toList).isSome = true ∧
    (poll_cycles ex_decoder (some "lustre".toList) 12 ex_cycles_space ex_poll_start).recf
      = some "100 99 a b lmt_ost 2;oss1;lustre-OST0001\n".toList ∧
    (poll_cycles ex_decoder (some "lustre".toList) 12 ex_cycles_space
      ex_poll_start).ost_data.length = 1 ∧
    is_fatal (play_times ex_decoder (some "lustre".toList) 12 1
      (ex_play_start "100 99 a b lmt_ost 2;oss1;lustre-OST0001\n".toList)) = true := by
  decide

/-- C6 at two recorded cycles (times 100 and 105, one metric without node name
and one without version among them): after one and after two `_play_file` calls
on the recorded log the registries and the cycle time are those of the live run
after one and two polls. -/
theorem record_replay_refines_witness :
    (∃ text st2,
      (poll_cycles ex_decoder (some "lustre".toList) 12 ex_cycles
        { mdt_data := [], ost_data := [], recf := some [], tp := some 0 }).recf = some text ∧
      play_times ex_decoder (some "lustre".toList) 12 2
        { mdt_data := [], ost_data := [],
          f := { unread := text, eof := false, error := false },
          tp := some 0, tdiffp := some 2 } = Except.ok st2 ∧
      st2.mdt_data = (poll_cycles ex_decoder (some "lustre".toList) 12 (ex_cycles.take 2)
        { mdt_data := [], ost_data := [], recf := some [], tp := some 0 }).mdt_data ∧
      st2.ost_data = (poll_cycles ex_decoder (some "lustre".toList) 12 (ex_cycles.take 2)
        { mdt_data := [], ost_data := [], recf := some [], tp := some 0 }).ost_data ∧
      st2.tp = (poll_cycles ex_decoder (some "lustre".toList) 12 (ex_cycles.take 2)
        { mdt_data := [], ost_data := [], recf := some [], tp := some 0 }).tp) ∧
    (poll_cycles ex_decoder (some "lustre".toList) 12 ex_cycles ex_poll_start).recf
      = some ("100 99 h1 lmt_ost 2;oss1;lustre-OST0001\n100 98 m1 lmt_mdt 1;mds1;lustre-MDT0000\n"
          ++ "105 104 h1 lmt_ost 2;oss1;lustre-OST0001\n").toList ∧
    (poll_cycles ex_decoder (some "lustre".toList) 12 ex_cycles ex_poll_start).tp = some 105 :=
  ⟨record_replay_refines ex_decoder (some "lustre".toList) 12 ex_cycles [] [] (some 0) (some 2)
      (wf_cycles_of_check _ _ (by decide)) 2 (by decide),
    by decide, by decide⟩

/-! ## C11: the connection state across a failover -/

/-- No path of the body of `_update_ost` writes the connection state. -/
theorem update_ost_entity_oscstate (r : ost_report) (trcv : Int) (o : oststat_t) :
    (_update_ost_entity r trcv o).oscstate = o.oscstate := by
  unfold _update_ost_entity _update_ost_failover
  split_ifs <;> rfl

/-- An applied report stores its own recovery status, cut to the 31 bytes of the
field. -/
theorem update_ost_entity_recov_status (r : ost_report) (trcv : Int) (o : oststat_t)
    (h : o.ost_metric_timestamp < trcv) :
    (_update_ost_entity r trcv o).recov_status = snprintf_s 32 r.recov_status := by
  unfold _update_ost_entity _update_ost_failover
  rw [if_pos h]

/-- C11 as amended: `_update_ost` never writes the connection state. The entity
found for the report's target keeps its stored connection-state string, whether
the report is applied or not and whether its owning-node name differs from the
stored one or not; an applied report replaces the recovery status by the
report's. -/
theorem update_ost_keeps_oscstate (r : ost_report) (ost_data : List oststat_t)
    (tnow trcv stale_secs : Int) (o : oststat_t)
    (hfind : list_find_first ost_data (fun e => _match_oststat e r.ostname) = some o) :
    ∃ o2, list_find_first (_update_ost r ost_data tnow trcv stale_secs)
        (fun e => _match_oststat e r.ostname) = some o2 ∧
      o2.oscstate = o.oscstate ∧
      (o.ost_metric_timestamp < trcv → o2.recov_status = snprintf_s 32 r.recov_status) ∧
      (strcmp r.ossname o.ossname ≠ 0 → o.ost_metric_timestamp < trcv →
        o2.ossname = snprintf_s MAXHOSTNAMELEN r.ossname) := by
  refine ⟨_update_ost_entity r trcv o, ?_, update_ost_entity_oscstate r trcv o,
    update_ost_entity_recov_status r trcv o, ?_⟩
  · unfold _update_ost
    cases hupd : list_update_first (fun e => _match_oststat e r.ostname)
        (_update_ost_entity r trcv) ost_data with
    | none =>
      rw [(list_update_first_eq_none _ _ _).mp hupd] at hfind
      cases hfind
    | some l2 =>
      have := list_find_first_update _ _ ost_data l2
        (fun a => match_update_ost_entity r trcv a r.ostname) hupd
      simpa [hfind] using this
  · intro hfail h
    have hf : (strcmp r.ossname o.ossname != 0) = true := by simpa using hfail
    unfold _update_ost_entity _update_ost_failover
    rw [if_pos h, if_pos hf]

/-- C11 fails at the entity `ex_ost` (owned by `oss1`, connection state `F` cached
from the metadata server): the report `ex_report_failover` from `oss2` stamped
105 is applied as a failover, and the stored connection state is still `F`, not
empty. -/
theorem update_ost_failover_oscstate_kept :
    list_find_first [ex_ost] (fun e => _match_oststat e ex_report_failover.ostname)
      = some ex_ost ∧
    strcmp ex_report_failover.ossname ex_ost.ossname ≠ 0 ∧
    ex_ost.ost_metric_timestamp < 105 ∧
    (_update_ost ex_report_failover [ex_ost] 105 105 12).map (fun e => e.ossname)
      = ["oss2".toList] ∧
    (_update_ost ex_report_failover [ex_ost] 105 105 12).map (fun e => e.oscstate)
      = ["F".toList] := by
  decide

/-- C11 as amended, at the entity `ex_ost` and the failover report of `oss2`. -/
theorem update_ost_keeps_oscstate_witness :
    list_find_first [ex_ost] (fun e => _match_oststat e ex_report_failover.ostname)
      = some ex_ost ∧
    ∃ o2, list_find_first (_update_ost ex_report_failover [ex_ost] 105 105 12)
        (fun e => _match_oststat e ex_report_failover.ostname) = some o2 ∧
      o2.oscstate = ex_ost.oscstate ∧
      (ex_ost.ost_metric_timestamp < 105 →
        o2.recov_status = snprintf_s 32 ex_report_failover.recov_status) ∧
      (strcmp ex_report_failover.ossname ex_ost.ossname ≠ 0 →
        ex_ost.ost_metric_timestamp < 105 →
        o2.ossname = snprintf_s MAXHOSTNAMELEN ex_report_failover.ossname) :=
  ⟨by decide, update_ost_keeps_oscstate ex_report_failover [ex_ost] 105 105 12 ex_ost
    (by decide)⟩

/-! ## C14: the aggregated registry is rebuilt from scratch -/

/-- C14: the aggregated registry that `_summarize_ost` leaves does not depend on
what the aggregated registry held before the call; a second call on the same
OST registry, started from the result of the first, gives the result of the
first again. -/
theorem summarize_ost_from_scratch (ost_data old1 old2 : List oststat_t)
    (stale_secs : Int) :
    _summarize_ost ost_data old1 stale_secs = _summarize_ost ost_data old2 stale_secs ∧
    _summarize_ost ost_data (_summarize_ost ost_data old1 stale_secs) stale_secs
      = _summarize_ost ost_data old1 stale_secs := by
  constructor
  · rw [summarize_ost_eq, summarize_ost_eq]
  · rw [summarize_ost_eq ost_data (_summarize_ost ost_data old1 stale_secs),
      summarize_ost_eq]

/-! ## C16: sign of the Sample comparators -/

theorem cmp_unknown_low_neg_iff (a b : Option ℚ) :
    cmp_unknown_low a b < 0 ↔ @LT.lt (WithBot ℚ) _ a b := by
  cases a with
  | none =>
    cases b with
    | none =>
      simp only [cmp_unknown_low]
      exact ⟨fun h => absurd h (by decide), fun h => absurd h (lt_irrefl _)⟩
    | some y =>
      simp only [cmp_unknown_low]
      exact ⟨fun _ => WithBot.bot_lt_coe y, fun _ => by decide⟩
  | some x =>
    cases b with
    | none =>
      simp only [cmp_unknown_low]
      exact ⟨fun h => absurd h (by decide), fun h => absurd h (not_lt_bot)⟩
    | some y =>
      simp only [cmp_unknown_low]
      have hc : @LT.lt (WithBot ℚ) _ (some x) (some y) ↔ x < y := WithBot.coe_lt_coe
      rw [hc]
      split_ifs with h1 h2
      · simp [h1]
      · simp [h1]
      · simp [h1]

theorem cmp_unknown_low_pos_iff (a b : Option ℚ) :
    0 < cmp_unknown_low a b ↔ @LT.lt (WithBot ℚ) _ b a := by
  cases a with
  | none =>
    cases b with
    | none =>
      simp only [cmp_unknown_low]
      exact ⟨fun h => absurd h (by decide), fun h => absurd h (lt_irrefl _)⟩
    | some y =>
      simp only [cmp_unknown_low]
      exact ⟨fun h => absurd h (by decide), fun h => absurd h (not_lt_bot)⟩
  | some x =>
    cases b with
    | none =>
      simp only [cmp_unknown_low]
      exact ⟨fun _ => WithBot.bot_lt_coe x, fun _ => by decide⟩
    | some y =>
      simp only [cmp_unknown_low]
      have hc : @LT.lt (WithBot ℚ) _ (some y) (some x) ↔ y < x := WithBot.coe_lt_coe
      rw [hc]
      split_ifs with h1 h2
      · simp [h1, lt_asymm h1]
      · simp [h2]
      · simp [h2]

theorem list_sort_insert_mem {α : Type} (cmp : α → α → Int) (x a : α) (l : List α) :
    a ∈ list_sort_insert cmp x l ↔ a = x ∨ a ∈ l := by
  rw [(list_sort_insert_perm cmp x l).mem_iff, List.mem_cons]

/-- Inserting into a sorted list keeps it sorted: no element is strictly smaller
than one placed before it. -/
theorem list_sort_insert_sorted {α : Type} (cmp : α → α → Int)
    (hasym : ∀ a b, cmp a b < 0 → ¬ cmp b a < 0)
    (htrans : ∀ a b c, cmp a b < 0 → cmp b c < 0 → cmp a c < 0)
    (x : α) (l : List α) (hl : l.Pairwise (fun a b => ¬ cmp b a < 0)) :
    (list_sort_insert cmp x l).Pairwise (fun a b => ¬ cmp b a < 0) := by
  induction l with
  | nil => simp [list_sort_insert]
  | cons y ys ih =>
    obtain ⟨hy, hys⟩ := List.pairwise_cons.mp hl
    unfold list_sort_insert
    split_ifs with hlt
    · refine List.pairwise_cons.mpr ⟨?_, hl⟩
      intro z hz
      rcases List.mem_cons.mp hz with rfl | hz
      · exact hasym _ _ hlt
      · intro hzx
        exact hy z hz (htrans _ _ _ hzx hlt)
    · refine List.pairwise_cons.mpr ⟨?_, ih hys⟩
      intro z hz
      rcases (list_sort_insert_mem cmp x z ys).mp hz with rfl | hz
      · exact hlt
      · exact hy z hz

/-- The result of `list_sort` is sorted: no element is strictly smaller than one
placed before it. -/
theorem list_sort_sorted {α : Type} (cmp : α → α → Int)
    (hasym : ∀ a b, cmp a b < 0 → ¬ cmp b a < 0)
    (htrans : ∀ a b c, cmp a b < 0 → cmp b c < 0 → cmp a c < 0)
    (l : List α) : (list_sort cmp l).Pairwise (fun a b => ¬ cmp b a < 0) := by
  have gen : ∀ (l acc : List α), acc.Pairwise (fun a b => ¬ cmp b a < 0) →
      (l.foldl (fun acc x => list_sort_insert cmp x acc) acc).Pairwise
        (fun a b => ¬ cmp b a < 0) := by
    intro l
    induction l with
    | nil => intro acc h; exact h
    | cons x l ih =>
      intro acc h
      rw [List.foldl_cons]
      exact ih _ (list_sort_insert_sorted cmp hasym htrans x acc h)
  exact gen l [] List.Pairwise.nil

/-- Under a comparator that negates the Sample order of a reading, the sorted
list has its unknown readings last. -/
theorem list_sort_unknown_last {α : Type} (key : α → Option ℚ) (cmp : α → α → Int)
    (hcmp : ∀ a b, cmp a b = -1 * cmp_unknown_low (key a) (key b)) (l : List α) :
    (list_sort cmp l).Pairwise (fun a b => key a = none → key b = none) := by
  have hlt : ∀ a b, cmp a b < 0 ↔ @LT.lt (WithBot ℚ) _ (key b) (key a) := by
    intro a b
    rw [hcmp, ← cmp_unknown_low_pos_iff]
    omega
  refine (list_sort_sorted cmp ?_ ?_ l).imp ?_
  · intro a b h1 h2
    exact @lt_asymm (WithBot ℚ) _ _ _ ((hlt a b).mp h1) ((hlt b a).mp h2)
  · intro a b c h1 h2
    exact (hlt a c).mpr (@lt_trans (WithBot ℚ) _ _ _ _ ((hlt b c).mp h2) ((hlt a b).mp h1))
  · intro a b hba ha
    by_contra hb
    apply hba
    rw [hcmp, ha]
    cases hkb : key b with
    | none => exact absurd hkb hb
    | some v => simp [cmp_unknown_low]

/-- Under a comparator that is the Sample order of a reading, the sorted list has
its unknown readings first. -/
theorem list_sort_unknown_first {α : Type} (key : α → Option ℚ) (cmp : α → α → Int)
    (hcmp : ∀ a b, cmp a b = cmp_unknown_low (key a) (key b)) (l : List α) :
    (list_sort cmp l).Pairwise (fun a b => key b = none → key a = none) := by
  have hlt : ∀ a b, cmp a b < 0 ↔ @LT.lt (WithBot ℚ) _ (key a) (key b) := by
    intro a b
    rw [hcmp, cmp_unknown_low_neg_iff]
  refine (list_sort_sorted cmp ?_ ?_ l).imp ?_
  · intro a b h1 h2
    exact @lt_asymm (WithBot ℚ) _ _ _ ((hlt a b).mp h1) ((hlt b a).mp h2)
  · intro a b c h1 h2
    exact (hlt a c).mpr (@lt_trans (WithBot ℚ) _ _ _ _ ((hlt a b).mp h1) ((hlt b c).mp h2))
  · intro a b hba hb
    by_contra ha
    apply hba
    rw [hcmp, hb]
    cases hka : key a with
    | none => exact absurd hka ha
    | some v => simp [cmp_unknown_low]

/-- C16: every comparator of a rate or volume key other than export count is the
negated Sample comparison of the two entities' Samples of that key (read
bandwidth, write bandwidth and IOPS by rate; lock count, grant rate, cancel rate
and connect by value), and the export-count comparator is the Sample comparison
itself. Hence in the list sorted by `_sort_ostlist`, under each of the seven
descending keys no entity with an unknown reading stands before one with a known
reading, and under export count none stands after one. -/
theorem cmp_oststat_sample_signs (o1 o2 : oststat_t) (l : List oststat_t) (tnow : Int) :
    (_cmp_oststat_byrbw tnow o1 o2 = - sample_rate_cmp o1.rbytes o2.rbytes tnow ∧
     _cmp_oststat_bywbw tnow o1 o2 = - sample_rate_cmp o1.wbytes o2.wbytes tnow ∧
     _cmp_oststat_byiops tnow o1 o2 = - sample_rate_cmp o1.iops o2.iops tnow ∧
     _cmp_oststat_bylocks tnow o1 o2 = - sample_val_cmp o1.lock_count o2.lock_count tnow ∧
     _cmp_oststat_bylgr tnow o1 o2 = - sample_val_cmp o1.grant_rate o2.grant_rate tnow ∧
     _cmp_oststat_bylcr tnow o1 o2 = - sample_val_cmp o1.cancel_rate o2.cancel_rate tnow ∧
     _cmp_oststat_byconn tnow o1 o2 = - sample_val_cmp o1.connect o2.connect tnow ∧
     _cmp_oststat_byexp tnow o1 o2 = sample_val_cmp o1.num_exports o2.num_exports tnow) ∧
    ((_sort_ostlist l sort_t.SORT_RBW tnow).Pairwise
      (fun a b => sample_rate a.rbytes tnow = none → sample_rate b.rbytes tnow = none) ∧
     (_sort_ostlist l sort_t.SORT_WBW tnow).Pairwise
      (fun a b => sample_rate a.wbytes tnow = none → sample_rate b.wbytes tnow = none) ∧
     (_sort_ostlist l sort_t.SORT_IOPS tnow).Pairwise
      (fun a b => sample_rate a.iops tnow = none → sample_rate b.iops tnow = none) ∧
     (_sort_ostlist l sort_t.SORT_LOCKS tnow).Pairwise
      (fun a b => sample_val a.lock_count tnow = none → sample_val b.lock_count tnow = none) ∧
     (_sort_ostlist l sort_t.SORT_LGR tnow).Pairwise
      (fun a b => sample_val a.grant_rate tnow = none → sample_val b.grant_rate tnow = none) ∧
     (_sort_ostlist l sort_t.SORT_LCR tnow).Pairwise
      (fun a b => sample_val a.cancel_rate tnow = none →
        sample_val b.cancel_rate tnow = none) ∧
     (_sort_ostlist l sort_t.SORT_CONN tnow).Pairwise
      (fun a b => sample_val a.connect tnow = none → sample_val b.connect tnow = none) ∧
     (_sort_ostlist l sort_t.SORT_EXP tnow).Pairwise
      (fun a b => sample_val b.num_exports tnow = none →
        sample_val a.num_exports tnow = none)) := by
  refine ⟨⟨?_, ?_, ?_, ?_, ?_, ?_, ?_, rfl⟩, ?_, ?_, ?_, ?_, ?_, ?_, ?_, ?_⟩
  · simp [_cmp_oststat_byrbw]
  · simp [_cmp_oststat_bywbw]
  · simp [_cmp_oststat_byiops]
  · simp [_cmp_oststat_bylocks]
  · simp [_cmp_oststat_bylgr]
  · simp [_cmp_oststat_bylcr]
  · simp [_cmp_oststat_byconn]
  · exact list_sort_unknown_last (fun o => sample_rate o.rbytes tnow) _ (fun a b => rfl) l
  · exact list_sort_unknown_last (fun o => sample_rate o.wbytes tnow) _ (fun a b => rfl) l
  · exact list_sort_unknown_last (fun o => sample_rate o.iops tnow) _ (fun a b => rfl) l
  · exact list_sort_unknown_last (fun o => sample_val o.lock_count tnow) _ (fun a b => rfl) l
  · exact list_sort_unknown_last (fun o => sample_val o.grant_rate tnow) _ (fun a b => rfl) l
  · exact list_sort_unknown_last (fun o => sample_val o.cancel_rate tnow) _ (fun a b => rfl) l
  · exact list_sort_unknown_last (fun o => sample_val o.connect tnow) _ (fun a b => rfl) l
  · exact list_sort_unknown_first (fun o => sample_val o.num_exports tnow) _
      (fun a b => rfl) l

/-! ## C17: the connect key -/

theorem ex_conn_rates :
    sample_rate ex_conn_fast.connect 100 = some 20 ∧
    sample_rate ex_conn_slow.connect 100 = some 2 := by
  constructor
  · simp [sample_rate, ex_conn_fast, ex_sample]; norm_num
  · simp [sample_rate, ex_conn_slow, ex_sample]; norm_num

/-- C17 fails at the targets `ex_conn_fast` (connect rate 20 at time 100, counter
100) and `ex_conn_slow` (connect rate 2, counter 1010): `_cmp_oststat_byconn`
compares the counters, not the rates, so it places the slower target first, and
the list sorted by the connect key shows the CR column in ascending order. -/
theorem cmp_oststat_byconn_by_value :
    sample_rate ex_conn_fast.connect 100 = some 20 ∧
    sample_rate ex_conn_slow.connect 100 = some 2 ∧
    _cmp_oststat_byconn 100 ex_conn_fast ex_conn_slow = 1 ∧
    _sort_ostlist [ex_conn_fast, ex_conn_slow] sort_t.SORT_CONN 100
      = [ex_conn_slow, ex_conn_fast] ∧
    (_sort_ostlist [ex_conn_fast, ex_conn_slow] sort_t.SORT_CONN 100).map
        (fun o => ost_row_cr (_update_display_ost_row o 12 100))
      = [some 2, some 20] := by
  have hcmp : _cmp_oststat_byconn 100 ex_conn_fast ex_conn_slow = 1 := by decide
  have hsort : _sort_ostlist [ex_conn_fast, ex_conn_slow] sort_t.SORT_CONN 100
      = [ex_conn_slow, ex_conn_fast] := by decide
  refine ⟨ex_conn_rates.1, ex_conn_rates.2, hcmp, hsort, ?_⟩
  rw [hsort]
  have h1 : ¬ (100 - ex_conn_slow.ost_metric_timestamp > 12) := by decide
  have h2 : ¬ ((strncmp ex_conn_slow.recov_status "COMPLETE".toList 8 != 0) = true) := by
    decide
  have h3 : ¬ (100 - ex_conn_fast.ost_metric_timestamp > 12) := by decide
  have h4 : ¬ ((strncmp ex_conn_fast.recov_status "COMPLETE".toList 8 != 0) = true) := by
    decide
  simp only [List.map_cons, List.map_nil, _update_display_ost_row, if_neg h1, if_neg h2,
    if_neg h3, if_neg h4, ost_row_cr, ex_conn_rates.1, ex_conn_rates.2]

/-! ## C18: a recorded line is read back -/

theorem scan_until_newline_take (width : Nat) (s tail : List Char) (e er : Bool)
    (hne : s ≠ []) (hs : ∀ c ∈ s, c ≠ '\n') (hw : 0 < width) :
    (scan_until_newline width { unread := s ++ '\n' :: tail, eof := e, error := er }).1
      = some (s.take width) := by
  obtain ⟨htw, -⟩ := takeWhile_run (fun c => c != '\n') s ('\n' :: tail)
    (fun c hc => by simpa using hs c hc) (fun c hc => by
      simp only [List.head?_cons, Option.some.injEq] at hc
      subst hc; rfl)
  unfold scan_until_newline
  simp only [htw]
  cases s with
  | nil => exact absurd rfl hne
  | cons x s =>
    cases width with
    | zero => omega
    | succ w => simp

/-- What the parser of `_play_file` reads from a line written by `_record_file`:
the two epochs, the node name and the metric class as written, and the first
65536 bytes of the raw value. -/
theorem fscanf_record_file (f : List Char) (tnow trcv : Int) (node name s tail : List Char)
    (e er : Bool)
    (hn1 : node ≠ []) (hn2 : node.length < 64) (hn3 : ∀ c ∈ node, isspace c = false)
    (hm1 : name ≠ []) (hm2 : name.length < 16) (hm3 : ∀ c ∈ name, isspace c = false)
    (hs1 : ∀ c ∈ s, c ≠ '\n') (hs2 : ∃ c, s.head? = some c ∧ isdigit c = true) :
    (fscanf_record { unread := (_record_file f tnow trcv node name s).drop f.length ++ tail,
                     eof := e, error := er }).1
      = some { tnow := of_time tnow, trcv := of_time trcv, node := node, name := name,
               s := s.take 65536 } := by
  have hlt : ∀ t : Int, of_time t < 2 ^ 64 := by
    intro t
    unfold of_time
    have h1 : 0 ≤ t % 2 ^ 64 := Int.emod_nonneg _ (by norm_num)
    have h2 : t % 2 ^ 64 < 2 ^ 64 := Int.emod_lt_of_pos _ (by norm_num)
    omega
  obtain ⟨c, hc, hcd⟩ := hs2
  have hsne : s ≠ [] := by
    intro h; rw [h] at hc; cases hc
  have e1 : (_record_file f tnow trcv node name s).drop f.length ++ tail
      = print_decimal (of_time tnow) ++ (' ' :: (print_decimal (of_time trcv) ++ (' ' ::
          (node ++ (' ' :: (name ++ (' ' :: (s ++ '\n' :: tail)))))))) := by
    simp [_record_file]
  rw [e1, fscanf_fields (of_time tnow) (of_time trcv) node name _ e er (hlt tnow) (hlt trcv)
    hn1 hn2 hn3 hm1 hm2 hm3 (by simp) (fun x hx => by
      cases hp : s with
      | nil => exact absurd hp hsne
      | cons d ds =>
        rw [hp] at hx hc
        simp only [List.cons_append, List.head?_cons, Option.some.injEq] at hx hc
        subst hx; subst hc
        exact isdigit_not_isspace _ hcd)]
  simp only [scan_until_newline_take 65536 s tail e er hsne hs1 (by norm_num),
    Option.map_some']

/-- C18 as amended: a report with a non-empty node name of at most 63 bytes and a
non-empty metric class of at most 15 bytes, both without white space, and a raw
value of at most 65535 bytes without newline that starts with a decimal digit,
is written by `_record_file` as a line from which the parser of `_play_file`
reads back the same node name, metric class and raw value and the two epochs as
written; as `time_t` values these are the epochs of the report. -/
theorem record_file_round_trip (f : List Char) (tnow trcv : Int)
    (node name s tail : List Char) (e er : Bool)
    (htnow : -(2 ^ 63 : Int) ≤ tnow ∧ tnow < 2 ^ 63)
    (htrcv : -(2 ^ 63 : Int) ≤ trcv ∧ trcv < 2 ^ 63)
    (hnode : node ≠ [] ∧ node.length ≤ 63 ∧ ∀ c ∈ node, isspace c = false)
    (hname : name ≠ [] ∧ name.length ≤ 15 ∧ ∀ c ∈ name, isspace c = false)
    (hs : s.length ≤ 65535 ∧ (∀ c ∈ s, c ≠ '\n') ∧
      ∃ c, s.head? = some c ∧ isdigit c = true) :
    ∃ r, (fscanf_record
        { unread := (_record_file f tnow trcv node name s).drop f.length ++ tail,
          eof := e, error := er }).1 = some r ∧
      to_time r.tnow = tnow ∧ to_time r.trcv = trcv ∧
      r.node = node ∧ r.name = name ∧ r.s = s := by
  refine ⟨_, fscanf_record_file f tnow trcv node name s tail e er hnode.1
    (by have := hnode.2.1; omega) hnode.2.2 hname.1 (by have := hname.2.1; omega) hname.2.2
    hs.2.1 hs.2.2, to_time_of_time tnow htnow.1 htnow.2, to_time_of_time trcv htrcv.1 htrcv.2,
    rfl, rfl, ?_⟩
  exact List.take_of_length_le (by have := hs.1; omega)

/-- C18 fails without the node name being non-empty and without a bound on the
raw value: after a report with an empty node name the parser does not find five
fields in the line, and of a raw value of 65538 bytes it reads back the first
65536 only. -/
theorem record_file_round_trip_fails :
    (fscanf_record
      { unread := _record_file [] 100 99 [] "lmt_ost".toList "2;x".toList,
        eof := false, error := false }).1 = none ∧
    (fscanf_record
      { unread := _record_file [] 100 99 "h1".toList "lmt_ost".toList
          ('2' :: ';' :: List.replicate 65536 'x'),
        eof := false, error := false }).1
      = some { tnow := 100, trcv := 99, node := "h1".toList, name := "lmt_ost".toList,
               s := '2' :: ';' :: List.replicate 65534 'x' } := by
  constructor
  · decide
  · have h := fscanf_record_file [] 100 99 "h1".toList "lmt_ost".toList
      ('2' :: ';' :: List.replicate 65536 'x') [] false false (by decide) (by decide)
      (by decide) (by decide) (by decide) (by decide)
      (by
        intro c hc
        simp only [List.mem_cons, List.mem_replicate] at hc
        rcases hc with rfl | rfl | ⟨-, rfl⟩ <;> decide)
      ⟨'2', rfl, by decide⟩
    have htake : ∀ n : Nat, List.take (n + 2) ('2' :: ';' :: List.replicate (n + 2) 'x')
        = '2' :: ';' :: List.replicate n 'x' := by
      intro n
      simp [List.take_replicate]
    have h2 := htake 65534
    simp only [List.length_nil, List.drop_zero, List.append_nil] at h
    rw [h]
    have ht1 : of_time 100 = 100 := by decide
    have ht2 : of_time 99 = 99 := by decide
    rw [ht1, ht2]
    exact congrArg (fun x => some (log_record.mk 100 99 "h1".toList "lmt_ost".toList x)) h2

/-- C18 as amended, at a report of node `h1` with class `lmt_ost`. -/
theorem record_file_round_trip_witness :
    ∃ r, (fscanf_record
        { unread := (_record_file "1 1 a b 1;\n".toList 100 99 "h1".toList "lmt_ost".toList
            "2;oss1;lustre-OST0001".toList).drop "1 1 a b 1;\n".toList.length
            ++ "105 104 h1 lmt_ost 2;x\n".toList,
          eof := false, error := false }).1 = some r ∧
      to_time r.tnow = 100 ∧ to_time r.trcv = 99 ∧
      r.node = "h1".toList ∧ r.name = "lmt_ost".toList ∧
      r.s = "2;oss1;lustre-OST0001".toList :=
  record_file_round_trip "1 1 a b 1;\n".toList 100 99 "h1".toList "lmt_ost".toList
    "2;oss1;lustre-OST0001".toList "105 104 h1 lmt_ost 2;x\n".toList false false
    (by decide) (by decide) (by decide) (by decide) (by decide)

/-! ## C19: length of the stored node name and metric class -/

/-- The conversion `%Ns` stores at most `N` bytes (and a terminator after them). -/
theorem scan_s_bound (width : Nat) (f f2 : FILE) (w : List Char)
    (h : scan_s width f = (some w, f2)) : w.length ≤ width := by
  unfold scan_s at h
  dsimp only at h
  split_ifs at h
  · simp at h
  · simp only [Prod.mk.injEq, Option.some.injEq] at h
    rw [← h.1]
    exact List.length_take_le _ _

/-- The node name and the metric class that a successful `fscanf` of a log line
stores have at most 64 and 16 bytes. -/
theorem fscanf_record_bounds (f f2 : FILE) (r : log_record)
    (h : fscanf_record f = (some r, f2)) : r.node.length ≤ 64 ∧ r.name.length ≤ 16 := by
  unfold fscanf_record at h
  cases h1 : scan_u64 f with
  | mk a f1 =>
    cases a with
    | none => rw [h1] at h; simp at h
    | some tnow =>
      rw [h1] at h
      simp only at h
      cases h2 : scan_u64 (scan_space f1) with
      | mk b f3 =>
        cases b with
        | none => rw [h2] at h; simp at h
        | some trcv =>
          rw [h2] at h
          simp only at h
          cases h3 : scan_s 64 (scan_space f3) with
          | mk c f4 =>
            cases c with
            | none => rw [h3] at h; simp at h
            | some node =>
              have l3 := scan_s_bound 64 _ f4 node h3
              rw [h3] at h
              simp only at h
              cases h4 : scan_s 16 (scan_space f4) with
              | mk d f5 =>
                cases d with
                | none => rw [h4] at h; simp at h
                | some name =>
                  have l4 := scan_s_bound 16 _ f5 name h4
                  rw [h4] at h
                  simp only at h
                  cases h5 : scan_until_newline 65536 (scan_space f5) with
                  | mk e f6 =>
                    cases e with
                    | none => rw [h5] at h; simp at h
                    | some sv =>
                      rw [h5] at h
                      simp only [Prod.mk.injEq, Option.some.injEq] at h
                      rw [← h.1]
                      exact ⟨l3, l4⟩

/-- C19 fails at the line `ex_long_line`, whose node name has 64 bytes and whose
metric class has 16: the conversions `%64s` and `%16s` store all of them, so
with the terminator the 64-byte and 16-byte fields are overrun by one byte. On
every line the stored node name and metric class are cut at 64 and 16 bytes,
not at 63 and 15. -/
theorem fscanf_record_field_overrun :
    (fscanf_record { unread := ex_long_line, eof := false, error := false }).1
      = some { tnow := 100, trcv := 99, node := List.replicate 64 'n',
               name := List.replicate 16 'c', s := "2;x".toList } ∧
    (List.replicate 64 'n').length = 64 ∧ (List.replicate 16 'c').length = 16 ∧
    (∀ (f f2 : FILE) (r : log_record), fscanf_record f = (some r, f2) →
      r.node.length ≤ 64 ∧ r.name.length ≤ 16) := by
  refine ⟨by decide, by decide, by decide, ?_⟩
  intro f f2 r h
  exact fscanf_record_bounds f f2 r h

/-! ## C20: a malformed line in the replay log -/

theorem decimal_digits_length (fuel : Nat) :
    ∀ (n d : Nat), n < 10 ^ (d + 1) → (decimal_digits fuel n).length ≤ d + 1 := by
  induction fuel with
  | zero => intro n d _; simp [decimal_digits]
  | succ fuel ih =>
    intro n d hn
    unfold decimal_digits
    by_cases h10 : n < 10
    · rw [if_pos h10]; simp
    · rw [if_neg h10]
      cases d with
      | zero => simp at hn; omega
      | succ d =>
        have hdiv : n / 10 < 10 ^ (d + 1) := by
          apply Nat.div_lt_of_lt_mul
          rw [pow_succ] at hn
          omega
        have := ih (n / 10) d hdiv
        simp only [List.length_append, List.length_singleton]
        omega

/-- The call `strtoul` reads the count back from the index `(k)` past its bracket. -/
theorem strtoul_count (k : Nat) (hk : k < 2 ^ 64) :
    strtoul (('(' :: print_decimal k ++ [')']).drop 1) = k := by
  obtain ⟨hv, hd, hne⟩ := print_decimal_spec k
  have hparen : isdigit ')' = false := by decide
  obtain ⟨htw, -⟩ := takeWhile_run isdigit (print_decimal k) [')'] hd (fun c hc => by
    simp only [List.head?_cons, Option.some.injEq] at hc
    subst hc; exact hparen)
  simp only [List.drop_succ_cons, List.drop_zero, List.cons_append]
  unfold strtoul ULONG_MAX
  rw [htw, hv]
  omega

/-- The count `(k)` of a node record is read and written back as `(k + 1)`. -/
theorem summarize_ost_merge_name (a o : oststat_t) (k : Nat)
    (hname : a.name = '(' :: print_decimal k ++ [')']) (hk : k + 1 < 2 ^ 31) :
    (_summarize_ost_merge a o).name = '(' :: print_decimal (k + 1) ++ [')'] := by
  have hstr := strtoul_count k (by omega)
  have hint : to_int k + 1 = ((k + 1 : Nat) : Int) := by
    unfold to_int
    have : k % 2 ^ 32 = k := Nat.mod_eq_of_lt (by omega)
    rw [this, if_pos (by omega)]
    push_cast
    rfl
  have hprint : print_int ((k + 1 : Nat) : Int) = print_decimal (k + 1) := by
    unfold print_int
    rw [if_neg (by omega), Int.toNat_natCast]
  have hlen : (print_decimal (k + 1)).length ≤ 10 :=
    decimal_digits_length _ (k + 1) 9 (by norm_num; omega)
  show snprintf_s 17 ('(' :: print_int (to_int (strtoul (a.name.drop 1)) + 1) ++ [')']) = _
  rw [hname, hstr, hint, hprint]
  unfold snprintf_s
  apply List.take_of_length_le
  simp only [List.length_cons, List.length_append, List.length_nil]
  omega

theorem summarize_ost_first_name (o : oststat_t) :
    (_summarize_ost_first o).name = '(' :: print_decimal 1 ++ [')'] := by
  show snprintf_s 17 ('(' :: print_int 1 ++ [')']) = _
  decide

/-- The index of an existing node record counts on by the number of targets of
the node that the loop processes. -/
theorem node_record_name (n : List Char) (l : List oststat_t) :
    ∀ (a : oststat_t) (k : Nat), a.name = '(' :: print_decimal k ++ [')'] →
      k + l.countP (fun o => decide (o.ossname = n)) < 2 ^ 31 →
      ∃ agg, node_record n (some a) l = some agg ∧
        agg.name = '(' :: print_decimal (k + l.countP (fun o => decide (o.ossname = n)))
          ++ [')'] := by
  induction l with
  | nil => intro a k hname _; exact ⟨a, rfl, by simpa using hname⟩
  | cons o l ih =>
    intro a k hname hk
    by_cases hn : o.ossname = n
    · have hc : (o :: l).countP (fun o => decide (o.ossname = n))
          = l.countP (fun o => decide (o.ossname = n)) + 1 := by
        simp [List.countP_cons, hn]
      rw [hc] at hk ⊢
      obtain ⟨agg, h0, h1⟩ := ih (_summarize_ost_merge a o) (k + 1)
        (summarize_ost_merge_name a o k hname (by omega)) (by omega)
      refine ⟨agg, ?_, ?_⟩
      · simpa [node_record, hn] using h0
      · rw [h1]
        have : k + 1 + l.countP (fun o => decide (o.ossname = n))
            = k + (l.countP (fun o => decide (o.ossname = n)) + 1) := by omega
        rw [this]
    · have hc : (o :: l).countP (fun o => decide (o.ossname = n))
          = l.countP (fun o => decide (o.ossname = n)) := by
        simp [List.countP_cons, hn]
      rw [hc] at hk ⊢
      obtain ⟨agg, h0, h1⟩ := ih a k hname hk
      exact ⟨agg, by simpa [node_record, hn] using h0, h1⟩

/-- Without a target of the node in the list, the loop makes no record for it. -/
theorem node_record_absent (n : List Char) (l : List oststat_t)
    (h : l.countP (fun o => decide (o.ossname = n)) = 0) : node_record n none l = none := by
  induction l with
  | nil => rfl
  | cons o l ih =>
    by_cases hn : o.ossname = n
    · simp [List.countP_cons, hn] at h
    · have hc : l.countP (fun o => decide (o.ossname = n)) = 0 := by
        simpa [List.countP_cons, hn] using h
      have := ih hc
      simpa [node_record, hn] using this

/-- The record that the loop builds for a node with at least one target is indexed
by the number of targets of the node. -/
theorem node_record_count (n : List Char) (l : List oststat_t)
    (hpos : 0 < l.countP (fun o => decide (o.ossname = n)))
    (hlen : l.countP (fun o => decide (o.ossname = n)) < 2 ^ 31) :
    ∃ agg, node_record n none l = some agg ∧
      agg.name = '(' :: print_decimal (l.countP (fun o => decide (o.ossname = n)))
        ++ [')'] := by
  cases hfil : l.filter (fun o => decide (o.ossname = n)) with
  | nil =>
    rw [List.countP_eq_length_filter, hfil] at hpos
    simp at hpos
  | cons o rest =>
    obtain ⟨post, hpost, hpostfil⟩ := node_record_none n l o rest hfil
    have hcnt : l.countP (fun o => decide (o.ossname = n))
        = 1 + post.countP (fun o => decide (o.ossname = n)) := by
      rw [List.countP_eq_length_filter, List.countP_eq_length_filter, hfil, hpostfil]
      simp only [List.length_cons]
      omega
    rw [hcnt] at hlen ⊢
    obtain ⟨agg, h0, h1⟩ := node_record_name n post (_summarize_ost_first o) 1
      (summarize_ost_first_name o) hlen
    exact ⟨agg, by rw [hpost]; exact h0, h1⟩

theorem countP_ossname_pos (n : List Char) (l : List oststat_t) :
    0 < l.countP (fun o => decide (o.ossname = n)) ↔ n ∈ l.map (fun o => o.ossname) := by
  rw [List.countP_pos_iff, List.mem_map]
  constructor
  · rintro ⟨o, ho, h⟩
    exact ⟨o, ho, by simpa using h⟩
  · rintro ⟨o, ho, h⟩
    exact ⟨o, ho, by simpa using h⟩

theorem count_ossname (n : List Char) (l : List oststat_t) :
    @List.count _ instBEqOfDecidableEq n (l.map (fun o => o.ossname))
      = l.countP (fun o => decide (o.ossname = n)) := by
  show List.countP (fun y => @BEq.beq _ instBEqOfDecidableEq y n) (l.map _) = _
  rw [List.countP_map]
  rfl

/-- A record of the loop result is the one found under its owning-node name. -/
theorem summarize_ost_fold_mem (l : List oststat_t) (a : oststat_t)
    (ha : a ∈ l.foldl _summarize_ost_step []) :
    node_record a.ossname none l = some a := by
  have hnodup := summarize_ost_fold_nodup l [] (by simp)
  have hfold := summarize_ost_fold_find a.ossname l []
  have hnil : list_find_first ([] : List oststat_t)
      (fun b => _match_oststat2 b a.ossname) = none := rfl
  rw [hnil] at hfold
  rw [← hfold]
  cases hfind : list_find_first (l.foldl _summarize_ost_step [])
      (fun b => _match_oststat2 b a.ossname) with
  | none =>
    have := List.find?_eq_none.mp hfind a ha
    exact absurd ((match_oststat2_iff a a.ossname).mpr rfl) this
  | some b =>
    have hb : b ∈ l.foldl _summarize_ost_step [] := List.mem_of_find?_eq_some hfind
    have hbn : b.ossname = a.ossname :=
      (match_oststat2_iff b a.ossname).mp
        (@List.find?_some _ (fun b => _match_oststat2 b a.ossname) b _ hfind)
    rw [List.inj_on_of_nodup_map hnodup hb ha hbn]

/-- C12: for an OST registry of fewer than `2 ^ 31` entities (the list library
counts in an `int`), the aggregated registry after `_summarize_ost` has no two
records with one owning-node name and has a record for exactly the owning-node
names that occur in the OST registry; the index of each record is `(n)` with
`n` the number of OST entities of that node, and the counts read from the
indexes add up to the number of OST entities. -/
theorem summarize_ost_counts (ost_data oss_data : List oststat_t) (stale_secs : Int)
    (hlen : ost_data.length < 2 ^ 31) :
    ((_summarize_ost ost_data oss_data stale_secs).map (fun a => a.ossname)).Nodup ∧
    (∀ n, n ∈ (_summarize_ost ost_data oss_data stale_secs).map (fun a => a.ossname) ↔
      n ∈ ost_data.map (fun o => o.ossname)) ∧
    (∀ a ∈ _summarize_ost ost_data oss_data stale_secs,
      a.name = '(' :: print_decimal
        (ost_data.countP (fun o => decide (o.ossname = a.ossname))) ++ [')']) ∧
    ((_summarize_ost ost_data oss_data stale_secs).map
      (fun a => strtoul (a.name.drop 1))).sum = ost_data.length := by
  rw [summarize_ost_eq]
  have hperm := list_sort_perm _cmp_oststat_byoss (ost_data.foldl _summarize_ost_step [])
  have hnodup := summarize_ost_fold_nodup ost_data [] (by simp)
  have hcle : ∀ n, ost_data.countP (fun o => decide (o.ossname = n)) < 2 ^ 31 := fun n =>
    lt_of_le_of_lt (List.countP_le_length _) hlen
  have hsnodup : ((list_sort _cmp_oststat_byoss
      (ost_data.foldl _summarize_ost_step [])).map (fun a => a.ossname)).Nodup :=
    ((hperm.map _).nodup_iff).mpr hnodup
  have hmem : ∀ n, n ∈ (list_sort _cmp_oststat_byoss
      (ost_data.foldl _summarize_ost_step [])).map (fun a => a.ossname) ↔
      n ∈ ost_data.map (fun o => o.ossname) := by
    intro n
    rw [(hperm.map _).mem_iff]
    constructor
    · intro hn
      obtain ⟨a, ha, han⟩ := List.mem_map.mp hn
      have hrec := summarize_ost_fold_mem ost_data a ha
      by_contra hnot
      have hz : ost_data.countP (fun o => decide (o.ossname = a.ossname)) = 0 := by
        by_contra hpos
        exact hnot (han ▸ (countP_ossname_pos a.ossname ost_data).mp (Nat.pos_of_ne_zero hpos))
      rw [node_record_absent a.ossname ost_data hz] at hrec
      cases hrec
    · intro hn
      have hpos : 0 < ost_data.countP (fun o => decide (o.ossname = n)) :=
        (countP_ossname_pos n ost_data).mpr hn
      obtain ⟨agg, h0, -⟩ := node_record_count n ost_data hpos (hcle n)
      have hfold := summarize_ost_fold_find n ost_data []
      have hnil : list_find_first ([] : List oststat_t)
          (fun b => _match_oststat2 b n) = none := rfl
      rw [hnil, h0] at hfold
      have hb : agg ∈ ost_data.foldl _summarize_ost_step [] := List.mem_of_find?_eq_some hfold
      have hbn : agg.ossname = n :=
        (match_oststat2_iff agg n).mp
          (@List.find?_some _ (fun b => _match_oststat2 b n) agg _ hfold)
      exact List.mem_map.mpr ⟨agg, hb, hbn⟩
  have hname : ∀ a ∈ list_sort _cmp_oststat_byoss (ost_data.foldl _summarize_ost_step []),
      a.name = '(' :: print_decimal
        (ost_data.countP (fun o => decide (o.ossname = a.ossname))) ++ [')'] := by
    intro a ha
    have ha2 := hperm.mem_iff.mp ha
    have hrec := summarize_ost_fold_mem ost_data a ha2
    have hpos : 0 < ost_data.countP (fun o => decide (o.ossname = a.ossname)) :=
      (countP_ossname_pos a.ossname ost_data).mpr
        ((hmem a.ossname).mp (List.mem_map.mpr ⟨a, ha, rfl⟩))
    obtain ⟨agg, h0, h1⟩ := node_record_count a.ossname ost_data hpos (hcle a.ossname)
    rw [hrec] at h0
    cases h0
    exact h1
  refine ⟨hsnodup, hmem, hname, ?_⟩
  have hsum : (list_sort _cmp_oststat_byoss (ost_data.foldl _summarize_ost_step [])).map
      (fun a => strtoul (a.name.drop 1))
      = ((list_sort _cmp_oststat_byoss (ost_data.foldl _summarize_ost_step [])).map
          (fun a => a.ossname)).map
          (fun n => @List.count _ instBEqOfDecidableEq n
            (ost_data.map (fun o => o.ossname))) := by
    rw [List.map_map]
    apply List.map_congr_left
    intro a ha
    simp only [Function.comp]
    rw [hname a ha, strtoul_count _ (lt_trans (hcle _) (by norm_num)), count_ossname]
  have hp : List.Perm ((list_sort _cmp_oststat_byoss
      (ost_data.foldl _summarize_ost_step [])).map (fun a => a.ossname))
      (ost_data.map (fun o => o.ossname)).dedup :=
    (List.perm_ext_iff_of_nodup hsnodup (List.nodup_dedup _)).mpr (fun n => by
      rw [hmem n, List.mem_dedup])
  rw [hsum, (hp.map _).sum_eq]
  have h := List.sum_map_count_dedup_eq_length (ost_data.map (fun o => o.ossname))
  rw [List.length_map] at h
  exact h

/-- C12 at the registry `ex_registry`: node `oss1` has three targets and node
`oss2` one. -/
theorem summarize_ost_counts_witness :
    ex_registry.length < 2 ^ 31 ∧
    ((_summarize_ost ex_registry [] 12).map (fun a => a.ossname)).Nodup ∧
    (∀ n, n ∈ (_summarize_ost ex_registry [] 12).map (fun a => a.ossname) ↔
      n ∈ ex_registry.map (fun o => o.ossname)) ∧
    (∀ a ∈ _summarize_ost ex_registry [] 12,
      a.name = '(' :: print_decimal
        (ex_registry.countP (fun o => decide (o.ossname = a.ossname))) ++ [')']) ∧
    ((_summarize_ost ex_registry [] 12).map
      (fun a => strtoul (a.name.drop 1))).sum = ex_registry.length :=
  ⟨by decide, summarize_ost_counts ex_registry [] 12 (by decide)⟩

/-! ## C13: the worst state of a node's targets is shown -/

theorem headD_mem {α : Type} (l : List α) (d : α) (h : l.length ≠ 0) : l.headD d ∈ l := by
  cases l with
  | nil => exact absurd rfl h
  | cons x l => exact List.mem_cons_self _ _

/-- A value that is overwritten by every non-nominal item ends as the value of
the last non-nominal item. -/
theorem foldl_overwrite_last {α β : Type} (p : β → Bool) (g : α → β) (init : β)
    (pre post : List α) (x : α) (hx : p (g x) = true) (hpost : ∀ y ∈ post, p (g y) = false) :
    (pre ++ x :: post).foldl (fun st o => if p (g o) then g o else st) init = g x := by
  rw [List.foldl_append, List.foldl_cons, if_pos hx]
  induction post with
  | nil => rfl
  | cons y post ih =>
    rw [List.foldl_cons, hpost y (List.mem_cons_self _ _)]
    exact ih (fun z hz => hpost z (List.mem_cons_of_mem _ hz))

/-- A value that is overwritten by every non-nominal item ends nominal only if it
started nominal and every item is nominal. -/
theorem foldl_overwrite_nominal {α β : Type} (p : β → Bool) (g : α → β) (l : List α) :
    ∀ init : β, p (l.foldl (fun st o => if p (g o) then g o else st) init) = false →
      p init = false ∧ ∀ o ∈ l, p (g o) = false := by
  induction l with
  | nil => intro init h; exact ⟨h, by simp⟩
  | cons y l ih =>
    intro init h
    rw [List.foldl_cons] at h
    obtain ⟨h1, h2⟩ := ih _ h
    by_cases hy : p (g y) = true
    · rw [if_pos hy] at h1
      rw [h1] at hy
      cases hy
    · rw [if_neg hy] at h1
      refine ⟨h1, ?_⟩
      intro o ho
      rcases List.mem_cons.mp ho with rfl | ho
      · simpa using hy
      · exact h2 o ho

/-- Accumulation into an existing node record: the connection state and the
recovery status are overwritten by those of every target of the node that is
not nominal. -/
theorem node_record_state (n : List Char) (l : List oststat_t) :
    ∀ a : oststat_t, ∃ agg, node_record n (some a) l = some agg ∧
      agg.oscstate = (l.filter (fun o => decide (o.ossname = n))).foldl
        (fun st o => if (fun s => strcmp s "F".toList != 0) o.oscstate then o.oscstate else st)
        a.oscstate ∧
      agg.recov_status = (l.filter (fun o => decide (o.ossname = n))).foldl
        (fun st o => if (fun s => strncmp s "COMPLETE".toList 8 != 0) o.recov_status
          then o.recov_status else st)
        a.recov_status := by
  induction l with
  | nil => intro a; exact ⟨a, rfl, rfl, rfl⟩
  | cons o l ih =>
    intro a
    by_cases hn : o.ossname = n
    · obtain ⟨agg, h0, h1, h2⟩ := ih (_summarize_ost_merge a o)
      refine ⟨agg, ?_, ?_, ?_⟩
      · simpa [node_record, hn] using h0
      · rw [h1]
        simp only [List.filter_cons, hn, decide_True, if_true, List.foldl_cons]
        rfl
      · rw [h2]
        simp only [List.filter_cons, hn, decide_True, if_true, List.foldl_cons]
        rfl
    · obtain ⟨agg, h0, h1, h2⟩ := ih a
      refine ⟨agg, ?_, ?_, ?_⟩
      · simpa [node_record, hn] using h0
      · rw [h1]; simp [List.filter_cons, hn]
      · rw [h2]; simp [List.filter_cons, hn]

/-- The connection state and recovery status of a node record, as a function of
the targets of the node in registry order. -/
theorem summarize_ost_fold_state (l : List oststat_t) (a : oststat_t)
    (ha : a ∈ l.foldl _summarize_ost_step []) :
    ∃ o rest, l.filter (fun o => decide (o.ossname = a.ossname)) = o :: rest ∧
      a.oscstate = (o :: rest).foldl
        (fun st o => if (fun s => strcmp s "F".toList != 0) o.oscstate then o.oscstate else st)
        o.oscstate ∧
      a.recov_status = (o :: rest).foldl
        (fun st o => if (fun s => strncmp s "COMPLETE".toList 8 != 0) o.recov_status
          then o.recov_status else st)
        o.recov_status := by
  have hrec := summarize_ost_fold_mem l a ha
  cases hfil : l.filter (fun o => decide (o.ossname = a.ossname)) with
  | nil =>
    have hz : l.countP (fun o => decide (o.ossname = a.ossname)) = 0 := by
      rw [List.countP_eq_length_filter, hfil]; rfl
    rw [node_record_absent a.ossname l hz] at hrec
    cases hrec
  | cons o rest =>
    obtain ⟨post, hpost, hpostfil⟩ := node_record_none a.ossname l o rest hfil
    obtain ⟨agg, h0, h1, h2⟩ := node_record_state a.ossname post (_summarize_ost_first o)
    rw [hpost, h0] at hrec
    cases hrec
    rw [hpostfil] at h1 h2
    refine ⟨o, rest, rfl, ?_, ?_⟩
    · rw [h1, List.foldl_cons]
      have : (_summarize_ost_first o).oscstate = o.oscstate := rfl
      rw [this]
      split_ifs <;> rfl
    · rw [h2, List.foldl_cons]
      have : (_summarize_ost_first o).recov_status = o.recov_status := rfl
      rw [this]
      split_ifs <;> rfl

/-- C13: let `a` be a record of the aggregated registry after `_summarize_ost` and
`targets` the OST entities of its node, in registry order. If the connection
state of `a` is `F`, every target has connection state `F`; if the recovery
status of `a` begins with `COMPLETE`, so does the recovery status of every
target. If `x` is the last target whose connection state is not `F`, `a` shows
the connection state of `x`; if `x` is the last target whose recovery status
does not begin with `COMPLETE`, `a` shows the recovery status of `x`. -/
theorem summarize_ost_worst_state (ost_data oss_data : List oststat_t) (stale_secs : Int)
    (a : oststat_t) (ha : a ∈ _summarize_ost ost_data oss_data stale_secs) :
    (a.oscstate = "F".toList →
      ∀ o ∈ ost_data.filter (fun o => decide (o.ossname = a.ossname)),
        o.oscstate = "F".toList) ∧
    (strncmp a.recov_status "COMPLETE".toList 8 = 0 →
      ∀ o ∈ ost_data.filter (fun o => decide (o.ossname = a.ossname)),
        strncmp o.recov_status "COMPLETE".toList 8 = 0) ∧
    (∀ pre x post, ost_data.filter (fun o => decide (o.ossname = a.ossname))
        = pre ++ x :: post →
      x.oscstate ≠ "F".toList → (∀ y ∈ post, y.oscstate = "F".toList) →
      a.oscstate = x.oscstate) ∧
    (∀ pre x post, ost_data.filter (fun o => decide (o.ossname = a.ossname))
        = pre ++ x :: post →
      strncmp x.recov_status "COMPLETE".toList 8 ≠ 0 →
      (∀ y ∈ post, strncmp y.recov_status "COMPLETE".toList 8 = 0) →
      a.recov_status = x.recov_status) := by
  rw [summarize_ost_eq] at ha
  have ha2 := (list_sort_perm _cmp_oststat_byoss _).mem_iff.mp ha
  obtain ⟨o, rest, hfil, hst, hrs⟩ := summarize_ost_fold_state ost_data a ha2
  rw [hfil]
  refine ⟨?_, ?_, ?_, ?_⟩
  · intro hF t ht
    have hp : (fun s => strcmp s "F".toList != 0) a.oscstate = false := by
      simp only [hF]; decide
    rw [hst] at hp
    have := (foldl_overwrite_nominal (fun s => strcmp s "F".toList != 0)
      (fun o : oststat_t => o.oscstate) (o :: rest) o.oscstate hp).2 t ht
    have h0 : strcmp t.oscstate "F".toList = 0 := by simpa using this
    exact (strcmp_eq_zero_iff _ _).mp h0
  · intro hC t ht
    have hp : (fun s => strncmp s "COMPLETE".toList 8 != 0) a.recov_status = false := by
      simp only [hC]; decide
    rw [hrs] at hp
    have := (foldl_overwrite_nominal (fun s => strncmp s "COMPLETE".toList 8 != 0)
      (fun o : oststat_t => o.recov_status) (o :: rest) o.recov_status hp).2 t ht
    simpa using this
  · intro pre x post hsplit hx hpost
    rw [hst, hsplit]
    exact foldl_overwrite_last (fun s => strcmp s "F".toList != 0)
      (fun o : oststat_t => o.oscstate) o.oscstate pre post x
      (by
        have : strcmp x.oscstate "F".toList ≠ 0 := fun h => hx ((strcmp_eq_zero_iff _ _).mp h)
        simpa using this)
      (fun y hy => by
        have : strcmp y.oscstate "F".toList = 0 := (strcmp_eq_zero_iff _ _).mpr (hpost y hy)
        show (strcmp y.oscstate "F".toList != 0) = false
        rw [this]; rfl)
  · intro pre x post hsplit hx hpost
    rw [hrs, hsplit]
    exact foldl_overwrite_last (fun s => strncmp s "COMPLETE".toList 8 != 0)
      (fun o : oststat_t => o.recov_status) o.recov_status pre post x
      (by simpa using hx)
      (fun y hy => by
        show (strncmp y.recov_status "COMPLETE".toList 8 != 0) = false
        rw [hpost y hy]; rfl)

/-- C13 at the registry `ex_states`: the record of node `oss1` shows the connection
state `D` of the second target, the last one that is not `F`, and the recovery
status of the first target, the only one that is recovering. -/
theorem summarize_ost_worst_state_witness :
    (_summarize_ost ex_states [] 12).headD ex_ost ∈ _summarize_ost ex_states [] 12 ∧
    (((_summarize_ost ex_states [] 12).headD ex_ost).oscstate = "F".toList →
      ∀ o ∈ ex_states.filter (fun o => decide
          (o.ossname = ((_summarize_ost ex_states [] 12).headD ex_ost).ossname)),
        o.oscstate = "F".toList) ∧
    (strncmp ((_summarize_ost ex_states [] 12).headD ex_ost).recov_status
        "COMPLETE".toList 8 = 0 →
      ∀ o ∈ ex_states.filter (fun o => decide
          (o.ossname = ((_summarize_ost ex_states [] 12).headD ex_ost).ossname)),
        strncmp o.recov_status "COMPLETE".toList 8 = 0) ∧
    (∀ pre x post, ex_states.filter (fun o => decide
          (o.ossname = ((_summarize_ost ex_states [] 12).headD ex_ost).ossname))
        = pre ++ x :: post →
      x.oscstate ≠ "F".toList → (∀ y ∈ post, y.oscstate = "F".toList) →
      ((_summarize_ost ex_states [] 12).headD ex_ost).oscstate = x.oscstate) ∧
    (∀ pre x post, ex_states.filter (fun o => decide
          (o.ossname = ((_summarize_ost ex_states [] 12).headD ex_ost).ossname))
        = pre ++ x :: post →
      strncmp x.recov_status "COMPLETE".toList 8 ≠ 0 →
      (∀ y ∈ post, strncmp y.recov_status "COMPLETE".toList 8 = 0) →
      ((_summarize_ost ex_states [] 12).headD ex_ost).recov_status = x.recov_status) :=
  ⟨headD_mem _ _ (by decide),
   summarize_ost_worst_state ex_states [] 12 _ (headD_mem _ _ (by decide))⟩

/-! ## C15: aggregation leaves the OST registry alone -/

theorem take_set_of_le {α : Type} (l : List α) (n i : Nat) (x : α) (h : n ≤ i) :
    (l.set i x).take n = l.take n := by
  apply List.ext_getElem?
  intro j
  rw [List.getElem?_take, List.getElem?_take]
  split
  · rw [List.getElem?_set_ne (by omega)]
  · rfl

theorem getD_set_ne {α : Type} (l : List α) (i j : Nat) (x d : α) (h : i ≠ j) :
    (l.set i x).getD j d = l.getD j d := by
  simp [List.getD_eq_getElem?_getD, List.getElem?_set_ne h]

theorem getD_set_self {α : Type} (l : List α) (i : Nat) (x d : α) (h : i < l.length) :
    (l.set i x).getD i d = x := by
  simp [List.getD_eq_getElem?_getD, List.getElem?_set_self h]

theorem getD_append_length {α : Type} (l : List α) (x d : α) :
    (l ++ [x]).getD l.length d = x := by
  simp [List.getD_eq_getElem?_getD]

/-- The branch `if (o2)` writes the Samples that the record at `q` points to and
the record at `q`, and nothing else; the pointers of every record stay. -/
theorem summarize_ost_merge_p_frame (m : memory) (q p n k : Nat) (hq : k ≤ q)
    (hfresh : ∀ a ∈ sample_pointers (record_at m q), n ≤ a) :
    (_summarize_ost_merge_p m q p).samples.take n = m.samples.take n ∧
    (_summarize_ost_merge_p m q p).records.take k = m.records.take k ∧
    (_summarize_ost_merge_p m q p).records.length = m.records.length ∧
    (_summarize_ost_merge_p m q p).samples.length = m.samples.length ∧
    (∀ q2, sample_pointers (record_at (_summarize_ost_merge_p m q p) q2)
      = sample_pointers (record_at m q2)) := by
  have h1 : n ≤ (record_at m q).rbytes := hfresh _ (by simp [sample_pointers])
  have h2 : n ≤ (record_at m q).wbytes := hfresh _ (by simp [sample_pointers])
  have h3 : n ≤ (record_at m q).iops := hfresh _ (by simp [sample_pointers])
  have h4 : n ≤ (record_at m q).num_exports := hfresh _ (by simp [sample_pointers])
  have h5 : n ≤ (record_at m q).lock_count := hfresh _ (by simp [sample_pointers])
  have h6 : n ≤ (record_at m q).grant_rate := hfresh _ (by simp [sample_pointers])
  have h7 : n ≤ (record_at m q).cancel_rate := hfresh _ (by simp [sample_pointers])
  have h8 : n ≤ (record_at m q).connect := hfresh _ (by simp [sample_pointers])
  have h9 : n ≤ (record_at m q).kbytes_free := hfresh _ (by simp [sample_pointers])
  have h10 : n ≤ (record_at m q).kbytes_total := hfresh _ (by simp [sample_pointers])
  refine ⟨?_, ?_, ?_, ?_, ?_⟩
  · simp only [_summarize_ost_merge_p, sample_add_p, sample_min_p,
      take_set_of_le _ _ _ _ h1, take_set_of_le _ _ _ _ h2, take_set_of_le _ _ _ _ h3,
      take_set_of_le _ _ _ _ h4, take_set_of_le _ _ _ _ h5, take_set_of_le _ _ _ _ h6,
      take_set_of_le _ _ _ _ h7, take_set_of_le _ _ _ _ h8, take_set_of_le _ _ _ _ h9,
      take_set_of_le _ _ _ _ h10]
  · simp only [_summarize_ost_merge_p, sample_add_p, sample_min_p,
      take_set_of_le _ _ _ _ hq]
  · simp only [_summarize_ost_merge_p, sample_add_p, sample_min_p, List.length_set]
  · simp only [_summarize_ost_merge_p, sample_add_p, sample_min_p, List.length_set]
  · intro q2
    by_cases hq2 : q = q2
    · subst hq2
      by_cases hlen : q < m.records.length
      · simp only [_summarize_ost_merge_p, sample_add_p, sample_min_p, record_at,
          getD_set_self _ _ _ _ hlen, sample_pointers]
      · simp only [_summarize_ost_merge_p, sample_add_p, sample_min_p, record_at,
          List.set_eq_of_length_le (Nat.le_of_not_lt hlen)]
    · simp only [_summarize_ost_merge_p, sample_add_p, sample_min_p, record_at,
        getD_set_ne _ _ _ _ _ hq2]

/-- The branch `else` allocates a record and ten Samples and writes nothing that
was allocated before; the pointers of the new record are the new Samples. -/
theorem summarize_ost_first_p_frame (m : memory) (p n k : Nat)
    (hn : n ≤ m.samples.length) (hk : k ≤ m.records.length) :
    (_summarize_ost_first_p m p).1.samples.take n = m.samples.take n ∧
    (_summarize_ost_first_p m p).1.records.take k = m.records.take k ∧
    (_summarize_ost_first_p m p).2 = m.records.length ∧
    (_summarize_ost_first_p m p).1.records.length = m.records.length + 1 ∧
    (∀ a ∈ sample_pointers (record_at (_summarize_ost_first_p m p).1
      (_summarize_ost_first_p m p).2), n ≤ a) ∧
    (∀ q2, q2 < m.records.length →
      record_at (_summarize_ost_first_p m p).1 q2 = record_at m q2) := by
  refine ⟨?_, ?_, rfl, ?_, ?_, ?_⟩
  · simp only [_summarize_ost_first_p, _copy_oststat_p, sample_copy_p, List.append_assoc]
    exact List.take_append_of_le_length hn
  · simp only [_summarize_ost_first_p, _copy_oststat_p, sample_copy_p]
    rw [take_set_of_le _ _ _ _ hk]
    exact List.take_append_of_le_length hk
  · simp only [_summarize_ost_first_p, _copy_oststat_p, sample_copy_p, List.length_set,
      List.length_append, List.length_singleton]
  · intro a ha
    simp only [_summarize_ost_first_p, _copy_oststat_p, sample_copy_p, record_at,
      getD_set_self _ _ _ _ (show m.records.length < (m.records ++ [_]).length by simp),
      getD_append_length, sample_pointers, List.length_append, List.length_singleton, List.mem_cons,
      List.mem_singleton, List.not_mem_nil, or_false] at ha
    omega
  · intro q2 hq2
    simp only [_summarize_ost_first_p, _copy_oststat_p, sample_copy_p, record_at]
    rw [getD_set_ne _ _ _ _ _ (by omega), List.getD_append _ _ _ _ hq2]

theorem length_of_take_eq {α : Type} (l l0 : List α) (h : l.take l0.length = l0) :
    l0.length ≤ l.length := by
  have := congrArg List.length h
  rw [List.length_take] at this
  omega

theorem getD_of_take_eq {α : Type} (l l0 : List α) (i : Nat) (d : α)
    (h : l.take l0.length = l0) (hi : i < l0.length) : l.getD i d = l0.getD i d := by
  have := List.getElem?_take_of_lt (l := l) hi
  rw [h] at this
  simp [List.getD_eq_getElem?_getD, this]

/-- The loop of `_summarize_ost` keeps what was allocated before the call, as long
as the records of `oss_data` and the Samples they point to were allocated after
it; the records that it adds to `oss_data` are of that kind. -/
theorem summarize_ost_fold_p_frame (s0 : List sample_t) (r0 : List oststat_ref)
    (l : List Nat) :
    ∀ st : memory × List Nat,
      st.1.samples.take s0.length = s0 → st.1.records.take r0.length = r0 →
      (∀ q ∈ st.2, r0.length ≤ q ∧ q < st.1.records.length ∧
        ∀ a ∈ sample_pointers (record_at st.1 q), s0.length ≤ a) →
      (l.foldl _summarize_ost_step_p st).1.samples.take s0.length = s0 ∧
      (l.foldl _summarize_ost_step_p st).1.records.take r0.length = r0 ∧
      (∀ q ∈ (l.foldl _summarize_ost_step_p st).2, r0.length ≤ q ∧
        q < (l.foldl _summarize_ost_step_p st).1.records.length ∧
        ∀ a ∈ sample_pointers (record_at (l.foldl _summarize_ost_step_p st).1 q),
          s0.length ≤ a) := by
  induction l with
  | nil => intro st h1 h2 h3; exact ⟨h1, h2, h3⟩
  | cons p l ih =>
    intro st h1 h2 h3
    rw [List.foldl_cons]
    have hn := length_of_take_eq _ _ h1
    have hk := length_of_take_eq _ _ h2
    apply ih
    · unfold _summarize_ost_step_p
      cases hfind : list_find_first st.2
          (fun q => _match_oststat2 (load_oststat st.1 q) (record_at st.1 p).ossname) with
      | some q =>
        obtain ⟨hq1, hq2, hq3⟩ := h3 q (List.mem_of_find?_eq_some hfind)
        simp only
        rw [(summarize_ost_merge_p_frame st.1 q p s0.length r0.length hq1 hq3).1, h1]
      | none =>
        simp only
        rw [(summarize_ost_first_p_frame st.1 p s0.length r0.length hn hk).1, h1]
    · unfold _summarize_ost_step_p
      cases hfind : list_find_first st.2
          (fun q => _match_oststat2 (load_oststat st.1 q) (record_at st.1 p).ossname) with
      | some q =>
        obtain ⟨hq1, hq2, hq3⟩ := h3 q (List.mem_of_find?_eq_some hfind)
        simp only
        rw [(summarize_ost_merge_p_frame st.1 q p s0.length r0.length hq1 hq3).2.1, h2]
      | none =>
        simp only
        rw [(summarize_ost_first_p_frame st.1 p s0.length r0.length hn hk).2.1, h2]
    · unfold _summarize_ost_step_p
      cases hfind : list_find_first st.2
          (fun q => _match_oststat2 (load_oststat st.1 q) (record_at st.1 p).ossname) with
      | some q =>
        obtain ⟨hq1, hq2, hq3⟩ := h3 q (List.mem_of_find?_eq_some hfind)
        obtain ⟨-, -, f3, -, f5⟩ :=
          summarize_ost_merge_p_frame st.1 q p s0.length r0.length hq1 hq3
        simp only
        intro q2 hq2m
        obtain ⟨g1, g2, g3⟩ := h3 q2 hq2m
        refine ⟨g1, by rw [f3]; exact g2, ?_⟩
        rw [f5 q2]
        exact g3
      | none =>
        obtain ⟨-, -, f3, f4, f5, f6⟩ :=
          summarize_ost_first_p_frame st.1 p s0.length r0.length hn hk
        simp only
        intro q2 hq2m
        rcases List.mem_append.mp hq2m with hq2m | hq2m
        · obtain ⟨g1, g2, g3⟩ := h3 q2 hq2m
          refine ⟨g1, by rw [f4]; omega, ?_⟩
          rw [f6 q2 g2]
          exact g3
        · rw [List.mem_singleton] at hq2m
          subst hq2m
          refine ⟨by rw [f3]; exact hk, by rw [f3, f4]; omega, f5⟩

/-- On the memory `ex_memory` the aggregated registry built through pointers is
one new record, at address 2, and read through its pointers it is the record
that `_summarize_ost` builds from the two targets as values. -/
theorem summarize_ost_p_example :
    (_summarize_ost_p ex_summarize_state 12).oss_data = [2] ∧
    (_summarize_ost_p ex_summarize_state 12).oss_data.map
        (load_oststat (_summarize_ost_p ex_summarize_state 12).mem)
      = _summarize_ost (ex_summarize_state.ost_data.map (load_oststat ex_summarize_state.mem))
          [] 12 :=
  ⟨by decide, rfl⟩

/-- C15: a call of `_summarize_ost` leaves the list `ost_data` as it is and writes
no record and no Sample that was allocated before the call: every record of
the OST registry has the fields and the Samples it had, and every record of
the aggregated registry, with the Samples it points to, is an object allocated
during the call. -/
theorem summarize_ost_p_frame (st : summarize_state) (stale_secs : Int) :
    (_summarize_ost_p st stale_secs).ost_data = st.ost_data ∧
    (_summarize_ost_p st stale_secs).mem.samples.take st.mem.samples.length
      = st.mem.samples ∧
    (_summarize_ost_p st stale_secs).mem.records.take st.mem.records.length
      = st.mem.records ∧
    (∀ p ∈ st.ost_data, p < st.mem.records.length →
      (∀ a ∈ sample_pointers (record_at st.mem p), a < st.mem.samples.length) →
      load_oststat (_summarize_ost_p st stale_secs).mem p = load_oststat st.mem p) ∧
    (∀ q ∈ (_summarize_ost_p st stale_secs).oss_data, st.mem.records.length ≤ q ∧
      ∀ a ∈ sample_pointers (record_at (_summarize_ost_p st stale_secs).mem q),
        st.mem.samples.length ≤ a) := by
  have hclear : ∀ l, _summarize_ost_clear_p l = [] := by
    intro l
    induction l with
    | nil => rfl
    | cons x l ih => exact ih
  obtain ⟨h1, h2, h3⟩ := summarize_ost_fold_p_frame st.mem.samples st.mem.records
    st.ost_data (st.mem, []) (List.take_length _) (List.take_length _)
    (fun q hq => absurd hq (List.not_mem_nil q))
  have hmem : (_summarize_ost_p st stale_secs).mem
      = (st.ost_data.foldl _summarize_ost_step_p (st.mem, [])).1 := by
    unfold _summarize_ost_p
    rw [hclear]
  rw [hmem]
  refine ⟨rfl, h1, h2, ?_, ?_⟩
  · intro p hp hlt hptr
    have hrec : record_at (st.ost_data.foldl _summarize_ost_step_p (st.mem, [])).1 p
        = record_at st.mem p := getD_of_take_eq _ _ p _ h2 hlt
    have hs : ∀ a ∈ sample_pointers (record_at st.mem p),
        sample_at (st.ost_data.foldl _summarize_ost_step_p (st.mem, [])).1 a
          = sample_at st.mem a := fun a ha => getD_of_take_eq _ _ a _ h1 (hptr a ha)
    unfold load_oststat
    simp only [hrec]
    rw [hs _ (by simp [sample_pointers]), hs _ (by simp [sample_pointers]),
      hs _ (by simp [sample_pointers]), hs _ (by simp [sample_pointers]),
      hs _ (by simp [sample_pointers]), hs _ (by simp [sample_pointers]),
      hs _ (by simp [sample_pointers]), hs _ (by simp [sample_pointers]),
      hs _ (by simp [sample_pointers]), hs _ (by simp [sample_pointers])]
  · intro q hq
    have hq2 : q ∈ (st.ost_data.foldl _summarize_ost_step_p (st.mem, [])).2 := by
      unfold _summarize_ost_p at hq
      rw [hclear] at hq
      exact (list_sort_perm _ _).mem_iff.mp hq
    exact ⟨(h3 q hq2).1, (h3 q hq2).2.2⟩

/-- C15 on the memory `ex_memory`: after the call the two records of the OST
registry, read through their pointers, are what they were, and the list
`ost_data` still holds their addresses in the same order. -/
theorem summarize_ost_p_frame_witness :
    (_summarize_ost_p ex_summarize_state 12).ost_data = [0, 1] ∧
    load_oststat (_summarize_ost_p ex_summarize_state 12).mem 0 = load_oststat ex_memory 0 ∧
    load_oststat (_summarize_ost_p ex_summarize_state 12).mem 1 = load_oststat ex_memory 1 :=
  ⟨(summarize_ost_p_frame ex_summarize_state 12).1,
   (summarize_ost_p_frame ex_summarize_state 12).2.2.2.1 0 (by decide) (by decide)
     (by decide),
   (summarize_ost_p_frame ex_summarize_state 12).2.2.2.1 1 (by decide) (by decide)
     (by decide)⟩

/-! ## C22: the selection after an arrow key -/

/-- C22 as amended: in a state with at least one row whose selection is none
(`-1`) or a row (`0` to `count - 1`), the down key leaves the selection on a
row; the up key leaves the selection on a row when a row was selected and
leaves it at none when none was; neither key changes the row count. -/
theorem main_key_selection (LINES : Int) (fopen_ok : Bool) (v : main_vars)
    (hcount : 1 ≤ v.ostcount) (hlo : -1 ≤ v.selost) (hhi : v.selost ≤ v.ostcount - 1) :
    (0 ≤ (main_key LINES fopen_ok keypress.KEY_DOWN v).selost ∧
      (main_key LINES fopen_ok keypress.KEY_DOWN v).selost
        ≤ (main_key LINES fopen_ok keypress.KEY_DOWN v).ostcount - 1) ∧
    (0 ≤ v.selost →
      0 ≤ (main_key LINES fopen_ok keypress.KEY_UP v).selost ∧
      (main_key LINES fopen_ok keypress.KEY_UP v).selost
        ≤ (main_key LINES fopen_ok keypress.KEY_UP v).ostcount - 1) ∧
    (v.selost = -1 → (main_key LINES fopen_ok keypress.KEY_UP v).selost = -1) ∧
    (main_key LINES fopen_ok keypress.KEY_DOWN v).ostcount = v.ostcount ∧
    (main_key LINES fopen_ok keypress.KEY_UP v).ostcount = v.ostcount := by
  refine ⟨?_, ?_, ?_, ?_, ?_⟩
  · simp only [main_key, main_page_down]
    split_ifs <;> (try simp only) <;> omega
  · intro h0
    simp only [main_key, main_page_up]
    split_ifs <;> (try simp only) <;> omega
  · intro h0
    simp only [main_key, main_page_up]
    split_ifs <;> (try simp only) <;> omega
  · simp only [main_key, main_page_down]
    split_ifs <;> rfl
  · simp only [main_key, main_page_up]
    split_ifs <;> rfl

/-- C22 fails in the state `ex_main`, in which the loop is entered (four rows, no
selection): after the up key the selection is still `-1`. It also fails when
the selection lies past the last row, as after the row count went down from 3
to 2 with row 2 selected: after the down key the selection is still 2. -/
theorem main_key_selection_none :
    1 ≤ ex_main.ostcount ∧
    (main_key 24 true keypress.KEY_UP ex_main).selost = -1 ∧
    (main_key 24 true keypress.KEY_DOWN { ex_main with ostcount := 2, selost := 2 }).selost
      = 2 := by
  decide

/-- C22 as amended, in the state `ex_main`. -/
theorem main_key_selection_witness :
    (0 ≤ (main_key 24 true keypress.KEY_DOWN ex_main).selost ∧
      (main_key 24 true keypress.KEY_DOWN ex_main).selost
        ≤ (main_key 24 true keypress.KEY_DOWN ex_main).ostcount - 1) ∧
    (0 ≤ ex_main.selost →
      0 ≤ (main_key 24 true keypress.KEY_UP ex_main).selost ∧
      (main_key 24 true keypress.KEY_UP ex_main).selost
        ≤ (main_key 24 true keypress.KEY_UP ex_main).ostcount - 1) ∧
    (ex_main.selost = -1 → (main_key 24 true keypress.KEY_UP ex_main).selost = -1) ∧
    (main_key 24 true keypress.KEY_DOWN ex_main).ostcount = ex_main.ostcount ∧
    (main_key 24 true keypress.KEY_UP ex_main).ostcount = ex_main.ostcount :=
  main_key_selection 24 true ex_main (by decide) (by decide) (by decide)

/-! ## C23: the selection stays in the viewport -/

/-- C23: in a state whose viewport has at least one row and whose selection is a
row inside the viewport, not past the last row, the selection after the up key
and after the down key lies inside the viewport as it then is. -/
theorem main_key_selection_visible (LINES : Int) (fopen_ok : Bool) (v : main_vars)
    (hH : 1 ≤ LINES - HDRLINES) (h0 : 0 ≤ v.selost)
    (hvis : v.minost ≤ v.selost ∧ v.selost < v.minost + (LINES - HDRLINES))
    (hle : v.selost ≤ v.ostcount - 1) :
    ((main_key LINES fopen_ok keypress.KEY_UP v).minost
        ≤ (main_key LINES fopen_ok keypress.KEY_UP v).selost ∧
      (main_key LINES fopen_ok keypress.KEY_UP v).selost
        < (main_key LINES fopen_ok keypress.KEY_UP v).minost + (LINES - HDRLINES)) ∧
    ((main_key LINES fopen_ok keypress.KEY_DOWN v).minost
        ≤ (main_key LINES fopen_ok keypress.KEY_DOWN v).selost ∧
      (main_key LINES fopen_ok keypress.KEY_DOWN v).selost
        < (main_key LINES fopen_ok keypress.KEY_DOWN v).minost + (LINES - HDRLINES)) := by
  obtain ⟨hv1, hv2⟩ := hvis
  constructor
  · simp only [main_key, main_page_up]
    split_ifs <;> (try simp only at *) <;> omega
  · simp only [main_key, main_page_down]
    split_ifs <;> (try simp only at *) <;> omega

/-- C23 on a terminal of 10 lines (two rows are visible) with rows 2 and 3 in the
viewport and row 3 selected, row 2 selected, of 5 rows: the down key from row 3
scrolls by a page, the up key from row 2 scrolls back. -/
theorem main_key_selection_visible_witness :
    (((main_key 10 true keypress.KEY_UP
          { ex_main with ostcount := 5, selost := 2, minost := 2 }).minost,
        (main_key 10 true keypress.KEY_UP
          { ex_main with ostcount := 5, selost := 2, minost := 2 }).selost) = (0, 1) ∧
      ((main_key 10 true keypress.KEY_DOWN
          { ex_main with ostcount := 5, selost := 3, minost := 2 }).minost,
        (main_key 10 true keypress.KEY_DOWN
          { ex_main with ostcount := 5, selost := 3, minost := 2 }).selost) = (4, 4)) ∧
    ((main_key 10 true keypress.KEY_UP
          { ex_main with ostcount := 5, selost := 2, minost := 2 }).minost
        ≤ (main_key 10 true keypress.KEY_UP
          { ex_main with ostcount := 5, selost := 2, minost := 2 }).selost ∧
      (main_key 10 true keypress.KEY_UP
          { ex_main with ostcount := 5, selost := 2, minost := 2 }).selost
        < (main_key 10 true keypress.KEY_UP
          { ex_main with ostcount := 5, selost := 2, minost := 2 }).minost
            + (10 - HDRLINES)) :=
  ⟨by decide,
   (main_key_selection_visible 10 true { ex_main with ostcount := 5, selost := 2, minost := 2 }
      (by decide) (by decide) (by decide) (by decide)).1⟩

/-! ## C24: the viewport offset after a page key -/

/-- C24 as amended: in a state whose viewport has at least one row and whose
offset lies in `[0, max (0, count - 1)]`, the page-up key sets the offset to
`max (0, offset - H)`; the page-down key sets it to `offset + H` when
`offset + H < count` and leaves it when `offset + H > count`; in each of these
cases the new offset lies in `[0, max (0, count - 1)]` again and the row count is
unchanged. (Nothing is said about the page-down key at `offset + H = count`.) -/
theorem main_key_page_offset (LINES : Int) (fopen_ok : Bool) (v : main_vars)
    (hH : 1 ≤ LINES - HDRLINES) (h0 : 0 ≤ v.minost)
    (hle : v.minost ≤ max 0 (v.ostcount - 1)) :
    ((main_key LINES fopen_ok keypress.KEY_PPAGE v).minost
        = max 0 (v.minost - (LINES - HDRLINES)) ∧
      0 ≤ (main_key LINES fopen_ok keypress.KEY_PPAGE v).minost ∧
      (main_key LINES fopen_ok keypress.KEY_PPAGE v).minost ≤ max 0 (v.ostcount - 1)) ∧
    ((v.minost + (LINES - HDRLINES) < v.ostcount →
        (main_key LINES fopen_ok keypress.KEY_NPAGE v).minost
          = v.minost + (LINES - HDRLINES)) ∧
      (v.ostcount < v.minost + (LINES - HDRLINES) →
        (main_key LINES fopen_ok keypress.KEY_NPAGE v).minost = v.minost) ∧
      (v.minost + (LINES - HDRLINES) ≠ v.ostcount →
        0 ≤ (main_key LINES fopen_ok keypress.KEY_NPAGE v).minost ∧
        (main_key LINES fopen_ok keypress.KEY_NPAGE v).minost ≤ max 0 (v.ostcount - 1))) ∧
    (main_key LINES fopen_ok keypress.KEY_PPAGE v).ostcount = v.ostcount ∧
    (main_key LINES fopen_ok keypress.KEY_NPAGE v).ostcount = v.ostcount := by
  have hup : (main_key LINES fopen_ok keypress.KEY_PPAGE v).minost
      = max 0 (v.minost - (LINES - HDRLINES)) := by
    simp only [main_key, main_page_up]
    split_ifs with h
    · rw [max_eq_left (le_of_lt h)]
    · rw [max_eq_right (not_lt.mp h)]
  have hdown : (main_key LINES fopen_ok keypress.KEY_NPAGE v).minost
      = (if v.minost + LINES - HDRLINES ≤ v.ostcount then v.minost + (LINES - HDRLINES)
         else v.minost) := by
    simp only [main_key, main_page_down]
    split_ifs <;> rfl
  have hmax : max 0 (v.ostcount - 1) = 0 ∨ max 0 (v.ostcount - 1) = v.ostcount - 1 := by
    rcases le_total (0 : Int) (v.ostcount - 1) with h | h
    · exact Or.inr (max_eq_right h)
    · exact Or.inl (max_eq_left h)
  have hmax0 : (0 : Int) ≤ max 0 (v.ostcount - 1) := le_max_left _ _
  have hmax1 : v.ostcount - 1 ≤ max 0 (v.ostcount - 1) := le_max_right _ _
  refine ⟨⟨hup, ?_, ?_⟩, ⟨?_, ?_, ?_⟩, rfl, ?_⟩
  · rw [hup]; exact le_max_left _ _
  · rw [hup]
    apply max_le hmax0
    omega
  · intro h
    rw [hdown, if_pos (by omega)]
  · intro h
    rw [hdown, if_neg (by omega)]
  · intro h
    rw [hdown]
    split_ifs with hc
    · constructor <;> omega
    · exact ⟨h0, hle⟩
  · simp only [main_key, main_page_down]
    split_ifs <;> rfl

/-- C24 fails with 10 rows on a terminal of 16 lines (8 rows are visible) at offset
0, which lies in `[0, max (0, 10 - 8)]`: after the page-down key the offset is
8, above the bound 2. With 16 rows and offset 8 the page-down key moves the
offset to 16, the row count. -/
theorem main_key_page_down_overshoots :
    (16 : Int) - HDRLINES = 8 ∧
    (main_key 16 true keypress.KEY_NPAGE { ex_main with ostcount := 10, minost := 0 }).minost
      = 8 ∧
    max 0 ((10 : Int) - (16 - HDRLINES)) = 2 ∧
    (main_key 16 true keypress.KEY_NPAGE { ex_main with ostcount := 16, minost := 8 }).minost
      = 16 := by
  decide

/-- C24 as amended, with 20 rows on a terminal of 16 lines (8 rows are visible):
from offset 10 the page-up key leads to offset 2 and from offset 5 to offset 0;
from offset 10 the page-down key leads to offset 18, and from offset 18 it
leaves the offset, all within `[0, 19]`. -/
theorem main_key_page_offset_witness :
    (16 : Int) - HDRLINES = 8 ∧ max 0 ((20 : Int) - 1) = 19 ∧
    (main_key 16 true keypress.KEY_PPAGE
        { ex_main with ostcount := 20, minost := 10 }).minost = 2 ∧
    (main_key 16 true keypress.KEY_PPAGE
        { ex_main with ostcount := 20, minost := 5 }).minost = 0 ∧
    (main_key 16 true keypress.KEY_NPAGE
        { ex_main with ostcount := 20, minost := 10 }).minost = 18 ∧
    (main_key 16 true keypress.KEY_NPAGE
        { ex_main with ostcount := 20, minost := 18 }).minost = 18 ∧
    (0 ≤ (main_key 16 true keypress.KEY_NPAGE
        { ex_main with ostcount := 20, minost := 10 }).minost ∧
      (main_key 16 true keypress.KEY_NPAGE
        { ex_main with ostcount := 20, minost := 10 }).minost ≤ max 0 (20 - 1)) :=
  ⟨by decide, by decide,
   (main_key_page_offset 16 true { ex_main with ostcount := 20, minost := 10 }
      (by decide) (by decide) (by decide)).1.1.trans (by decide),
   (main_key_page_offset 16 true { ex_main with ostcount := 20, minost := 5 }
      (by decide) (by decide) (by decide)).1.1.trans (by decide),
   (main_key_page_offset 16 true { ex_main with ostcount := 20, minost := 10 }
      (by decide) (by decide) (by decide)).2.1.1 (by decide),
   (main_key_page_offset 16 true { ex_main with ostcount := 20, minost := 18 }
      (by decide) (by decide) (by decide)).2.1.2.1 (by decide),
   (main_key_page_offset 16 true { ex_main with ostcount := 20, minost := 10 }
      (by decide) (by decide) (by decide)).2.1.2.2 (by decide)⟩

/-! ## C25: the view key -/

theorem lnot_ne_zero_iff (x : Int) : lnot x ≠ 0 ↔ x = 0 := by
  unfold lnot
  split_ifs with h
  · simp [h]
  · simp [h]

/-- The data step leaves the view mode, the pause flag, the sort key and the
staleness window as they are. -/
theorem main_poll_keeps (D : Decoder) (metrics : Option (List cmetric)) (tpoll : Int)
    (v w : main_vars) (h : main_poll D metrics tpoll v = Except.ok w) :
    w.ostview = v.ostview ∧ w.pause = v.pause ∧ w.sortby = v.sortby ∧
    w.stale_secs = v.stale_secs ∧ w.oss_data = v.oss_data ∧ w.resort = v.resort := by
  unfold main_poll at h
  cases hp : v.playf with
  | none =>
    rw [hp] at h
    simp only [Except.ok.injEq] at h
    rw [← h]
    exact ⟨rfl, rfl, rfl, rfl, rfl, rfl⟩
  | some f =>
    rw [hp] at h
    simp only at h
    cases hplay : _play_file D v.fs v.stale_secs
        { mdt_data := v.mdt_data, ost_data := v.ost_data, f := f,
          tp := some v.tcycle, tdiffp := some v.sample_period } with
    | error e => rw [hplay] at h; cases h
    | ok p =>
      rw [hplay] at h
      simp only [Except.ok.injEq] at h
      rw [← h]
      exact ⟨rfl, rfl, rfl, rfl, rfl, rfl⟩

/-- After the iteration of the main loop in which the view key was pressed, if the
new mode is the aggregated view, the aggregated registry that the next
iteration displays is the sorted result of `_summarize_ost` on the OST
registry as it is after the data step of the iteration. -/
theorem main_iteration_toggle_view (D : Decoder) (LINES : Int) (fopen_ok : Bool)
    (metrics : Option (List cmetric)) (t1 tpoll t2 : Int) (v w : main_vars)
    (h : main_iteration D LINES fopen_ok keypress.toggle_view metrics t1 tpoll t2 v
      = Except.ok w) (hview : w.ostview = 0) :
    ∃ X old, List.Perm X w.ost_data ∧
      w.oss_data = _sort_ostlist (_summarize_ost X old w.stale_secs) w.sortby w.tcycle := by
  have hk1 : (main_key LINES fopen_ok keypress.toggle_view v).resort = 1 := rfl
  have hk2 : (main_key LINES fopen_ok keypress.toggle_view v).ostview = lnot v.ostview := rfl
  unfold main_iteration main_refresh at h
  by_cases hel : t1 - (main_key LINES fopen_ok keypress.toggle_view v).last_sample
      ≥ (main_key LINES fopen_ok keypress.toggle_view v).sample_period
  · simp only [if_pos hel] at h
    cases hpoll : (if lnot (main_key LINES fopen_ok keypress.toggle_view v).pause ≠ 0
        then main_poll D metrics tpoll (main_key LINES fopen_ok keypress.toggle_view v)
        else Except.ok (main_key LINES fopen_ok keypress.toggle_view v)) with
    | error e => rw [hpoll] at h; cases h
    | ok v2 =>
      rw [hpoll] at h
      simp only [ne_eq, one_ne_zero, not_false_eq_true, if_true, Except.ok.injEq] at h
      rw [← h] at hview ⊢
      simp only at hview ⊢
      have hl : lnot v2.ostview ≠ 0 := (lnot_ne_zero_iff _).mpr hview
      refine ⟨v2.ost_data, v2.oss_data, (list_sort_perm _ _).symm, ?_⟩
      simp only [ne_eq] at hl
      simp only [hl, not_false_eq_true, if_true]
  · simp only [if_neg hel, hk1, ne_eq, one_ne_zero, not_false_eq_true, if_true,
      Except.ok.injEq] at h
    rw [← h] at hview ⊢
    simp only at hview ⊢
    rw [hk2] at hview
    have hl : lnot (lnot v.ostview) ≠ 0 := (lnot_ne_zero_iff _).mpr hview
    refine ⟨v.ost_data, v.oss_data, (list_sort_perm _ _).symm, ?_⟩
    simp only [main_key, if_pos hl]

/-- C25: the view key flips the view mode, and a second press flips it back; it
sets the selection to none and the offset to 0, leaves the OST registry as it
is, and sets the row count to the size of the registry of the new mode. When
the new mode is the aggregated view, the aggregated registry is the result of
`_summarize_ost` on the OST registry as it is at the key; otherwise the
aggregated registry is left as it is. At the end of the iteration of the key,
when the rows are drawn next, the aggregated registry of the aggregated view is
the sorted result of `_summarize_ost` on the OST registry of that time. -/
theorem main_key_toggle_view (LINES : Int) (fopen_ok : Bool) (v : main_vars) :
    ((main_key LINES fopen_ok keypress.toggle_view v).ostview ≠ 0 ↔ v.ostview = 0) ∧
    ((main_key LINES fopen_ok keypress.toggle_view
        (main_key LINES fopen_ok keypress.toggle_view v)).ostview ≠ 0 ↔ v.ostview ≠ 0) ∧
    (main_key LINES fopen_ok keypress.toggle_view v).selost = -1 ∧
    (main_key LINES fopen_ok keypress.toggle_view v).minost = 0 ∧
    (main_key LINES fopen_ok keypress.toggle_view v).ost_data = v.ost_data ∧
    (main_key LINES fopen_ok keypress.toggle_view v).ostcount
      = list_count
          (if (main_key LINES fopen_ok keypress.toggle_view v).ostview ≠ 0
           then (main_key LINES fopen_ok keypress.toggle_view v).ost_data
           else (main_key LINES fopen_ok keypress.toggle_view v).oss_data) ∧
    ((main_key LINES fopen_ok keypress.toggle_view v).ostview = 0 →
      (main_key LINES fopen_ok keypress.toggle_view v).oss_data
        = _summarize_ost v.ost_data v.oss_data v.stale_secs) ∧
    ((main_key LINES fopen_ok keypress.toggle_view v).ostview ≠ 0 →
      (main_key LINES fopen_ok keypress.toggle_view v).oss_data = v.oss_data) ∧
    (∀ (D : Decoder) (metrics : Option (List cmetric)) (t1 tpoll t2 : Int) (w : main_vars),
      main_iteration D LINES fopen_ok keypress.toggle_view metrics t1 tpoll t2 v
        = Except.ok w → w.ostview = 0 →
      ∃ X old, List.Perm X w.ost_data ∧
        w.oss_data
          = _sort_ostlist (_summarize_ost X old w.stale_secs) w.sortby w.tcycle) := by
  have hview : (main_key LINES fopen_ok keypress.toggle_view v).ostview = lnot v.ostview := rfl
  refine ⟨?_, ?_, rfl, rfl, rfl, ?_, ?_, ?_, fun D metrics t1 tpoll t2 w h hw =>
    main_iteration_toggle_view D LINES fopen_ok metrics t1 tpoll t2 v w h hw⟩
  · rw [hview]; exact lnot_ne_zero_iff _
  · have h2 : (main_key LINES fopen_ok keypress.toggle_view
        (main_key LINES fopen_ok keypress.toggle_view v)).ostview
        = lnot (lnot v.ostview) := rfl
    rw [h2, lnot_ne_zero_iff]
    constructor
    · intro h hz
      rw [hz] at h
      revert h
      decide
    · intro h
      by_contra hne
      exact h ((lnot_ne_zero_iff _).mp hne)
  · simp only [main_key]
    split_ifs <;> rfl
  · intro h0
    rw [hview] at h0
    have : lnot (lnot v.ostview) ≠ 0 := by rw [h0]; decide
    simp only [main_key, if_pos this]
  · intro hne
    rw [hview] at hne
    have : ¬ lnot (lnot v.ostview) ≠ 0 := by
      rw [lnot_ne_zero_iff]; exact hne
    simp only [main_key, if_neg this]

/-- C25 in the state `ex_main`: the view key enters the aggregated view with the
two rows of the nodes `oss1` (three targets) and `oss2` (one), no selection and
offset 0. -/
theorem main_key_toggle_view_witness :
    ((main_key 24 true keypress.toggle_view ex_main).ostview,
      (main_key 24 true keypress.toggle_view ex_main).ostcount,
      (main_key 24 true keypress.toggle_view ex_main).selost,
      (main_key 24 true keypress.toggle_view ex_main).minost) = (0, 2, -1, 0) ∧
    (main_key 24 true keypress.toggle_view ex_main).oss_data.map (fun o => o.name)
      = ["(3)".toList, "(1)".toList] ∧
    ((main_key 24 true keypress.toggle_view ex_main).ostview = 0 →
      (main_key 24 true keypress.toggle_view ex_main).oss_data
        = _summarize_ost ex_main.ost_data ex_main.oss_data ex_main.stale_secs) :=
  ⟨by decide, by decide, (main_key_toggle_view 24 true ex_main).2.2.2.2.2.2.1⟩

/-! ## C27: the delete key -/

/-- C27: after the delete key every entity of the OST registry and of the
aggregated registry has tag 0; each entity is the entity that stood at its place
before with the tag set to 0, so no other field and no order has changed. The
MDT registry is as before and the selection is none. -/
theorem main_key_clear_tags (LINES : Int) (fopen_ok : Bool) (v : main_vars) :
    (∀ o ∈ (main_key LINES fopen_ok keypress.KEY_DC v).ost_data, o.tag = 0) ∧
    (∀ o ∈ (main_key LINES fopen_ok keypress.KEY_DC v).oss_data, o.tag = 0) ∧
    List.Forall₂ (fun o o2 => { o2 with tag := o.tag } = o) v.ost_data
      (main_key LINES fopen_ok keypress.KEY_DC v).ost_data ∧
    List.Forall₂ (fun o o2 => { o2 with tag := o.tag } = o) v.oss_data
      (main_key LINES fopen_ok keypress.KEY_DC v).oss_data ∧
    (main_key LINES fopen_ok keypress.KEY_DC v).mdt_data = v.mdt_data ∧
    (main_key LINES fopen_ok keypress.KEY_DC v).selost = -1 := by
  have hall : ∀ l : List oststat_t, ∀ o ∈ _clear_tags l, o.tag = 0 := by
    intro l o ho
    obtain ⟨a, -, rfl⟩ := List.mem_map.mp ho
    rfl
  have hrel : ∀ l : List oststat_t,
      List.Forall₂ (fun o o2 => { o2 with tag := o.tag } = o) l (_clear_tags l) := by
    intro l
    induction l with
    | nil => exact List.Forall₂.nil
    | cons a l ih => exact List.Forall₂.cons rfl ih
  exact ⟨hall _, hall _, hrel _, hrel _, rfl, rfl⟩

/-- C27 in the aggregated view of the registry `ex_tagged`, in which a target and
its node are tagged: after the delete key no tag is left. -/
theorem main_key_clear_tags_witness :
    ex_tagged.map (fun o => o.tag) = [0, 0, 1, 0] ∧
    (_summarize_ost ex_tagged [] 12).map (fun o => o.tag) = [1, 0] ∧
    (∀ o ∈ (main_key 24 true keypress.KEY_DC
        { ex_main with ost_data := ex_tagged,
                       oss_data := _summarize_ost ex_tagged [] 12 }).ost_data, o.tag = 0) ∧
    (∀ o ∈ (main_key 24 true keypress.KEY_DC
        { ex_main with ost_data := ex_tagged,
                       oss_data := _summarize_ost ex_tagged [] 12 }).oss_data, o.tag = 0) :=
  ⟨by decide, by decide,
   (main_key_clear_tags 24 true
      { ex_main with ost_data := ex_tagged, oss_data := _summarize_ost ex_tagged [] 12 }).1,
   (main_key_clear_tags 24 true
      { ex_main with ost_data := ex_tagged, oss_data := _summarize_ost ex_tagged [] 12 }).2.1⟩

/-! ## C26: the tag key in the aggregated view -/

theorem tag_nth_ost_loop_cons (selost n : Int) (o : oststat_t) (rest : List oststat_t) :
    _tag_nth_ost_loop selost n (o :: rest)
      = if selost = n then
          ({ o with tag := lnot o.tag } :: rest, some { o with tag := lnot o.tag })
        else
          ((o :: (_tag_nth_ost_loop selost (n + 1) rest).1),
            (_tag_nth_ost_loop selost (n + 1) rest).2) := by
  rw [_tag_nth_ost_loop]

/-- The loop of `_tag_nth_ost` flips the tag of the record at position `selost`
and stops there. -/
theorem tag_nth_ost_loop_at (selost : Int) (pre : List oststat_t) :
    ∀ (n : Int) (a : oststat_t) (post : List oststat_t), selost = n + (pre.length : Int) →
      _tag_nth_ost_loop selost n (pre ++ a :: post)
        = (pre ++ { a with tag := lnot a.tag } :: post, some { a with tag := lnot a.tag }) := by
  induction pre with
  | nil =>
    intro n a post h
    simp only [List.length_nil, Int.ofNat_zero, Nat.cast_zero, add_zero] at h
    rw [List.nil_append, tag_nth_ost_loop_cons, if_pos h]
    rfl
  | cons x pre ih =>
    intro n a post h
    have hne : ¬ selost = n := by
      simp only [List.length_cons, Nat.cast_add, Nat.cast_one] at h
      omega
    have := ih (n + 1) a post (by
      simp only [List.length_cons, Nat.cast_add, Nat.cast_one] at h
      omega)
    rw [List.cons_append, tag_nth_ost_loop_cons, if_neg hne, this]
    rfl

/-- The loop of `_tag_nth_ost` comes to its end without a change when `selost`
is no position of the list. -/
theorem tag_nth_ost_loop_none (selost : Int) (l : List oststat_t) :
    ∀ n : Int, (selost < n ∨ n + (l.length : Int) ≤ selost) →
      _tag_nth_ost_loop selost n l = (l, none) := by
  induction l with
  | nil => intro n _; rfl
  | cons x l ih =>
    intro n h
    have hne : ¬ selost = n := by
      simp only [List.length_cons, Nat.cast_add, Nat.cast_one] at h
      omega
    have := ih (n + 1) (by
      simp only [List.length_cons, Nat.cast_add, Nat.cast_one] at h
      omega)
    rw [tag_nth_ost_loop_cons, if_neg hne, this]

/-- C26: `_tag_nth_ost` on the aggregated registry, with the OST registry as its
third argument, flips the tag of the node record at position `selost`, leaves
the other node records as they are, and gives the new tag value to every OST
entity whose owning-node name is that of the node, the other OST entities and
all other fields staying as they are; when `selost` is negative or not below
the number of node records, both registries stay as they are. The tag key in
the aggregated view stores these two registries. -/
theorem tag_nth_ost_aggregated (oss_data ost_data : List oststat_t) (selost : Int) :
    (∀ pre a post, oss_data = pre ++ a :: post → selost = (pre.length : Int) →
      _tag_nth_ost oss_data selost (some ost_data)
        = (pre ++ { a with tag := lnot a.tag } :: post,
           some (ost_data.map (fun o =>
             if o.ossname = a.ossname then { o with tag := lnot a.tag } else o)))) ∧
    ((selost < 0 ∨ (oss_data.length : Int) ≤ selost) →
      _tag_nth_ost oss_data selost (some ost_data) = (oss_data, some ost_data)) ∧
    (∀ (LINES : Int) (fopen_ok : Bool) (v : main_vars), v.ostview = 0 →
      v.oss_data = oss_data → v.ost_data = ost_data → v.selost = selost →
      ((main_key LINES fopen_ok keypress.tag v).oss_data,
        some (main_key LINES fopen_ok keypress.tag v).ost_data)
        = ((_tag_nth_ost oss_data selost (some ost_data)).1,
           some ((_tag_nth_ost oss_data selost (some ost_data)).2.getD ost_data))) := by
  refine ⟨?_, ?_, ?_⟩
  · intro pre a post hl hs
    unfold _tag_nth_ost
    rw [hl, tag_nth_ost_loop_at selost pre 0 a post (by omega)]
    simp only [_tag_ost_byoss, Prod.mk.injEq, Option.some.injEq, true_and]
    apply List.map_congr_left
    intro o _
    show (if (strcmp o.ossname a.ossname == 0) = true
        then ({ o with tag := lnot a.tag } : oststat_t) else o)
      = if o.ossname = a.ossname then ({ o with tag := lnot a.tag } : oststat_t) else o
    by_cases h : o.ossname = a.ossname
    · have hb : (strcmp o.ossname a.ossname == 0) = true := by
        rw [(strcmp_eq_zero_iff _ _).mpr h]; rfl
      rw [if_pos hb, if_pos h]
    · have hb : ¬ (strcmp o.ossname a.ossname == 0) = true := by
        intro hz
        exact h ((strcmp_eq_zero_iff _ _).mp (by simpa using hz))
      rw [if_neg hb, if_neg h]
  · intro h
    unfold _tag_nth_ost
    rw [tag_nth_ost_loop_none selost oss_data 0 (by omega)]
  · intro LINES fopen_ok v hv h1 h2 h3
    have hn : ¬ v.ostview ≠ 0 := by simp [hv]
    simp only [main_key, if_neg hn, h1, h2, h3]

/-- C26 on the aggregated registry of `ex_registry` (rows `oss1`, `oss2`): tagging
row 0 tags the node record of `oss1` and its three targets `0001`, `0003` and
`0004`; with no row selected nothing changes. -/
theorem tag_nth_ost_aggregated_witness :
    ((_tag_nth_ost (_summarize_ost ex_registry [] 12) 0 (some ex_registry)).1.map
        (fun o => o.tag) = [1, 0] ∧
      ((_tag_nth_ost (_summarize_ost ex_registry [] 12) 0 (some ex_registry)).2.getD []).map
        (fun o => o.tag) = [1, 0, 1, 1]) ∧
    _tag_nth_ost (_summarize_ost ex_registry [] 12) (-1) (some ex_registry)
      = (_summarize_ost ex_registry [] 12, some ex_registry) :=
  ⟨by decide,
   (tag_nth_ost_aggregated (_summarize_ost ex_registry [] 12) ex_registry (-1)).2.1
     (Or.inl (by decide))⟩

/-! ## C28: a refresh cycle while paused -/

theorem lnot_of_ne_zero (x : Int) (h : x ≠ 0) : lnot x = 0 := by
  unfold lnot
  rw [if_neg h]

/-- C28: with the pause flag set, the part of the main loop that holds the refresh
cycle ends without a fatal exit; the OST registry afterwards is a permutation
of the OST registry before, the MDT registry, the cycle time, the stream of the
replay log with its read position, the record log and the sample period are as
before. -/
theorem main_refresh_paused (D : Decoder) (metrics : Option (List cmetric))
    (t1 tpoll t2 : Int) (v : main_vars) (hp : v.pause ≠ 0) :
    ∃ w, main_refresh D metrics t1 tpoll t2 v = Except.ok w ∧
      List.Perm w.ost_data v.ost_data ∧ w.mdt_data = v.mdt_data ∧
      w.tcycle = v.tcycle ∧ w.playf = v.playf ∧ w.recf = v.recf ∧
      w.sample_period = v.sample_period ∧ w.pause = v.pause := by
  have hl : ¬ lnot v.pause ≠ 0 := by rw [lnot_of_ne_zero _ hp]; simp
  unfold main_refresh
  by_cases hel : t1 - v.last_sample ≥ v.sample_period
  · simp only [if_pos hel, if_neg hl, ne_eq, one_ne_zero, not_false_eq_true, if_true]
    exact ⟨_, rfl, list_sort_perm _ _, rfl, rfl, rfl, rfl, rfl, rfl⟩
  · simp only [if_neg hel]
    by_cases hr : v.resort ≠ 0
    · simp only [if_pos hr]
      exact ⟨_, rfl, list_sort_perm _ _, rfl, rfl, rfl, rfl, rfl, rfl⟩
    · simp only [if_neg hr]
      exact ⟨_, rfl, List.Perm.refl _, rfl, rfl, rfl, rfl, rfl, rfl⟩

/-- C28 in the state `ex_main_paused`, eight seconds after the last sample. -/
theorem main_refresh_paused_witness :
    ∃ w, main_refresh ex_decoder none 108 108 108 ex_main_paused = Except.ok w ∧
      List.Perm w.ost_data ex_main_paused.ost_data ∧ w.mdt_data = ex_main_paused.mdt_data ∧
      w.tcycle = ex_main_paused.tcycle ∧ w.playf = ex_main_paused.playf ∧
      w.recf = ex_main_paused.recf ∧
      w.sample_period = ex_main_paused.sample_period ∧ w.pause = ex_main_paused.pause :=
  main_refresh_paused ex_decoder none 108 108 108 ex_main_paused (by decide)

/-! ## C30: the tag of a node record -/

theorem foldl_overwrite_none {α β : Type} (p : β → Bool) (g : α → β) (l : List α) :
    ∀ init : β, (∀ o ∈ l, p (g o) = false) →
      l.foldl (fun st o => if p (g o) then g o else st) init = init := by
  induction l with
  | nil => intro init _; rfl
  | cons y l ih =>
    intro init h
    rw [List.foldl_cons, h y (List.mem_cons_self _ _)]
    exact ih init (fun o ho => h o (List.mem_cons_of_mem _ ho))

/-- Accumulation into an existing node record: the tag is overwritten by that of
every tagged target of the node. -/
theorem node_record_tag (n : List Char) (l : List oststat_t) :
    ∀ a : oststat_t, ∃ agg, node_record n (some a) l = some agg ∧
      agg.tag = (l.filter (fun o => decide (o.ossname = n))).foldl
        (fun st o => if (fun t : Int => decide (t ≠ 0)) o.tag then o.tag else st) a.tag := by
  induction l with
  | nil => intro a; exact ⟨a, rfl, rfl⟩
  | cons o l ih =>
    intro a
    by_cases hn : o.ossname = n
    · obtain ⟨agg, h0, h1⟩ := ih (_summarize_ost_merge a o)
      refine ⟨agg, by simpa [node_record, hn] using h0, ?_⟩
      rw [h1]
      simp only [List.filter_cons, hn, decide_True, if_true, List.foldl_cons]
      congr 1
      simp [_summarize_ost_merge]
    · obtain ⟨agg, h0, h1⟩ := ih a
      refine ⟨agg, by simpa [node_record, hn] using h0, ?_⟩
      rw [h1]; simp [List.filter_cons, hn]

/-- C30: a record of the aggregated registry after `_summarize_ost` is tagged if
and only if some OST entity with its owning-node name is tagged. -/
theorem summarize_ost_tag (ost_data oss_data : List oststat_t) (stale_secs : Int)
    (a : oststat_t) (ha : a ∈ _summarize_ost ost_data oss_data stale_secs) :
    a.tag ≠ 0 ↔ ∃ o ∈ ost_data, o.ossname = a.ossname ∧ o.tag ≠ 0 := by
  rw [summarize_ost_eq] at ha
  have ha2 := (list_sort_perm _cmp_oststat_byoss _).mem_iff.mp ha
  have hrec := summarize_ost_fold_mem ost_data a ha2
  have hmemfil : ∀ x, x ∈ ost_data.filter (fun o => decide (o.ossname = a.ossname)) ↔
      x ∈ ost_data ∧ x.ossname = a.ossname := by
    intro x; simp [List.mem_filter]
  cases hfil : ost_data.filter (fun o => decide (o.ossname = a.ossname)) with
  | nil =>
    have hz : ost_data.countP (fun o => decide (o.ossname = a.ossname)) = 0 := by
      rw [List.countP_eq_length_filter, hfil]; rfl
    rw [node_record_absent a.ossname ost_data hz] at hrec
    cases hrec
  | cons o rest =>
    obtain ⟨post, hpost, hpostfil⟩ := node_record_none a.ossname ost_data o rest hfil
    obtain ⟨agg, h0, h1⟩ := node_record_tag a.ossname post (_summarize_ost_first o)
    rw [hpost, h0] at hrec
    cases hrec
    rw [hpostfil] at h1
    have hfirst : (_summarize_ost_first o).tag = o.tag := rfl
    have htag : a.tag = (o :: rest).foldl
        (fun st x => if (fun t : Int => decide (t ≠ 0)) x.tag then x.tag else st) o.tag := by
      rw [h1, List.foldl_cons, hfirst]
      split_ifs <;> rfl
    constructor
    · intro hne
      by_contra hnone
      have hall : ∀ x ∈ o :: rest, (fun t : Int => decide (t ≠ 0)) x.tag = false := by
        intro x hx
        have hx2 := (hmemfil x).mp (by rw [hfil]; exact hx)
        by_contra hx3
        apply hnone
        refine ⟨x, hx2.1, hx2.2, ?_⟩
        simpa using hx3
      have h3 := foldl_overwrite_none (fun t : Int => decide (t ≠ 0))
        (fun x : oststat_t => x.tag) (o :: rest) o.tag hall
      have ho := hall o (List.mem_cons_self _ _)
      rw [htag, h3] at hne
      simp only [ne_eq, decide_not, Bool.not_eq_false', decide_eq_true_eq] at ho
      exact hne ho
    · rintro ⟨x, hx, hxn, hxt⟩
      intro hzero
      have hp : (fun t : Int => decide (t ≠ 0)) a.tag = false := by simp [hzero]
      rw [htag] at hp
      have := (foldl_overwrite_nominal (fun t : Int => decide (t ≠ 0))
        (fun x : oststat_t => x.tag) (o :: rest) o.tag hp).2 x
        (by rw [← hfil]; exact (hmemfil x).mpr ⟨hx, hxn⟩)
      simp only [ne_eq, decide_not, Bool.not_eq_false', decide_eq_true_eq] at this
      exact hxt this

/-- C30 on the registry `ex_tagged`: the first record of the aggregated registry,
that of node `oss1`, is tagged, as is the target `0003` of that node. -/
theorem summarize_ost_tag_witness :
    (_summarize_ost ex_tagged [] 12).headD ex_ost ∈ _summarize_ost ex_tagged [] 12 ∧
    ((_summarize_ost ex_tagged [] 12).headD ex_ost).tag = 1 ∧
    (((_summarize_ost ex_tagged [] 12).headD ex_ost).tag ≠ 0 ↔
      ∃ o ∈ ex_tagged,
        o.ossname = ((_summarize_ost ex_tagged [] 12).headD ex_ost).ossname ∧ o.tag ≠ 0) :=
  ⟨headD_mem _ _ (by decide), by decide,
   summarize_ost_tag ex_tagged [] 12 _ (headD_mem _ _ (by decide))⟩

/-! ## C21: lines of an unknown metric class or version -/

/-- A line whose metric class and version are none of the three pairs that
`_play_file` dispatches on leaves the registries as they are. -/
theorem apply_record_unknown (D : Decoder) (fs : Option (List Char)) (stale_secs : Int)
    (r : log_record)
    (hunknown : ∀ vers, D.scan_version r.s = some vers →
      ¬ (r.name = "lmt_mdt".toList ∧ vers = 1) ∧ ¬ (r.name = "lmt_ost".toList ∧ vers = 2) ∧
      ¬ (r.name = "lmt_osc".toList ∧ vers = 1))
    (data : List mdtstat_t × List oststat_t) :
    apply_record D fs stale_secs data r = data := by
  unfold apply_record
  cases hv : D.scan_version r.s with
  | none => rfl
  | some vers =>
    obtain ⟨h1, h2, h3⟩ := hunknown vers hv
    have e1 : (strcmp r.name "lmt_mdt".toList == 0 && vers == 1) = false :=
      Bool.eq_false_iff.mpr (fun h => by
        simp only [Bool.and_eq_true, beq_iff_eq] at h
        exact h1 ⟨(strcmp_eq_zero_iff _ _).mp h.1, h.2⟩)
    have e2 : (strcmp r.name "lmt_ost".toList == 0 && vers == 2) = false :=
      Bool.eq_false_iff.mpr (fun h => by
        simp only [Bool.and_eq_true, beq_iff_eq] at h
        exact h2 ⟨(strcmp_eq_zero_iff _ _).mp h.1, h.2⟩)
    have e3 : (strcmp r.name "lmt_osc".toList == 0 && vers == 1) = false :=
      Bool.eq_false_iff.mpr (fun h => by
        simp only [Bool.and_eq_true, beq_iff_eq] at h
        exact h3 ⟨(strcmp_eq_zero_iff _ _).mp h.1, h.2⟩)
    simp only [_dispatch_metric, e1, e2, e3, Bool.false_eq_true, if_false]

/-- C21: let a batch of well-formed lines stamped `t` hold a line `r` whose metric
class and version are none of `(lmt_mdt, 1)`, `(lmt_ost, 2)`, `(lmt_osc, 1)`.
The line leaves any registries as they are, and the call of `_play_file` on
the batch returns without error, having applied the lines before `r` and the
lines after `r` of the batch, with the cycle time `t` and the stream at the
line after the batch. -/
theorem play_file_skips_unknown (D : Decoder) (fs : Option (List Char)) (stale_secs : Int)
    (st : play_state) (t : Nat) (ht : t ≠ 0) (pre post rest : List log_record)
    (r : log_record)
    (hall : ∀ x ∈ pre ++ r :: post, wf_record D x ∧ x.tnow = t)
    (hrest : ∀ x, rest.head? = some x → wf_record D x ∧ x.tnow ≠ t)
    (hf : st.f = { unread := render_log ((pre ++ r :: post) ++ rest), eof := false,
                   error := false })
    (hunknown : ∀ vers, D.scan_version r.s = some vers →
      ¬ (r.name = "lmt_mdt".toList ∧ vers = 1) ∧ ¬ (r.name = "lmt_ost".toList ∧ vers = 2) ∧
      ¬ (r.name = "lmt_osc".toList ∧ vers = 1)) :
    (∀ data, apply_record D fs stale_secs data r = data) ∧
    ∃ st2, _play_file D fs stale_secs st = Except.ok st2 ∧
      (st2.mdt_data, st2.ost_data)
        = post.foldl (apply_record D fs stale_secs)
            (pre.foldl (apply_record D fs stale_secs) (st.mdt_data, st.ost_data)) ∧
      st2.tp = st.tp.map (fun _ => to_time t) ∧
      st2.f.unread = render_log rest := by
  refine ⟨apply_record_unknown D fs stale_secs r hunknown, ?_⟩
  have hcall := play_file_batch D fs stale_secs st t ht (pre ++ r :: post) rest (by simp)
    hall hrest hf
  refine ⟨_, hcall, ?_, rfl, rfl⟩
  simp only [List.foldl_append, List.foldl_cons,
    apply_record_unknown D fs stale_secs r hunknown]

/-- C21 on a batch stamped 100 whose second line has the class `lmt_router`: the
call applies the first and the third line and stops before the line stamped
105. -/
theorem play_file_skips_unknown_witness :
    ∃ st2, _play_file ex_decoder (some "lustre".toList) 12
        (ex_play_start (render_log
          (([ex_line 100 99 "h1" "lmt_ost" "2;oss1;lustre-OST0001"]
            ++ ex_line 100 99 "r1" "lmt_router" "1;rtr1;x"
              :: [ex_line 100 98 "h2" "lmt_ost" "2;oss2;lustre-OST0002"])
            ++ [ex_line 105 104 "h1" "lmt_ost" "2;oss1;lustre-OST0001"])))
        = Except.ok st2 ∧
      (st2.mdt_data, st2.ost_data)
        = [ex_line 100 98 "h2" "lmt_ost" "2;oss2;lustre-OST0002"].foldl
            (apply_record ex_decoder (some "lustre".toList) 12)
            ([ex_line 100 99 "h1" "lmt_ost" "2;oss1;lustre-OST0001"].foldl
              (apply_record ex_decoder (some "lustre".toList) 12) ([], [])) ∧
      st2.tp = some (to_time 100) ∧
      st2.f.unread
        = render_log [ex_line 105 104 "h1" "lmt_ost" "2;oss1;lustre-OST0001"] :=
  (play_file_skips_unknown ex_decoder (some "lustre".toList) 12 _ 100 (by decide)
    [ex_line 100 99 "h1" "lmt_ost" "2;oss1;lustre-OST0001"]
    [ex_line 100 98 "h2" "lmt_ost" "2;oss2;lustre-OST0002"]
    [ex_line 105 104 "h1" "lmt_ost" "2;oss1;lustre-OST0001"]
    (ex_line 100 99 "r1" "lmt_router" "1;rtr1;x")
    (fun x hx => by
      simp only [List.cons_append, List.nil_append, List.mem_cons, List.mem_singleton,
        List.not_mem_nil, or_false] at hx
      rcases hx with rfl | rfl | rfl
      · exact ⟨wf_record_of_check _ _ (by decide), rfl⟩
      · exact ⟨wf_record_of_check _ _ (by decide), rfl⟩
      · exact ⟨wf_record_of_check _ _ (by decide), rfl⟩)
    (fun x hx => by
      simp only [List.head?_cons, Option.some.injEq] at hx
      subst hx
      exact ⟨wf_record_of_check _ _ (by decide), by decide⟩)
    rfl
    (fun vers _ => ⟨fun h => absurd h.1 (by decide), fun h => absurd h.1 (by decide),
      fun h => absurd h.1 (by decide)⟩)).2

/-! ## C29: ingest neither deletes nor duplicates an entity -/

/-- For a target name `FS-OSTxxxx` in which `-OST` first occurs after `FS`,
`_match_oststat` compares the index of the entity with `xxxx`. -/
theorem match_oststat_form (o : oststat_t) (FS xxxx : List Char)
    (hfirst : strstr (FS ++ "-OST".toList ++ xxxx) "-OST".toList = some FS.length) :
    _match_oststat o (FS ++ "-OST".toList ++ xxxx) = decide (o.name = xxxx) := by
  unfold _match_oststat
  rw [hfirst]
  simp only
  have hdrop : (FS ++ "-OST".toList ++ xxxx).drop (FS.length + 4) = xxxx := by
    rw [List.append_assoc, ← List.drop_drop, List.drop_left]
    rfl
  rw [hdrop]
  by_cases h : o.name = xxxx
  · rw [(strcmp_eq_zero_iff _ _).mpr h]
    simp [h]
  · have : ¬ strcmp o.name xxxx = 0 := fun hz => h ((strcmp_eq_zero_iff _ _).mp hz)
    simp [h, this]

/-- The entity that `_create_oststat` makes for a target name `FS-OSTxxxx` has the
index `xxxx` and the filesystem name `FS`. -/
theorem create_oststat_form (FS xxxx : List Char) (stale_secs : Int)
    (hfirst : strstr (FS ++ "-OST".toList ++ xxxx) "-OST".toList = some FS.length)
    (hx : xxxx.length ≤ 16) :
    (_create_oststat (FS ++ "-OST".toList ++ xxxx) stale_secs).name = xxxx ∧
    (_create_oststat (FS ++ "-OST".toList ++ xxxx) stale_secs).fsname = FS := by
  have hdrop : (FS ++ "-OST".toList ++ xxxx).drop (FS.length + 4) = xxxx := by
    rw [List.append_assoc, ← List.drop_drop, List.drop_left]
    rfl
  have htake : (FS ++ "-OST".toList ++ xxxx).take FS.length = FS := by
    rw [List.append_assoc, List.take_left]
  unfold _create_oststat
  simp only [hfirst, strncpy, hdrop, htake, List.take_of_length_le hx, and_self]

theorem list_update_first_at {α : Type} (f : α → Bool) (g : α → α) (o : α) (post : List α)
    (hfo : f o = true) (pre : List α) (hpre : ∀ e ∈ pre, f e = false) :
    list_update_first f g (pre ++ o :: post) = some (pre ++ g o :: post) := by
  induction pre with
  | nil =>
    show (if f o = true then some (g o :: post) else _) = _
    rw [if_pos hfo]
    rfl
  | cons a p ih =>
    have ha := hpre a (List.mem_cons_self _ _)
    have h2 := ih (fun e he => hpre e (List.mem_cons_of_mem _ he))
    show (if f a = true then some (g a :: (p ++ o :: post))
      else (list_update_first f g (p ++ o :: post)).map (a :: ·)) = _
    rw [ha, h2]
    rfl

theorem update_ost_entity_name (r : ost_report) (trcv : Int) (o : oststat_t) :
    (_update_ost_entity r trcv o).name = o.name ∧
    (_update_ost_entity r trcv o).fsname = o.fsname := by
  unfold _update_ost_entity _update_ost_failover
  split_ifs <;> exact ⟨rfl, rfl⟩

theorem update_osc_entity_name (state : List Char) (tnow trcv stale_secs : Int)
    (o : oststat_t) :
    (_update_osc_entity state tnow trcv stale_secs o).name = o.name ∧
    (_update_osc_entity state tnow trcv stale_secs o).fsname = o.fsname := by
  unfold _update_osc_entity
  split_ifs <;> exact ⟨rfl, rfl⟩

/-- C29 as amended: let the target name be `FS-OSTxxxx` with `FS` of at most 16
bytes (what the field `fsname` holds; the copy of a longer one is not defined),
`-OST` not occurring before the end of `FS`, and an index `xxxx` of at most 16
bytes (as 4 hex digits are). If the OST registry holds an entity with
index `xxxx`, `_update_ost` and `_update_osc` replace the first such entity by
an entity with the same index and filesystem name and leave every other entity
and the order as they are; if it holds none, they append one entity with index
`xxxx` and filesystem name `FS` after the existing ones, which stay as they
are. -/
theorem ingest_keeps_entities (FS xxxx state : List Char) (r : ost_report)
    (ost_data : List oststat_t) (tnow trcv stale_secs : Int)
    (hname : r.ostname = FS ++ "-OST".toList ++ xxxx)
    (hfirst : strstr (FS ++ "-OST".toList ++ xxxx) "-OST".toList = some FS.length)
    (hfs : FS.length ≤ 16) (hx : xxxx.length ≤ 16) :
    (∀ o, list_find_first ost_data (fun e => decide (e.name = xxxx)) = some o →
      ∃ pre post o1 o2, ost_data = pre ++ o :: post ∧ (∀ e ∈ pre, e.name ≠ xxxx) ∧
        _update_ost r ost_data tnow trcv stale_secs = pre ++ o1 :: post ∧
        o1.name = xxxx ∧ o1.fsname = o.fsname ∧
        _update_osc (FS ++ "-OST".toList ++ xxxx) state ost_data tnow trcv stale_secs
          = pre ++ o2 :: post ∧
        o2.name = xxxx ∧ o2.fsname = o.fsname) ∧
    ((∀ e ∈ ost_data, e.name ≠ xxxx) →
      ∃ e1 e2, _update_ost r ost_data tnow trcv stale_secs = ost_data ++ [e1] ∧
        e1.name = xxxx ∧ e1.fsname = FS ∧
        _update_osc (FS ++ "-OST".toList ++ xxxx) state ost_data tnow trcv stale_secs
          = ost_data ++ [e2] ∧
        e2.name = xxxx ∧ e2.fsname = FS) := by
  have hf : (fun e : oststat_t => _match_oststat e (FS ++ "-OST".toList ++ xxxx))
      = (fun e => decide (e.name = xxxx)) := by
    funext e
    exact match_oststat_form e FS xxxx hfirst
  obtain ⟨hc1, hc2⟩ := create_oststat_form FS xxxx stale_secs hfirst hx
  constructor
  · intro o hfind
    have hon : o.name = xxxx := by
      unfold list_find_first at hfind
      have := @List.find?_some _ (fun e => decide (e.name = xxxx)) o _ hfind
      simpa using this
    obtain ⟨pre, post, hl, hpre, hupd1⟩ := list_update_first_split
      (fun e => decide (e.name = xxxx)) (_update_ost_entity r trcv) ost_data o hfind
    refine ⟨pre, post, _update_ost_entity r trcv o,
      _update_osc_entity state tnow trcv stale_secs o, hl, ?_, ?_, ?_, ?_, ?_, ?_, ?_⟩
    · intro e he
      simpa using hpre e he
    · unfold _update_ost
      rw [hname, hf, hupd1]
    · rw [(update_ost_entity_name r trcv o).1, hon]
    · exact (update_ost_entity_name r trcv o).2
    · have hupd3 := list_update_first_at (fun e : oststat_t => decide (e.name = xxxx))
        (_update_osc_entity state tnow trcv stale_secs) o post (by simpa using hon) pre hpre
      rw [← hl] at hupd3
      unfold _update_osc
      rw [hf, hupd3]
    · rw [(update_osc_entity_name state tnow trcv stale_secs o).1, hon]
    · exact (update_osc_entity_name state tnow trcv stale_secs o).2
  · intro hnone
    have hfind : list_find_first ost_data (fun e => decide (e.name = xxxx)) = none := by
      unfold list_find_first
      rw [List.find?_eq_none]
      intro e he
      simpa using hnone e he
    have hupd1 := (list_update_first_eq_none (fun e => decide (e.name = xxxx))
      (_update_ost_entity r trcv) ost_data).mpr hfind
    have hupd2 := (list_update_first_eq_none (fun e => decide (e.name = xxxx))
      (_update_osc_entity state tnow trcv stale_secs) ost_data).mpr hfind
    refine ⟨_update_ost_entity r trcv (_create_oststat (FS ++ "-OST".toList ++ xxxx) stale_secs),
      _update_osc_entity state tnow trcv stale_secs
        (_create_oststat (FS ++ "-OST".toList ++ xxxx) stale_secs), ?_, ?_, ?_, ?_, ?_, ?_⟩
    · unfold _update_ost
      rw [hname, hf, hupd1]
    · rw [(update_ost_entity_name _ _ _).1, hc1]
    · rw [(update_ost_entity_name _ _ _).2, hc2]
    · unfold _update_osc
      rw [hf, hupd2]
    · rw [(update_osc_entity_name _ _ _ _ _).1, hc1]
    · rw [(update_osc_entity_name _ _ _ _ _).2, hc2]

/-- C29 fails for the target name `a-OSTb-OST0001`, which has the form `FS-OSTxxxx`
with `FS = a-OSTb` and the index `0001`: the code splits it at its first
`-OST`. Although the registry holds an entity with index `0001`, `_update_osc`
appends an entity, and that entity has the index `b-OST0001` and the
filesystem name `a`. -/
theorem ingest_splits_at_first_ost :
    (_update_osc ("a-OSTb".toList ++ "-OST".toList ++ "0001".toList) "F".toList [ex_ost]
        100 100 12).map (fun e => (e.name, e.fsname))
      = [("0001".toList, "lustre".toList), ("b-OST0001".toList, "a".toList)] ∧
    (_update_ost { ex_report with ostname := "a-OSTb".toList ++ "-OST".toList ++ "0001".toList }
        [ex_ost] 105 105 12).map (fun e => (e.name, e.fsname))
      = [("0001".toList, "lustre".toList), ("b-OST0001".toList, "a".toList)] := by
  decide

/-- C29 as amended, for the target `lustre-OST0001` on the registry `ex_registry`,
which holds it, and for the target `lustre-OST0009`, which is new. -/
theorem ingest_keeps_entities_witness :
    (∃ pre post o1 o2, ex_registry = pre ++ ex_registry.headD ex_ost :: post ∧
        (∀ e ∈ pre, e.name ≠ "0001".toList) ∧
        _update_ost ex_report ex_registry 105 105 12 = pre ++ o1 :: post ∧
        o1.name = "0001".toList ∧ o1.fsname = (ex_registry.headD ex_ost).fsname ∧
        _update_osc ("lustre".toList ++ "-OST".toList ++ "0001".toList) "F".toList
          ex_registry 105 105 12 = pre ++ o2 :: post ∧
        o2.name = "0001".toList ∧ o2.fsname = (ex_registry.headD ex_ost).fsname) ∧
    (∃ e1 e2,
        _update_ost { ex_report with ostname := "lustre-OST0009".toList } ex_registry
          105 105 12 = ex_registry ++ [e1] ∧
        e1.name = "0009".toList ∧ e1.fsname = "lustre".toList ∧
        _update_osc ("lustre".toList ++ "-OST".toList ++ "0009".toList) "F".toList
          ex_registry 105 105 12 = ex_registry ++ [e2] ∧
        e2.name = "0009".toList ∧ e2.fsname = "lustre".toList) :=
  ⟨(ingest_keeps_entities "lustre".toList "0001".toList "F".toList ex_report ex_registry
      105 105 12 (by decide) (by decide) (by decide) (by decide)).1 _ (by decide),
   (ingest_keeps_entities "lustre".toList "0009".toList "F".toList
      { ex_report with ostname := "lustre-OST0009".toList } ex_registry
      105 105 12 (by decide) (by decide) (by decide) (by decide)).2 (by decide)⟩

/-! ## C31: the last batch of the log -/

/-- A call of `_play_file` on a stream whose indicator of end-of-file or of error
is set returns the state it was given. -/
theorem play_file_at_eof (D : Decoder) (fs : Option (List Char)) (stale_secs : Int)
    (st : play_state) (h : (st.f.eof || st.f.error) = true) :
    _play_file D fs stale_secs st = Except.ok st := by
  unfold _play_file
  rw [if_pos h]

/-- Any number of calls of `_play_file` on such a stream return the state given. -/
theorem play_times_at_eof (D : Decoder) (fs : Option (List Char)) (stale_secs : Int)
    (st : play_state) (h : (st.f.eof || st.f.error) = true) (n : Nat) :
    play_times D fs stale_secs n st = Except.ok st := by
  induction n with
  | zero => rfl
  | succ n ih =>
    unfold play_times
    rw [play_file_at_eof D fs stale_secs st h]
    exact ih

/-- C31: a call of `_play_file` that starts at the last batch of a well-formed log
(all remaining lines carry the arrival time `t`, so the scan runs into the end of
the file) does not fail: it applies the lines of the batch in order, stores `t` as
the cycle time, leaves the interval of the caller as it was and leaves the stream
with its indicator of end-of-file set; every later call on that stream, whatever
the registries, cycle time and interval it is given, returns them unchanged, and
so does any number of successive calls. -/
theorem play_file_last_batch (D : Decoder) (fs : Option (List Char)) (stale_secs : Int)
    (st : play_state) (t : Nat) (ht : t ≠ 0) (batch : List log_record)
    (hne : batch ≠ []) (hall : ∀ r ∈ batch, wf_record D r ∧ r.tnow = t)
    (hf : st.f = { unread := render_log batch, eof := false, error := false }) :
    ∃ st2, _play_file D fs stale_secs st = Except.ok st2 ∧
      (st2.mdt_data, st2.ost_data)
        = batch.foldl (apply_record D fs stale_secs) (st.mdt_data, st.ost_data) ∧
      st2.tp = st.tp.map (fun _ => to_time t) ∧
      st2.tdiffp = st.tdiffp ∧
      st2.f = { unread := [], eof := true, error := false } ∧
      (∀ st3 : play_state, st3.f = st2.f →
        _play_file D fs stale_secs st3 = Except.ok st3) ∧
      (∀ n, play_times D fs stale_secs n st2 = Except.ok st2) := by
  have h := play_file_batch D fs stale_secs st t ht batch [] hne hall
    (by intro r hr; simp at hr) (by rw [hf, List.append_nil])
  refine ⟨_, h, rfl, rfl, rfl, rfl, ?_, ?_⟩
  · intro st3 h3
    exact play_file_at_eof D fs stale_secs st3 (by rw [h3]; rfl)
  · intro n
    refine play_times_at_eof D fs stale_secs _ ?_ n
    rfl

/-- C31 on the last two lines of the log of the spec, played with interval 2: the
call applies both lines (targets 0001 and 0003), reports 105, keeps the interval
2, and three more calls change nothing. -/
theorem play_file_last_batch_witness :
    render_log ex_last_batch
      = ("105 104 h1 lmt_ost 2;oss1;lustre-OST0001\n"
        ++ "105 104 m1 lmt_osc 1;mds1;lustre-OST0003\n").toList ∧
    ∃ st2, _play_file ex_decoder (some "lustre".toList) 12
        (ex_play_start (render_log ex_last_batch)) = Except.ok st2 ∧
      st2.ost_data.map (fun o => o.name) = ["0001".toList, "0003".toList] ∧
      st2.tp = some 105 ∧ st2.tdiffp = some 2 ∧ st2.f.eof = true ∧
      _play_file ex_decoder (some "lustre".toList) 12 st2 = Except.ok st2 ∧
      play_times ex_decoder (some "lustre".toList) 12 3 st2 = Except.ok st2 := by
  refine ⟨by decide, ?_⟩
  obtain ⟨st2, h1, h2, h3, h4, h5, h6, h7⟩ :=
    play_file_last_batch ex_decoder (some "lustre".toList) 12
      (ex_play_start (render_log ex_last_batch)) 105 (by decide) ex_last_batch (by decide)
      (fun r hr => by
        have hc : ∀ r ∈ ex_last_batch, wf_record_check ex_decoder r = true ∧ r.tnow = 105 := by
          decide
        exact ⟨wf_record_of_check _ _ (hc r hr).1, (hc r hr).2⟩)
      rfl
  refine ⟨st2, h1, ?_, ?_, ?_, ?_, h6 st2 rfl, h7 3⟩
  · have : st2.ost_data = (ex_last_batch.foldl (apply_record ex_decoder
        (some "lustre".toList) 12) ([], [])).2 := by
      have := congrArg Prod.snd h2
      exact this
    rw [this]; decide
  · rw [h3]; decide
  · rw [h4]; rfl
  · rw [h5]

/-! ## C32: the order of fixed-width hexadecimal indices -/

theorem hex_value_foldl (s : List Char) (acc : Nat) :
    s.foldl (fun acc c => acc * 16 + hex_digit_value c) acc
      = acc * 16 ^ s.length + hex_value s := by
  induction s generalizing acc with
  | nil => simp [hex_value]
  | cons c s ih =>
    unfold hex_value
    simp only [List.foldl_cons, List.length_cons]
    rw [ih, ih (0 * 16 + hex_digit_value c)]
    ring

theorem hex_value_cons (c : Char) (s : List Char) :
    hex_value (c :: s) = hex_digit_value c * 16 ^ s.length + hex_value s := by
  unfold hex_value
  rw [List.foldl_cons, hex_value_foldl]
  simp [hex_value]

theorem hex_value_lt (s : List Char) (h : ∀ c ∈ s, hex_digit_value c < 16) :
    hex_value s < 16 ^ s.length := by
  induction s with
  | nil => simp [hex_value]
  | cons c s ih =>
    rw [hex_value_cons, List.length_cons, pow_succ]
    have h1 := h c (List.mem_cons_self _ _)
    have h2 := ih (fun x hx => h x (List.mem_cons_of_mem _ hx))
    nlinarith

/-- Byte-wise comparison of two digit strings of one length agrees with the
comparison of the numbers they denote, as soon as the order of the digit bytes
is the order of their values. -/
theorem strcmp_hex_value (a : List Char) :
    ∀ b : List Char, a.length = b.length →
      (∀ c ∈ a ++ b, hex_digit_value c < 16) →
      (∀ x ∈ a ++ b, ∀ y ∈ a ++ b, (x.toNat < y.toNat ↔ hex_digit_value x < hex_digit_value y)) →
      (strcmp a b < 0 ↔ hex_value a < hex_value b) ∧
      (strcmp a b = 0 ↔ hex_value a = hex_value b) ∧
      (0 < strcmp a b ↔ hex_value b < hex_value a) := by
  induction a with
  | nil =>
    intro b hlen _ _
    have : b = [] := List.length_eq_zero.mp hlen.symm
    subst this
    simp [strcmp, hex_value]
  | cons x a ih =>
    intro b hlen hd hmono
    cases b with
    | nil => simp at hlen
    | cons y b =>
      have hlen2 : a.length = b.length := by simpa using hlen
      have hsub : ∀ c, c ∈ a ++ b → c ∈ (x :: a) ++ (y :: b) := by
        intro c hc
        simp only [List.mem_append, List.mem_cons] at hc ⊢
        tauto
      have hxm : x ∈ (x :: a) ++ (y :: b) := by simp
      have hym : y ∈ (x :: a) ++ (y :: b) := by simp
      have hrec := ih b hlen2 (fun c hc => hd c (hsub c hc))
        (fun u hu v hv => hmono u (hsub u hu) v (hsub v hv))
      have ha : hex_value a < 16 ^ a.length :=
        hex_value_lt a (fun c hc => hd c (hsub c (List.mem_append_left _ hc)))
      have hb : hex_value b < 16 ^ a.length := by
        rw [hlen2]
        exact hex_value_lt b (fun c hc => hd c (hsub c (List.mem_append_right _ hc)))
      rw [hex_value_cons, hex_value_cons, ← hlen2]
      unfold strcmp
      by_cases hxy : x = y
      · subst hxy
        rw [if_pos rfl]
        obtain ⟨r1, r2, r3⟩ := hrec
        exact ⟨by rw [r1]; omega, by rw [r2]; omega, by rw [r3]; omega⟩
      · rw [if_neg hxy]
        have hne : x.toNat ≠ y.toNat := by
          intro h
          apply hxy
          apply Char.ext
          apply UInt32.ext
          exact h
        have h1 := hmono x hxm y hym
        have h2 := hmono y hym x hxm
        by_cases hlt : x.toNat < y.toNat
        · rw [if_pos hlt]
          have hv := h1.mp hlt
          have : hex_digit_value x * 16 ^ a.length + 16 ^ a.length
              ≤ hex_digit_value y * 16 ^ a.length := by nlinarith
          refine ⟨by constructor <;> intro _ <;> omega, by constructor <;> intro _ <;> omega,
            by constructor <;> intro _ <;> omega⟩
        · rw [if_neg hlt]
          have hgt : y.toNat < x.toNat := by omega
          have hv := h2.mp hgt
          have : hex_digit_value y * 16 ^ a.length + 16 ^ a.length
              ≤ hex_digit_value x * 16 ^ a.length := by nlinarith
          refine ⟨by constructor <;> intro _ <;> omega, by constructor <;> intro _ <;> omega,
            by constructor <;> intro _ <;> omega⟩

theorem hex_lower_value (c : Char) (h : is_hex_lower c = true) :
    hex_digit_value c < 16 ∧
    ((48 ≤ c.toNat ∧ c.toNat ≤ 57 ∧ hex_digit_value c = c.toNat - 48) ∨
     (97 ≤ c.toNat ∧ c.toNat ≤ 102 ∧ hex_digit_value c = c.toNat - 87)) := by
  unfold is_hex_lower isdigit at h
  unfold hex_digit_value isdigit
  simp only [Bool.or_eq_true, Bool.and_eq_true, decide_eq_true_eq] at h ⊢
  rcases h with h | h
  · rw [if_pos h]; omega
  · rw [if_neg (by omega), if_pos h.1]; omega

theorem hex_upper_value (c : Char) (h : is_hex_upper c = true) :
    hex_digit_value c < 16 ∧
    ((48 ≤ c.toNat ∧ c.toNat ≤ 57 ∧ hex_digit_value c = c.toNat - 48) ∨
     (65 ≤ c.toNat ∧ c.toNat ≤ 70 ∧ hex_digit_value c = c.toNat - 55)) := by
  unfold is_hex_upper isdigit at h
  unfold hex_digit_value isdigit
  simp only [Bool.or_eq_true, Bool.and_eq_true, decide_eq_true_eq] at h ⊢
  rcases h with h | h
  · rw [if_pos h]; omega
  · rw [if_neg (by omega), if_neg (by omega)]; omega

/-- C32: for two target indices of 4 hexadecimal digits each, both written with
lower-case letters or both with upper-case letters, `_cmp_oststat_byost` is
negative, zero or positive according as the number the first index denotes is
smaller than, equal to or larger than the number the second one denotes. -/
theorem cmp_oststat_byost_numeric (o1 o2 : oststat_t)
    (h1 : o1.name.length = 4) (h2 : o2.name.length = 4)
    (hcase : (∀ c ∈ o1.name ++ o2.name, is_hex_lower c = true) ∨
      (∀ c ∈ o1.name ++ o2.name, is_hex_upper c = true)) :
    (_cmp_oststat_byost o1 o2 < 0 ↔ hex_value o1.name < hex_value o2.name) ∧
    (_cmp_oststat_byost o1 o2 = 0 ↔ hex_value o1.name = hex_value o2.name) ∧
    (0 < _cmp_oststat_byost o1 o2 ↔ hex_value o2.name < hex_value o1.name) := by
  unfold _cmp_oststat_byost
  refine strcmp_hex_value o1.name o2.name (by rw [h1, h2]) ?_ ?_
  · intro c hc
    rcases hcase with hl | hu
    · exact (hex_lower_value c (hl c hc)).1
    · exact (hex_upper_value c (hu c hc)).1
  · intro x hx y hy
    rcases hcase with hl | hu
    · have hx2 := (hex_lower_value x (hl x hx)).2
      have hy2 := (hex_lower_value y (hl y hy)).2
      omega
    · have hx2 := (hex_upper_value x (hu x hx)).2
      have hy2 := (hex_upper_value y (hu y hy)).2
      omega

/-- C32 on indices of the spec and on letters: `0001` before `0002`, `0009` before
`000a`, `00ff` before `0100`, `00FF` before `0A00`, and an index against itself. -/
theorem cmp_oststat_byost_numeric_witness :
    _cmp_oststat_byost (ex_index "0001") (ex_index "0002") < 0 ∧
    _cmp_oststat_byost (ex_index "0009") (ex_index "000a") < 0 ∧
    hex_value "0009".toList = 9 ∧ hex_value "000a".toList = 10 ∧
    _cmp_oststat_byost (ex_index "00ff") (ex_index "0100") < 0 ∧
    0 < _cmp_oststat_byost (ex_index "0A00") (ex_index "00FF") ∧
    hex_value "0A00".toList = 2560 ∧ hex_value "00FF".toList = 255 ∧
    _cmp_oststat_byost (ex_index "00ff") (ex_index "00ff") = 0 := by
  refine ⟨?_, ?_, by decide, by decide, ?_, ?_, by decide, by decide, ?_⟩
  · exact (cmp_oststat_byost_numeric (ex_index "0001") (ex_index "0002") rfl rfl
      (Or.inl (by decide))).1.mpr (by decide)
  · exact (cmp_oststat_byost_numeric (ex_index "0009") (ex_index "000a") rfl rfl
      (Or.inl (by decide))).1.mpr (by decide)
  · exact (cmp_oststat_byost_numeric (ex_index "00ff") (ex_index "0100") rfl rfl
      (Or.inl (by decide))).1.mpr (by decide)
  · exact (cmp_oststat_byost_numeric (ex_index "0A00") (ex_index "00FF") rfl rfl
      (Or.inr (by decide))).2.2.mpr (by decide)
  · exact (cmp_oststat_byost_numeric (ex_index "00ff") (ex_index "00ff") rfl rfl
      (Or.inl (by decide))).2.1.mpr rfl

/-! ## C33: `_cmp_oststat_byoss` as an ordering -/

theorem strcmp_swap (a : List Char) : ∀ b : List Char, strcmp b a = - strcmp a b := by
  induction a with
  | nil =>
    intro b
    cases b <;> simp [strcmp]
  | cons x a ih =>
    intro b
    cases b with
    | nil => simp [strcmp]
    | cons y b =>
      unfold strcmp
      by_cases hxy : x = y
      · subst hxy
        rw [if_pos rfl, if_pos rfl]
        exact ih b
      · have hyx : ¬ y = x := fun h => hxy h.symm
        rw [if_neg hxy, if_neg hyx]
        have hne : x.toNat ≠ y.toNat := by
          intro h
          apply hxy
          apply Char.ext
          apply UInt32.ext
          exact h
        by_cases hlt : x.toNat < y.toNat
        · rw [if_pos hlt, if_neg (by omega)]
          rfl
        · rw [if_neg hlt, if_pos (by omega)]

theorem cmp_oststat_byoss_swap (o1 o2 : oststat_t) :
    _cmp_oststat_byoss o2 o1 = - _cmp_oststat_byoss o1 o2 := by
  unfold _cmp_oststat_byoss
  rcases h1 : _numerical_suffix o1.ossname with ⟨p1, n1⟩
  rcases h2 : _numerical_suffix o2.ossname with ⟨p2, n2⟩
  cases n1 with
  | none => cases n2 <;> exact strcmp_swap _ _
  | some n1 =>
    cases n2 with
    | none => exact strcmp_swap _ _
    | some n2 =>
      simp only
      by_cases hc : p1 = p2 ∧ strncmp o1.ossname o2.ossname p1 = 0
      · have hc2 : p2 = p1 ∧ strncmp o2.ossname o1.ossname p2 = 0 := by
          refine ⟨hc.1.symm, ?_⟩
          rw [← hc.1]
          unfold strncmp at hc ⊢
          rw [strcmp_swap, hc.2]
          rfl
        rw [if_pos hc, if_pos hc2]
        split_ifs <;> first | rfl | omega
      · have hc2 : ¬ (p2 = p1 ∧ strncmp o2.ossname o1.ossname p2 = 0) := by
          rintro ⟨he, hs⟩
          apply hc
          refine ⟨he.symm, ?_⟩
          rw [← he]
          unfold strncmp at hs ⊢
          rw [strcmp_swap, hs]
          rfl
        rw [if_neg hc, if_neg hc2]
        exact strcmp_swap _ _

/-- C33: `_cmp_oststat_byoss` is not transitive. On the node names `n9`, `n10`
and `n1a` it places `n9` before `n10` (the numbers 9 and 10 after the common part
`n`) and `n10` before `n1a` (byte order, `n1a` not ending in a digit), but `n9`
after `n1a` (byte order again). The sort of `list_sort` therefore depends on the
order of its input: from `n10, n1a, n9` it yields `n9, n10, n1a` and from
`n1a, n9, n10` it yields `n10, n1a, n9`, each with a pair the comparator calls
out of order. The other half of the claim holds: for all names the result for
`(b, a)` is the opposite of the result for `(a, b)`. -/
theorem cmp_oststat_byoss_not_transitive :
    (_cmp_oststat_byoss (ex_oss "n9") (ex_oss "n10") = -1 ∧
     _cmp_oststat_byoss (ex_oss "n10") (ex_oss "n1a") = -1 ∧
     _cmp_oststat_byoss (ex_oss "n9") (ex_oss "n1a") = 1) ∧
    ((list_sort _cmp_oststat_byoss [ex_oss "n10", ex_oss "n1a", ex_oss "n9"]).map
        (fun o => o.ossname) = ["n9".toList, "n10".toList, "n1a".toList] ∧
     (list_sort _cmp_oststat_byoss [ex_oss "n1a", ex_oss "n9", ex_oss "n10"]).map
        (fun o => o.ossname) = ["n10".toList, "n1a".toList, "n9".toList]) ∧
    (∀ o1 o2 : oststat_t, _cmp_oststat_byoss o2 o1 = - _cmp_oststat_byoss o1 o2) := by
  refine ⟨by decide, by decide, cmp_oststat_byoss_swap⟩

/-! ## C34: the stored filesystem name and the filesystem filter -/

/-- The first occurrence of a pattern that starts with `-`, after a prefix that
holds no `-`. -/
theorem strstr_after_prefix (FS p x : List Char) (hFS : '-' ∉ FS) :
    strstr (FS ++ ('-' :: p) ++ x) ('-' :: p) = some FS.length := by
  induction FS with
  | nil =>
    have hpre : ('-' :: p).isPrefixOf ('-' :: (p ++ x)) = true := by
      rw [List.isPrefixOf_iff_prefix]
      exact List.prefix_append ('-' :: p) x
    show (if ('-' :: p).isPrefixOf ('-' :: (p ++ x)) = true then some 0 else _) = _
    rw [if_pos hpre]
    rfl
  | cons a FS ih =>
    have ha : a ≠ '-' := fun h => hFS (by rw [h]; exact List.mem_cons_self _ _)
    have hFS2 : '-' ∉ FS := fun h => hFS (List.mem_cons_of_mem _ h)
    have hno : ('-' :: p).isPrefixOf (a :: (FS ++ ('-' :: p) ++ x)) = false := by
      have hb : ('-' == a) = false := by
        rw [beq_eq_false_iff_ne]
        exact fun h => ha h.symm
      show (('-' == a) && p.isPrefixOf (FS ++ ('-' :: p) ++ x)) = false
      rw [hb]
      rfl
    show (if ('-' :: p).isPrefixOf (a :: (FS ++ ('-' :: p) ++ x)) = true then some 0
      else (strstr (FS ++ ('-' :: p) ++ x) ('-' :: p)).map (· + 1)) = _
    rw [hno, ih hFS2]
    rfl

theorem takeWhile_before_dash (FS rest : List Char) (hFS : '-' ∉ FS) :
    (FS ++ '-' :: rest).takeWhile (fun c => c != '-') = FS := by
  induction FS with
  | nil => simp
  | cons a FS ih =>
    have ha : a ≠ '-' := fun h => hFS (by rw [h]; exact List.mem_cons_self _ _)
    have hFS2 : '-' ∉ FS := fun h => hFS (List.mem_cons_of_mem _ h)
    simp [List.takeWhile_cons, ha, ih hFS2]

/-- For a target name `FS-OSTxxxx` whose `FS` holds no `-` and fits the field
`fsname[17]`, the filesystem name that `_create_oststat` stores is `FS`, and
`_fsmatch` accepts it for that name. -/
theorem fsmatch_create_oststat (FS xxxx : List Char) (stale_secs : Int) (hFS : '-' ∉ FS)
    (hlen : FS.length ≤ 16) :
    (_create_oststat (FS ++ "-OST".toList ++ xxxx) stale_secs).fsname = FS ∧
    _fsmatch (FS ++ "-OST".toList ++ xxxx)
      (_create_oststat (FS ++ "-OST".toList ++ xxxx) stale_secs).fsname = true := by
  have hfirst : strstr (FS ++ "-OST".toList ++ xxxx) "-OST".toList = some FS.length :=
    strstr_after_prefix FS "OST".toList xxxx hFS
  have hfs : (_create_oststat (FS ++ "-OST".toList ++ xxxx) stale_secs).fsname = FS := by
    unfold _create_oststat
    simp only [hfirst, strncpy]
    rw [List.append_assoc, List.take_left]
  refine ⟨hfs, ?_⟩
  rw [hfs, fsmatch_iff, List.append_assoc]
  exact takeWhile_before_dash FS _ hFS

/-- The same for a target name `FS-MDTxxxx` and `_create_mdtstat`. -/
theorem fsmatch_create_mdtstat (FS xxxx : List Char) (stale_secs : Int) (hFS : '-' ∉ FS)
    (hlen : FS.length ≤ 16) :
    (_create_mdtstat (FS ++ "-MDT".toList ++ xxxx) stale_secs).fsname = FS ∧
    _fsmatch (FS ++ "-MDT".toList ++ xxxx)
      (_create_mdtstat (FS ++ "-MDT".toList ++ xxxx) stale_secs).fsname = true := by
  have hfirst : strstr (FS ++ "-MDT".toList ++ xxxx) "-MDT".toList = some FS.length :=
    strstr_after_prefix FS "MDT".toList xxxx hFS
  have hfs : (_create_mdtstat (FS ++ "-MDT".toList ++ xxxx) stale_secs).fsname = FS := by
    unfold _create_mdtstat
    simp only [hfirst, strncpy]
    rw [List.append_assoc, List.take_left]
  refine ⟨hfs, ?_⟩
  rw [hfs, fsmatch_iff, List.append_assoc]
  exact takeWhile_before_dash FS _ hFS

/-- The result of `_find_first_fs` on a stream that starts with a well-formed batch:
the name is taken from the registries that the batch builds without a filter. -/
theorem find_first_fs_play (D : Decoder) (metrics : Option (List cmetric)) (tnow : Int)
    (stale_secs : Int) (f : FILE) (t : Nat) (ht : t ≠ 0) (batch rest : List log_record)
    (hne : batch ≠ []) (hall : ∀ r ∈ batch, wf_record D r ∧ r.tnow = t)
    (hrest : ∀ r, rest.head? = some r → wf_record D r ∧ r.tnow ≠ t)
    (hf : f = { unread := render_log (batch ++ rest), eof := false, error := false }) :
    _find_first_fs D (some f) metrics tnow stale_secs
      = Except.ok
          (_find_first_fs_ret
            (batch.foldl (apply_record D none stale_secs) ([], [])).1
            (batch.foldl (apply_record D none stale_secs) ([], [])).2,
           some f) := by
  unfold _find_first_fs
  simp only
  rw [play_file_batch D none stale_secs _ t ht batch rest hne hall hrest hf]
  simp only [hf]

/-- C34: `_fsmatch` rejects the filesystem name that was stored for a target whose
filesystem name holds a `-`. `_create_oststat` and `_create_mdtstat` cut the name
at `-OST` or `-MDT` (`strstr`), `_fsmatch` at the first `-` (`strchr`): for
`my-fs-OST0001` and `my-fs-MDT0000` the stored name is `my-fs` and `_fsmatch`
returns false on it. On a log about `my-fs`, `_find_first_fs` returns `my-fs`,
and the first replay call filtered by that name drops every line, leaving both
registries empty. For a target name whose filesystem part holds no `-` and has
at most 16 bytes the stored name is accepted, as the claim says. -/
theorem fsmatch_rejects_created_fsname :
    ((_create_oststat "my-fs-OST0001".toList 12).fsname = "my-fs".toList ∧
      _fsmatch "my-fs-OST0001".toList
        (_create_oststat "my-fs-OST0001".toList 12).fsname = false) ∧
    ((_create_mdtstat "my-fs-MDT0000".toList 12).fsname = "my-fs".toList ∧
      _fsmatch "my-fs-MDT0000".toList
        (_create_mdtstat "my-fs-MDT0000".toList 12).fsname = false) ∧
    (render_log (batch_lines ex_batches_dash)
        = ("100 99 h1 lmt_ost 2;oss1;my-fs-OST0001\n100 98 m1 lmt_mdt 1;mds1;my-fs-MDT0000\n"
          ++ "105 104 h1 lmt_ost 2;oss1;my-fs-OST0001\n").toList ∧
      _find_first_fs ex_decoder
          (some (ex_play_start (render_log (batch_lines ex_batches_dash))).f) none 0 12
        = Except.ok (some "my-fs".toList,
            some (ex_play_start (render_log (batch_lines ex_batches_dash))).f) ∧
      (∃ st2, _play_file ex_decoder (some "my-fs".toList) 12
          (ex_play_start (render_log (batch_lines ex_batches_dash))) = Except.ok st2 ∧
        st2.mdt_data = [] ∧ st2.ost_data = [] ∧ st2.tp = some 100 ∧ st2.f.eof = false) ∧
      (∃ st2, _play_file ex_decoder none 12
          (ex_play_start (render_log (batch_lines ex_batches_dash))) = Except.ok st2 ∧
        st2.mdt_data.map (fun m => (m.fsname, m.name)) = [("my-fs".toList, "0000".toList)] ∧
        st2.ost_data.map (fun o => (o.fsname, o.name))
          = [("my-fs".toList, "0001".toList)])) ∧
    (∀ (FS xxxx : List Char) (stale_secs : Int), '-' ∉ FS → FS.length ≤ 16 →
      _fsmatch (FS ++ "-OST".toList ++ xxxx)
        (_create_oststat (FS ++ "-OST".toList ++ xxxx) stale_secs).fsname = true ∧
      _fsmatch (FS ++ "-MDT".toList ++ xxxx)
        (_create_mdtstat (FS ++ "-MDT".toList ++ xxxx) stale_secs).fsname = true) := by
  have hwf : ∀ r ∈ (ex_batches_dash.head!).2,
      wf_record ex_decoder r ∧ r.tnow = 100 := by
    intro r hr
    have hc : ∀ r ∈ (ex_batches_dash.head!).2,
        wf_record_check ex_decoder r = true ∧ r.tnow = 100 := by decide
    exact ⟨wf_record_of_check _ _ (hc r hr).1, (hc r hr).2⟩
  have hrest : ∀ r, (batch_lines (ex_batches_dash.drop 1)).head? = some r →
      wf_record ex_decoder r ∧ r.tnow ≠ 100 := by
    intro r hr
    have hc : ∀ r ∈ batch_lines (ex_batches_dash.drop 1),
        wf_record_check ex_decoder r = true ∧ r.tnow ≠ 100 := by decide
    have hm : r ∈ batch_lines (ex_batches_dash.drop 1) := List.mem_of_mem_head? hr
    exact ⟨wf_record_of_check _ _ (hc r hm).1, (hc r hm).2⟩
  have hplay := fun fs => play_file_batch ex_decoder fs 12
    (ex_play_start (render_log (batch_lines ex_batches_dash))) 100 (by decide)
    (ex_batches_dash.head!).2 (batch_lines (ex_batches_dash.drop 1)) (by decide) hwf hrest rfl
  refine ⟨by decide, by decide, ⟨by decide, ?_, ?_, ?_⟩, ?_⟩
  · have h := find_first_fs_play ex_decoder none 0 12
      (ex_play_start (render_log (batch_lines ex_batches_dash))).f 100 (by decide)
      (ex_batches_dash.head!).2 (batch_lines (ex_batches_dash.drop 1)) (by decide) hwf hrest rfl
    have hret : _find_first_fs_ret
        ((ex_batches_dash.head!).2.foldl (apply_record ex_decoder none 12) ([], [])).1
        ((ex_batches_dash.head!).2.foldl (apply_record ex_decoder none 12) ([], [])).2
        = some "my-fs".toList := by decide
    rw [h, hret]
  · exact ⟨_, hplay (some "my-fs".toList), by decide, by decide, by decide, by decide⟩
  · exact ⟨_, hplay none, by decide, by decide⟩
  · intro FS xxxx stale_secs hFS hlen
    exact ⟨(fsmatch_create_oststat FS xxxx stale_secs hFS hlen).2,
      (fsmatch_create_mdtstat FS xxxx stale_secs hFS hlen).2⟩

/-! ## C8: the read rate as the row prints it -/

theorem round_half_even_eq (x : ℚ) (k : Nat) (h1 : (k : ℚ) - 1 / 2 < |x|)
    (h2 : |x| < (k : ℚ) + 1 / 2) : round_half_even x = k := by
  unfold round_half_even
  have hx0 : (0 : ℚ) ≤ |x| := abs_nonneg x
  have hf0 : (0 : Int) ≤ ⌊|x|⌋ := Int.floor_nonneg.mpr hx0
  have hcast : ((⌊|x|⌋.toNat : Nat) : ℚ) = ((⌊|x|⌋ : Int) : ℚ) := by
    have : ((⌊|x|⌋.toNat : Nat) : Int) = ⌊|x|⌋ := Int.toNat_of_nonneg hf0
    exact_mod_cast this
  have hle : ((⌊|x|⌋ : Int) : ℚ) ≤ |x| := Int.floor_le _
  have hlt : |x| < ((⌊|x|⌋ : Int) : ℚ) + 1 := Int.lt_floor_add_one _
  simp only [hcast]
  rw [← hcast] at hle hlt ⊢
  generalize ⌊|x|⌋.toNat = f at hle hlt ⊢
  have key : ∀ a b : Nat, (a : ℚ) < (b : ℚ) + 1 → a ≤ b := by
    intro a b h
    have : (a : ℚ) < ((b + 1 : Nat) : ℚ) := by push_cast; exact h
    have := Nat.cast_lt.mp this
    omega
  split_ifs with c1 c2 c3
  · apply le_antisymm
    · apply key; linarith
    · apply key; linarith
  · apply le_antisymm
    · apply key; push_cast; linarith
    · apply key; push_cast; linarith
  · exfalso
    have hr : |x| - (f : ℚ) = 1 / 2 := le_antisymm (not_lt.mp c2) (not_lt.mp c1)
    have e1 : f ≤ k := by apply key; linarith
    have e2 : k ≤ f + 1 := by
      have := key k (f + 1) (by push_cast; linarith)
      exact this
    have e3 : (k : ℚ) < (f : ℚ) + 1 := by linarith
    have e4 : k ≤ f := key k f e3
    have : k = f := le_antisymm e4 e1
    subst this
    linarith
  · exfalso
    have hr : |x| - (f : ℚ) = 1 / 2 := le_antisymm (not_lt.mp c2) (not_lt.mp c1)
    have e1 : f ≤ k := by apply key; linarith
    have e3 : (k : ℚ) < (f : ℚ) + 1 := by linarith
    have e4 : k ≤ f := key k f e3
    have : k = f := le_antisymm e4 e1
    subst this
    linarith

/-- The rounding of `printf` is at most one half away from the number. -/
theorem round_half_even_near (x : ℚ) :
    |x| - 1 / 2 ≤ (round_half_even x : ℚ) ∧ (round_half_even x : ℚ) ≤ |x| + 1 / 2 := by
  unfold round_half_even
  have hx0 : (0 : ℚ) ≤ |x| := abs_nonneg x
  have hf0 : (0 : Int) ≤ ⌊|x|⌋ := Int.floor_nonneg.mpr hx0
  have hcast : ((⌊|x|⌋.toNat : Nat) : ℚ) = ((⌊|x|⌋ : Int) : ℚ) := by
    have : ((⌊|x|⌋.toNat : Nat) : Int) = ⌊|x|⌋ := Int.toNat_of_nonneg hf0
    exact_mod_cast this
  have hle : ((⌊|x|⌋ : Int) : ℚ) ≤ |x| := Int.floor_le _
  have hlt : |x| < ((⌊|x|⌋ : Int) : ℚ) + 1 := Int.lt_floor_add_one _
  rw [← hcast] at hle hlt
  generalize ⌊|x|⌋.toNat = f at hle hlt ⊢
  simp only
  split_ifs with c1 c2 c3 <;> push_cast <;> constructor <;> linarith

/-- Two applied reports for one entity from one owning node: afterwards the
entity carries the time and the recovery status of the second report, and the
rate of its read Sample is the difference of the two counters, as converted to
`double`, over the difference of the two times. -/
theorem update_ost_entity_twice (r1 r2 : ost_report) (e : oststat_t)
    (t1 t2 stale_secs now : Int)
    (hoss : r2.ossname = r1.ossname) (hlen : r1.ossname.length < MAXHOSTNAMELEN)
    (h1 : e.ost_metric_timestamp < t1) (h2 : t1 < t2)
    (hwin : e.rbytes.window = stale_secs) (hnow : now - t2 ≤ stale_secs) :
    (_update_ost_entity r2 t2 (_update_ost_entity r1 t1 e)).ost_metric_timestamp = t2 ∧
    (_update_ost_entity r2 t2 (_update_ost_entity r1 t1 e)).recov_status
      = snprintf_s 32 r2.recov_status ∧
    sample_rate (_update_ost_entity r2 t2 (_update_ost_entity r1 t1 e)).rbytes now
      = some ((double_of_uint64 r2.read_bytes - double_of_uint64 r1.read_bytes)
          / (((t2 - t1 : Int)) : ℚ)) := by
  obtain ⟨hts1, -, hoss1, hrb1⟩ := update_ost_entity_applied_rbytes r1 t1 e h1
  have hts1lt : (_update_ost_entity r1 t1 e).ost_metric_timestamp < t2 := by
    rw [hts1]; exact h2
  obtain ⟨hts2, hrs2, -, hrb2⟩ :=
    update_ost_entity_applied_rbytes r2 t2 (_update_ost_entity r1 t1 e) hts1lt
  have hstored : (_update_ost_entity r1 t1 e).ossname = r1.ossname := by
    rw [hoss1]
    by_cases hc : strcmp r1.ossname e.ossname = 0
    · have hc0 : ¬ ((strcmp r1.ossname e.ossname != 0) = true) := by simp [hc]
      rw [if_neg hc0]
      exact ((strcmp_eq_zero_iff _ _).mp hc).symm
    · have hc2 : (strcmp r1.ossname e.ossname != 0) = true := by simpa using hc
      rw [if_pos hc2]
      unfold snprintf_s
      apply List.take_of_length_le
      unfold MAXHOSTNAMELEN at hlen ⊢
      omega
  have hsame : ¬ ((strcmp r2.ossname (_update_ost_entity r1 t1 e).ossname != 0) = true) := by
    rw [hstored, hoss, strcmp_self]
    decide
  rw [if_neg hsame] at hrb2
  have hwin1 : (_update_ost_entity r1 t1 e).rbytes.window = stale_secs := by
    rw [hrb1, (sample_update_facts _ _ _).2.2.2]
    split_ifs
    · exact hwin
    · exact hwin
  obtain ⟨hv, hlast, hlt, -⟩ := sample_update_facts
    (if strcmp r1.ossname e.ossname != 0 then sample_invalidate e.rbytes else e.rbytes)
    (double_of_uint64 r1.read_bytes) t1
  rw [← hrb1] at hv hlast hlt
  refine ⟨hts2, hrs2, ?_⟩
  rw [hrb2, sample_rate_update_valid _ _ _ _ hv (by rw [hwin1]; exact hnow)
    (by rw [hlt]; exact h2), hlast, hlt]

/-- The first report for a target name `FS-OSTxxxx` that no entity of the registry
matches: the entity made by `_create_oststat` is appended, updated, and is the
one found under that name afterwards. -/
theorem update_ost_find_created (r : ost_report) (ost_data : List oststat_t)
    (tnow trcv stale_secs : Int) (FS xxxx : List Char)
    (hnone : list_find_first ost_data (fun o => _match_oststat o r.ostname) = none)
    (hform : r.ostname = FS ++ "-OST".toList ++ xxxx)
    (hfirst : strstr r.ostname "-OST".toList = some FS.length)
    (hx : xxxx.length ≤ 16) :
    list_find_first (_update_ost r ost_data tnow trcv stale_secs)
      (fun o => _match_oststat o r.ostname)
      = some (_update_ost_entity r trcv (_create_oststat r.ostname stale_secs)) := by
  unfold _update_ost
  rw [(list_update_first_eq_none _ _ _).mpr hnone]
  apply list_find_first_append_new _ _ _ hnone
  rw [match_update_ost_entity]
  rw [hform] at hfirst ⊢
  rw [match_oststat_form _ FS xxxx hfirst, (create_oststat_form FS xxxx stale_secs hfirst hx).1]
  simp

/-- The row of an entity that is neither expired nor recovering: it has eleven
fields separated by one blank each, and the sixth, the column rMB/s, is the read
rate divided by 1048576 as `%5.0f` prints it. -/
theorem display_ost_row_rmbps (o : oststat_t) (stale_secs now : Int) (unknown x : ℚ)
    (hts : now - o.ost_metric_timestamp ≤ stale_secs)
    (hrec : strncmp o.recov_status "COMPLETE".toList 8 = 0)
    (hrate : sample_rate o.rbytes now = some x) :
    (ost_row_fields unknown (_update_display_ost_row o stale_secs now)).length = 11 ∧
    (ost_row_fields unknown (_update_display_ost_row o stale_secs now))[5]?
      = some (printf_f0 5 (x / 1048576)) ∧
    ost_row_text unknown (_update_display_ost_row o stale_secs now)
      = List.intercalate [' ']
          (ost_row_fields unknown (_update_display_ost_row o stale_secs now)) := by
  unfold _update_display_ost_row
  rw [if_neg (not_lt.mpr hts), if_neg (by rw [hrec]; decide)]
  refine ⟨rfl, ?_, rfl⟩
  simp only [ost_row_fields, hrate, Option.map_some', Option.getD_some]
  norm_num

theorem strncmp_snprintf (s t : List Char) (n size : Nat) (h : n ≤ size - 1) :
    strncmp (snprintf_s size s) t n = strncmp s t n := by
  unfold strncmp snprintf_s
  rw [List.take_take, min_eq_left h]

/-- C8 as amended: let a target receive two applied reports from the same owning
node (a name of at most 63 bytes), stamped `t1 < t2`, with read counters `c1` and
`c2`, the second with a recovery status that starts with `COMPLETE`; the first
report either finds the entity of the target, last reported before `t1`, or
creates it (`0 < t1`, the name being `FS-OSTxxxx` with at most 16 bytes on each
side). Then for every `now` with `now - t2 ≤ stale_secs` the rate of the read
Sample is `(d2 - d1) / (t2 - t1)`, where `d` is the counter as converted to
`double`, equal to the counter below `2 ^ 53`; the row of the target has eleven
fields, and the sixth, rMB/s, shows that rate divided by 1048576, rounded to an
integer by `%5.0f`. -/
theorem displayed_read_rate (r1 r2 : ost_report) (ost_data : List oststat_t)
    (tnow1 tnow2 t1 t2 stale_secs now : Int) (unknown : ℚ)
    (hname : r2.ostname = r1.ostname) (hoss : r2.ossname = r1.ossname)
    (hlen : r1.ossname.length < MAXHOSTNAMELEN)
    (hent : (∃ e, list_find_first ost_data (fun o => _match_oststat o r1.ostname) = some e ∧
        e.ost_metric_timestamp < t1 ∧ e.rbytes.window = stale_secs) ∨
      (list_find_first ost_data (fun o => _match_oststat o r1.ostname) = none ∧ 0 < t1 ∧
        ∃ FS xxxx, r1.ostname = FS ++ "-OST".toList ++ xxxx ∧
          strstr r1.ostname "-OST".toList = some FS.length ∧
          FS.length ≤ 16 ∧ xxxx.length ≤ 16))
    (h2 : t1 < t2) (hnow : now - t2 ≤ stale_secs)
    (hrec : strncmp r2.recov_status "COMPLETE".toList 8 = 0) :
    ∃ e2, list_find_first
        (_update_ost r2 (_update_ost r1 ost_data tnow1 t1 stale_secs) tnow2 t2 stale_secs)
        (fun o => _match_oststat o r1.ostname) = some e2 ∧
      sample_rate e2.rbytes now
        = some ((double_of_uint64 r2.read_bytes - double_of_uint64 r1.read_bytes)
            / (((t2 - t1 : Int)) : ℚ)) ∧
      (r1.read_bytes < 2 ^ 53 → r2.read_bytes < 2 ^ 53 →
        sample_rate e2.rbytes now
          = some (((r2.read_bytes : ℚ) - (r1.read_bytes : ℚ)) / (((t2 - t1 : Int)) : ℚ))) ∧
      (ost_row_fields unknown (_update_display_ost_row e2 stale_secs now)).length = 11 ∧
      (ost_row_fields unknown (_update_display_ost_row e2 stale_secs now))[5]?
        = some (printf_f0 5
            ((double_of_uint64 r2.read_bytes - double_of_uint64 r1.read_bytes)
              / (((t2 - t1 : Int)) : ℚ) / 1048576)) ∧
      ost_row_text unknown (_update_display_ost_row e2 stale_secs now)
        = List.intercalate [' ']
            (ost_row_fields unknown (_update_display_ost_row e2 stale_secs now)) := by
  -- the entity that the first report works on
  have hfirst : ∃ e, list_find_first (_update_ost r1 ost_data tnow1 t1 stale_secs)
        (fun o => _match_oststat o r1.ostname) = some (_update_ost_entity r1 t1 e) ∧
      e.ost_metric_timestamp < t1 ∧ e.rbytes.window = stale_secs := by
    rcases hent with ⟨e, hfind, hts, hwin⟩ | ⟨hnone, ht1, FS, xxxx, hform, hstr, -, hx⟩
    · exact ⟨e, update_ost_only_newer_aux r1 ost_data tnow1 t1 stale_secs e hfind, hts, hwin⟩
    · exact ⟨_, update_ost_find_created r1 ost_data tnow1 t1 stale_secs FS xxxx hnone hform
        hstr hx, ht1, rfl⟩
  obtain ⟨e, hupd1, hts, hwin⟩ := hfirst
  have hupd2 : list_find_first
      (_update_ost r2 (_update_ost r1 ost_data tnow1 t1 stale_secs) tnow2 t2 stale_secs)
      (fun o => _match_oststat o r1.ostname)
        = some (_update_ost_entity r2 t2 (_update_ost_entity r1 t1 e)) := by
    have := update_ost_only_newer_aux r2 (_update_ost r1 ost_data tnow1 t1 stale_secs)
      tnow2 t2 stale_secs (_update_ost_entity r1 t1 e) (by rw [hname]; exact hupd1)
    rw [hname] at this
    exact this
  obtain ⟨hts2, hrs2, hrate⟩ := update_ost_entity_twice r1 r2 e t1 t2 stale_secs now hoss hlen
    hts h2 hwin hnow
  have hrow := display_ost_row_rmbps (_update_ost_entity r2 t2 (_update_ost_entity r1 t1 e))
    stale_secs now unknown _ (by rw [hts2]; exact hnow)
    (by rw [hrs2, strncmp_snprintf _ _ 8 32 (by norm_num)]; exact hrec) hrate
  refine ⟨_, hupd2, hrate, ?_, hrow.1, hrow.2.1, hrow.2.2⟩
  intro hc1 hc2
  rw [hrate, double_of_uint64_of_lt _ hc1, double_of_uint64_of_lt _ hc2]

/-- A number half-way between two integers is rounded to the even one. -/
theorem round_half_even_tie (x : ℚ) (k : Nat) (hx : |x| = (k : ℚ) + 1 / 2) :
    round_half_even x = if k % 2 = 0 then k else k + 1 := by
  have hfl : ⌊|x|⌋ = (k : Int) := by
    rw [Int.floor_eq_iff, hx]
    push_cast
    constructor <;> linarith
  unfold round_half_even
  rw [hfl, hx]
  simp only [Int.toNat_ofNat, add_sub_cancel_left, lt_self_iff_false, if_false]

/-- What `%W.0f` prints for a non-negative number within one half of `k`. -/
theorem printf_f0_of_near (width : Nat) (x : ℚ) (k : Nat) (hx : 0 ≤ x)
    (h1 : (k : ℚ) - 1 / 2 < x) (h2 : x < (k : ℚ) + 1 / 2) :
    printf_f0 width x = pad_left width (print_decimal k) := by
  unfold printf_f0
  rw [if_neg (not_lt.mpr hx), round_half_even_eq x k (by rw [abs_of_nonneg hx]; exact h1)
    (by rw [abs_of_nonneg hx]; exact h2)]
  rfl

/-- The entity found for `lustre-OST0001` after two reports for that name on an
empty registry. -/
theorem ex_two_reports_find (r1 r2 : ost_report) (t1 t2 : Int)
    (hn1 : r1.ostname = "lustre-OST0001".toList) (hn2 : r2.ostname = r1.ostname) :
    list_find_first (_update_ost r2 (_update_ost r1 [] t1 t1 12) t2 t2 12)
      (fun o => _match_oststat o r1.ostname)
      = some (_update_ost_entity r2 t2
          (_update_ost_entity r1 t1 (_create_oststat r1.ostname 12))) := by
  have h1 := update_ost_find_created r1 [] t1 t1 12 "lustre".toList "0001".toList rfl
    (by rw [hn1]; rfl) (by rw [hn1]; decide) (by decide)
  have := update_ost_only_newer_aux r2 (_update_ost r1 [] t1 t1 12) t2 t2 12
    (_update_ost_entity r1 t1 (_create_oststat r1.ostname 12)) (by rw [hn2]; exact h1)
  rw [hn2] at this
  exact this

/-- C8 fails as stated. With the read counters 1,000,000 and 6,000,000 of the
spec, five seconds apart, the rate is 1,000,000 bytes per second, about 0.954
MB/s, and the column rMB/s of the row shows `1`, the number rounded by `%5.0f`.
When the second report carries the recovery status `RECOVERING 1/5` the row
shows that status and no rate. With an owning-node name of 64 bytes, stored cut
to 63, every report counts as a failover and the rate stays unknown. With the
counters `2 ^ 53` and `2 ^ 53 + 1` one second apart the rate is 0, not 1, both
counters being the same `double`. -/
theorem displayed_read_rate_as_printed :
    (∃ e2, list_find_first
        (_update_ost ex_report (_update_ost ex_report_first [] 100 100 12) 105 105 12)
        (fun o => _match_oststat o ex_report_first.ostname) = some e2 ∧
      sample_rate e2.rbytes 105 = some 1000000 ∧
      (ost_row_fields 0 (_update_display_ost_row e2 12 105))[5]? = some "    1".toList ∧
      (953 / 1000 : ℚ) < (6000000 - 1000000) / (105 - 100) / 1048576 ∧
      ((6000000 - 1000000) / (105 - 100) / 1048576 : ℚ) < 955 / 1000) ∧
    (∃ e2, list_find_first
        (_update_ost ex_report_recovering (_update_ost ex_report_first [] 100 100 12)
          105 105 12)
        (fun o => _match_oststat o ex_report_first.ostname) = some e2 ∧
      _update_display_ost_row e2 12 105
        = ost_row.recovering "0001".toList [] "RECOVERING 1/5".toList ∧
      ost_row_text 0 (_update_display_ost_row e2 12 105)
        = "0001     RECOVERING 1/5".toList) ∧
    (∃ e2, list_find_first
        (_update_ost (ex_report_long 6000000)
          (_update_ost (ex_report_long 1000000) [] 100 100 12) 105 105 12)
        (fun o => _match_oststat o (ex_report_long 1000000).ostname) = some e2 ∧
      (ex_report_long 1000000).ossname = (ex_report_long 6000000).ossname ∧
      sample_rate e2.rbytes 105 = none) ∧
    (∃ e2, list_find_first
        (_update_ost (ex_report_read (2 ^ 53 + 1))
          (_update_ost (ex_report_read (2 ^ 53)) [] 100 100 12) 101 101 12)
        (fun o => _match_oststat o (ex_report_read (2 ^ 53)).ostname) = some e2 ∧
      sample_rate e2.rbytes 101 = some 0 ∧
      (((2 ^ 53 + 1 : Nat) : ℚ) - ((2 ^ 53 : Nat) : ℚ)) / (((101 - 100 : Int)) : ℚ) = 1) := by
  refine ⟨?_, ?_, ?_, ?_⟩
  · obtain ⟨hts, hrs, hrate⟩ := update_ost_entity_twice ex_report_first ex_report
      (_create_oststat ex_report_first.ostname 12) 100 105 12 105 rfl (by decide) (by decide)
      (by decide) rfl (by decide)
    have hval : (double_of_uint64 ex_report.read_bytes
        - double_of_uint64 ex_report_first.read_bytes) / (((105 - 100 : Int)) : ℚ)
        = 1000000 := by
      rw [double_of_uint64_of_lt _ (by decide), double_of_uint64_of_lt _ (by decide)]
      simp only [ex_report, ex_report_first]
      norm_num
    rw [hval] at hrate
    have hrow := display_ost_row_rmbps _ 12 105 0 _ (by rw [hts]; decide)
      (by rw [hrs]; decide) hrate
    refine ⟨_, ex_two_reports_find ex_report_first ex_report 100 105 rfl rfl, hrate, ?_,
      by norm_num, by norm_num⟩
    rw [hrow.2.1, printf_f0_of_near 5 _ 1 (by norm_num) (by norm_num) (by norm_num)]
    rfl
  · refine ⟨_, ex_two_reports_find ex_report_first ex_report_recovering 100 105 rfl rfl,
      by decide, by decide⟩
  · refine ⟨_, ex_two_reports_find (ex_report_long 1000000) (ex_report_long 6000000) 100 105
      rfl rfl, rfl, by decide⟩
  · obtain ⟨hts, hrs, hrate⟩ := update_ost_entity_twice (ex_report_read (2 ^ 53))
      (ex_report_read (2 ^ 53 + 1)) (_create_oststat (ex_report_read (2 ^ 53)).ostname 12)
      100 101 12 101 rfl (by decide) (by decide) (by decide) rfl (by decide)
    have hd1 : double_of_uint64 (ex_report_read (2 ^ 53)).read_bytes
        = (9007199254740992 : ℚ) := by
      show double_of_uint64 (2 ^ 53) = _
      norm_num [double_of_uint64, double_ulp_exp]
    have hd2 : double_of_uint64 (ex_report_read (2 ^ 53 + 1)).read_bytes
        = (9007199254740992 : ℚ) := by
      show double_of_uint64 (2 ^ 53 + 1) = _
      norm_num [double_of_uint64, double_ulp_exp]
    rw [hd1, hd2] at hrate
    refine ⟨_, ex_two_reports_find (ex_report_read (2 ^ 53)) (ex_report_read (2 ^ 53 + 1))
      100 101 rfl rfl, ?_, by norm_num⟩
    rw [hrate]
    norm_num

/-- C8 as amended, twice. On an empty registry the two reports of the spec (read
counters 1,000,000 at time 100 and 6,000,000 at time 105) give at time 110 the
rate 1,000,000, and the column rMB/s shows `1` for 0.954. On the registry that
holds `ex_ost`, last reported at time 100, the counters 3,000,000 at time 101 and
29,214,400 at time 111 give the rate 2,621,440, which is 2.5 MB/s, and the column
shows `2`. -/
theorem displayed_read_rate_witness :
    (∃ e2, list_find_first
        (_update_ost ex_report (_update_ost ex_report_first [] 100 100 12) 105 105 12)
        (fun o => _match_oststat o ex_report_first.ostname) = some e2 ∧
      sample_rate e2.rbytes 110 = some 1000000 ∧
      (ost_row_fields 0 (_update_display_ost_row e2 12 110))[5]? = some "    1".toList ∧
      ost_row_text 0 (_update_display_ost_row e2 12 110)
        = List.intercalate [' '] (ost_row_fields 0 (_update_display_ost_row e2 12 110))) ∧
    (∃ e2, list_find_first
        (_update_ost (ex_report_read 29214400)
          (_update_ost (ex_report_read 3000000) [ex_ost] 101 101 12) 111 111 12)
        (fun o => _match_oststat o (ex_report_read 3000000).ostname) = some e2 ∧
      sample_rate e2.rbytes 111 = some 2621440 ∧
      (2621440 / 1048576 : ℚ) = 5 / 2 ∧
      (ost_row_fields 0 (_update_display_ost_row e2 12 111))[5]? = some "    2".toList) := by
  constructor
  · obtain ⟨e2, h1, h2, h3, h4, h5, h6⟩ := displayed_read_rate ex_report_first ex_report []
      100 105 100 105 12 110 0 rfl rfl (by decide)
      (Or.inr ⟨rfl, by decide, "lustre".toList, "0001".toList, rfl, by decide, by decide,
        by decide⟩)
      (by decide) (by decide) (by decide)
    have hval : (double_of_uint64 ex_report.read_bytes
        - double_of_uint64 ex_report_first.read_bytes) / (((105 - 100 : Int)) : ℚ)
        = 1000000 := by
      rw [double_of_uint64_of_lt _ (by decide), double_of_uint64_of_lt _ (by decide)]
      simp only [ex_report, ex_report_first]
      norm_num
    rw [hval] at h2 h5
    refine ⟨e2, h1, h2, ?_, h6⟩
    rw [h5, printf_f0_of_near 5 _ 1 (by norm_num) (by norm_num) (by norm_num)]
    rfl
  · obtain ⟨e2, h1, h2, h3, h4, h5, h6⟩ := displayed_read_rate (ex_report_read 3000000)
      (ex_report_read 29214400) [ex_ost] 101 111 101 111 12 111 0 rfl rfl (by decide)
      (Or.inl ⟨ex_ost, rfl, by decide, rfl⟩) (by decide) (by decide) (by decide)
    have hval : (double_of_uint64 (ex_report_read 29214400).read_bytes
        - double_of_uint64 (ex_report_read 3000000).read_bytes) / (((111 - 101 : Int)) : ℚ)
        = 2621440 := by
      rw [double_of_uint64_of_lt _ (by decide), double_of_uint64_of_lt _ (by decide)]
      simp only [ex_report_read]
      norm_num
    rw [hval] at h2 h5
    refine ⟨e2, h1, h2, by norm_num, ?_⟩
    rw [h5]
    have hx : (2621440 / 1048576 : ℚ) = 5 / 2 := by norm_num
    unfold printf_f0
    rw [hx, round_half_even_tie (5 / 2) 2 (by norm_num [abs_of_pos])]
    rw [if_neg (by norm_num)]
    rfl

end Ltop
